import Mathlib

/-! A shallow embedding of usb_midi_descriptor_lib.

The C library keeps one global record `midi_host` and walks a raw byte buffer
holding a USB MIDI-streaming interface descriptor.  Here the record is an
explicit state value, a pointer into the buffer is a pair (memory, offset),
bytes are natural numbers reduced modulo 256 at every read, and every loop
whose termination depends on the input takes a fuel argument (`none` means
that the fuel ran out before the C function returned).
-/

namespace UsbMidi

/-! ## Constants of the header file -/

/-- The capacity of `all_string_indices` (usb_midi_descriptor_lib.h). -/
def MAX_STRING_INDICES : Nat := 40
/-- The capacity of `in_jack_info` (usb_midi_descriptor_lib.h). -/
def MAX_IN_JACKS : Nat := 16
/-- The capacity of `out_jack_info` (usb_midi_descriptor_lib.h). -/
def MAX_OUT_JACKS : Nat := 16
/-- The capacity of `ep_in_associated_jacks` (usb_midi_descriptor_lib.h). -/
def MAX_IN_CABLES : Nat := 16
/-- The capacity of `ep_out_associated_jacks` (usb_midi_descriptor_lib.h). -/
def MAX_OUT_CABLES : Nat := 16

/-! ## Constants that the source takes from TinyUSB (`tusb.h`)

Their values are fixed by the USB 2.0 and USB MIDI 1.0 specifications. -/

/-- Standard descriptor type ENDPOINT. -/
def TUSB_DESC_ENDPOINT : Nat := 0x05
/-- Class-specific descriptor type CS_INTERFACE. -/
def TUSB_DESC_CS_INTERFACE : Nat := 0x24
/-- Class-specific descriptor type CS_ENDPOINT. -/
def TUSB_DESC_CS_ENDPOINT : Nat := 0x25
/-- Interface class AUDIO. -/
def TUSB_CLASS_AUDIO : Nat := 1
/-- Audio subclass CONTROL. -/
def AUDIO_SUBCLASS_CONTROL : Nat := 1
/-- Audio subclass MIDI_STREAMING. -/
def AUDIO_SUBCLASS_MIDI_STREAMING : Nat := 3
/-- MIDI class-specific interface subtype MS_HEADER. -/
def MIDI_CS_INTERFACE_HEADER : Nat := 1
/-- MIDI class-specific interface subtype MIDI_IN_JACK. -/
def MIDI_CS_INTERFACE_IN_JACK : Nat := 2
/-- MIDI class-specific interface subtype MIDI_OUT_JACK. -/
def MIDI_CS_INTERFACE_OUT_JACK : Nat := 3
/-- MIDI class-specific interface subtype ELEMENT. -/
def MIDI_CS_INTERFACE_ELEMENT : Nat := 4
/-- MIDI class-specific endpoint subtype MS_GENERAL. -/
def MIDI_CS_ENDPOINT_GENERAL : Nat := 1

/-- The direction of an endpoint address, bit 7 (`tu_edpt_dir` of TinyUSB):
`true` is TUSB_DIR_IN, `false` is TUSB_DIR_OUT. -/
def tu_edpt_dir (addr : Nat) : Bool := addr &&& 0x80 != 0

/-! ## Memory -/

/-- The byte at offset `i` of the memory `d`; offsets outside the list read 0. -/
def rd (d : List Nat) (i : Nat) : Nat := d.getD i 0 % 256

/-- `tu_desc_len`: the bLength byte of the descriptor at offset `p`. -/
def tu_desc_len (d : List Nat) (p : Nat) : Nat := rd d p

/-- `tu_desc_next`: the offset of the descriptor after the one at `p`. -/
def tu_desc_next (d : List Nat) (p : Nat) : Nat := p + rd d p

/-! ## The model record -/

/-- One entry of `in_jack_info`. -/
structure in_jack_info_t where
  jack_id : Nat
  jack_type : Nat
  string_index : Nat
deriving DecidableEq

/-- One entry of `out_jack_info`. -/
structure out_jack_info_t where
  jack_id : Nat
  jack_type : Nat
  num_source_ids : Nat
  source_ids : List Nat
  string_index : Nat
deriving DecidableEq

/-- The record `usb_midi_descriptor_info_t`; arrays are lists of their C
capacity, written with `List.set` and read with `List.getD`. -/
structure usb_midi_descriptor_info_t where
  configured : Bool
  ep_in : Nat
  ep_out : Nat
  num_cables_rx : Nat
  num_cables_tx : Nat
  all_string_indices : List Nat
  num_string_indices : Nat
  in_jack_info : List in_jack_info_t
  next_in_jack : Nat
  out_jack_info : List out_jack_info_t
  next_out_jack : Nat
  ep_in_associated_jacks : List Nat
  ep_out_associated_jacks : List Nat
deriving DecidableEq

/-- The all-zero IN-jack entry. -/
def in_jack_zero : in_jack_info_t := ⟨0, 0, 0⟩

/-- The all-zero OUT-jack entry. -/
def out_jack_zero : out_jack_info_t := ⟨0, 0, 0, List.replicate MAX_IN_JACKS 0, 0⟩

/-- `usb_midi_descriptor_lib_init`: the record after `memset(&midi_host, 0, ...)`. -/
def usb_midi_descriptor_lib_init : usb_midi_descriptor_info_t :=
  { configured := false
    ep_in := 0
    ep_out := 0
    num_cables_rx := 0
    num_cables_tx := 0
    all_string_indices := List.replicate MAX_STRING_INDICES 0
    num_string_indices := 0
    in_jack_info := List.replicate MAX_IN_JACKS in_jack_zero
    next_in_jack := 0
    out_jack_info := List.replicate MAX_OUT_JACKS out_jack_zero
    next_out_jack := 0
    ep_in_associated_jacks := List.replicate MAX_IN_CABLES 0
    ep_out_associated_jacks := List.replicate MAX_OUT_CABLES 0 }

/-- The statement `all_string_indices[num_string_indices++] = v`; the counter
is a `uint8_t`.  A write at an index past the array is dropped by `List.set`,
in C it is out of bounds and lands in the fields that follow the array, so the
model is the C code only as long as the counter is below MAX_STRING_INDICES
when the statement runs. -/
def push_string_index (s : usb_midi_descriptor_info_t) (v : Nat) :
    usb_midi_descriptor_info_t :=
  { s with
    all_string_indices := s.all_string_indices.set s.num_string_indices v
    num_string_indices := (s.num_string_indices + 1) % 256 }

/-- The loop `for (jack = 0; jack < bNrInputPins; jack++) source_ids[jack] =
associated_jack->id;` with `n` iterations left: the pointer `associated_jack`
is never advanced, so every iteration stores the same byte `id`.  The loop has
no bound other than `bNrInputPins`: a write at an index past the 16 entries of
`source_ids` is dropped by `List.set`, in C it is out of bounds and lands in
the fields that follow, so the model is the C code for `bNrInputPins <= 16`
only. -/
def store_source_ids (id : Nat) : Nat → Nat → List Nat → List Nat
  | 0, _, a => a
  | n + 1, jack, a => store_source_ids id n (jack + 1) (a.set jack id)

/-- The loop `for (jack = 0; jack < max_jack; jack++) assoc[jack] =
p_csep->baAssocJackID[jack];` with `n` iterations left; `q` is the offset of
`baAssocJackID`. -/
def copy_assoc_jacks (d : List Nat) (q : Nat) : Nat → Nat → List Nat → List Nat
  | 0, _, a => a
  | n + 1, jack, a => copy_assoc_jacks d q n (jack + 1) (a.set jack (rd d (q + jack)))

/-! ## The walk of `usb_midi_descriptor_lib_configure` -/

/-- The CS_INTERFACE branch of the loop body (lines 135-200) for the
sub-descriptor at offset `p`; `none` is the `TU_VERIFY(false)` of an unknown
subtype. -/
def walk_cs_interface (d : List Nat) (s : usb_midi_descriptor_info_t) (p : Nat) :
    Option usb_midi_descriptor_info_t :=
  let bDescriptorSubType := rd d (p + 2)
  if bDescriptorSubType = MIDI_CS_INTERFACE_HEADER then
    some s
  else if bDescriptorSubType = MIDI_CS_INTERFACE_IN_JACK then
    if s.next_in_jack < MAX_IN_JACKS then
      let iJack := rd d (p + 5)
      let s1 := { s with
        in_jack_info := s.in_jack_info.set s.next_in_jack
          { jack_id := rd d (p + 4), jack_type := rd d (p + 3), string_index := iJack }
        next_in_jack := (s.next_in_jack + 1) % 256 }
      some (if iJack ≠ 0 then push_string_index s1 iJack else s1)
    else some s
  else if bDescriptorSubType = MIDI_CS_INTERFACE_OUT_JACK then
    if s.next_out_jack < MAX_OUT_JACKS then
      let bNrInputPins := rd d (p + 5)
      let old := s.out_jack_info.getD s.next_out_jack out_jack_zero
      let s1 := { s with
        out_jack_info := s.out_jack_info.set s.next_out_jack
          { jack_id := rd d (p + 4)
            jack_type := rd d (p + 3)
            num_source_ids := bNrInputPins
            source_ids := store_source_ids (rd d (p + 6)) bNrInputPins 0 old.source_ids
            string_index := rd d (p + 6 + bNrInputPins * 2) }
        next_out_jack := (s.next_out_jack + 1) % 256 }
      -- `p_mdoj->iJack` is the field at the fixed offset 8 of midi_desc_out_jack_t
      let iJack := rd d (p + 8)
      some (if iJack ≠ 0 then push_string_index s1 iJack else s1)
    else some s
  else if bDescriptorSubType = MIDI_CS_INTERFACE_ELEMENT then
    -- `element_descriptor[element_descriptor[0]-1]`; with bLength 0 at offset 0
    -- the byte read lies before the memory and is 0 here
    let idx := if p + rd d p = 0 then 0 else rd d (p + rd d p - 1)
    some (if idx > 0 then push_string_index s idx else s)
  else none

/-- The CS_ENDPOINT branch of the loop body (lines 201-242); the result is the
new record, `none` is a failed `TU_VERIFY`. -/
def walk_cs_endpoint (d : List Nat) (s : usb_midi_descriptor_info_t) (p prev_ep_addr : Nat) :
    Option usb_midi_descriptor_info_t :=
  if prev_ep_addr = 0 then none
  else if tu_edpt_dir prev_ep_addr = false then
    if s.ep_out ≠ prev_ep_addr then none
    else if s.num_cables_tx ≠ 0 then none
    else
      let bNumEmbMIDIJack := rd d (p + 3)
      let max_jack := if bNumEmbMIDIJack > MAX_OUT_CABLES then MAX_OUT_CABLES else bNumEmbMIDIJack
      some { s with
        num_cables_tx := bNumEmbMIDIJack
        ep_out_associated_jacks := copy_assoc_jacks d (p + 4) max_jack 0 s.ep_out_associated_jacks }
  else
    if s.ep_in ≠ prev_ep_addr then none
    else if s.num_cables_rx ≠ 0 then none
    else
      let bNumEmbMIDIJack := rd d (p + 3)
      let max_jack := if bNumEmbMIDIJack > MAX_IN_CABLES then MAX_IN_CABLES else bNumEmbMIDIJack
      some { s with
        num_cables_rx := bNumEmbMIDIJack
        ep_in_associated_jacks := copy_assoc_jacks d (p + 4) max_jack 0 s.ep_in_associated_jacks }

/-- The ENDPOINT branch of the loop body (lines 243-262); the result is the new
record and the new `prev_ep_addr`. -/
def walk_endpoint (d : List Nat) (s : usb_midi_descriptor_info_t) (p : Nat) :
    Option (usb_midi_descriptor_info_t × Nat) :=
  let bEndpointAddress := rd d (p + 2)
  if tu_edpt_dir bEndpointAddress = false then
    if s.ep_out ≠ 0 then none
    else if s.num_cables_tx ≠ 0 then none
    else some ({ s with ep_out := bEndpointAddress }, bEndpointAddress)
  else
    if s.ep_in ≠ 0 then none
    else if s.num_cables_rx ≠ 0 then none
    else some ({ s with ep_in := bEndpointAddress }, bEndpointAddress)

/-- One iteration of the `while (len_parsed < max_len)` loop for the
sub-descriptor at offset `p`: the new record and the new `prev_ep_addr`, or
`none` when a `TU_VERIFY` fails.  Every `TU_VERIFY` of the body precedes the
writes of its branch, so on failure the record is the one the iteration began
with. -/
def walk_body (d : List Nat) (s : usb_midi_descriptor_info_t) (p prev_ep_addr : Nat) :
    Option (usb_midi_descriptor_info_t × Nat) :=
  let bDescriptorType := rd d (p + 1)
  let bDescriptorSubType := rd d (p + 2)
  if ¬ (bDescriptorType = TUSB_DESC_CS_INTERFACE ∨
        (bDescriptorType = TUSB_DESC_CS_ENDPOINT ∧ bDescriptorSubType = MIDI_CS_ENDPOINT_GENERAL) ∨
        bDescriptorType = TUSB_DESC_ENDPOINT) then none
  else if bDescriptorType = TUSB_DESC_CS_INTERFACE then
    match walk_cs_interface d s p with
    | none => none
    | some s1 => some (s1, prev_ep_addr)
  else if bDescriptorType = TUSB_DESC_CS_ENDPOINT then
    match walk_cs_endpoint d s p prev_ep_addr with
    | none => none
    | some s1 => some (s1, 0)
  else if bDescriptorType = TUSB_DESC_ENDPOINT then
    walk_endpoint d s p
  else some (s, prev_ep_addr)

/-- The loop `while (len_parsed < max_len)` (lines 129-265).  `some (false, s)`:
a `TU_VERIFY` made the function return false with the record `s`;
`some (true, s)`: the loop ended with the record `s`; `none`: out of fuel.
`len_parsed` is a `uint32_t`. -/
def walk (d : List Nat) (max_len : Nat) :
    Nat → usb_midi_descriptor_info_t → Nat → Nat → Nat →
    Option (Bool × usb_midi_descriptor_info_t)
  | 0, s, _, len_parsed, _ =>
    if len_parsed < max_len then none else some (true, s)
  | fuel + 1, s, p, len_parsed, prev_ep_addr =>
    if len_parsed < max_len then
      match walk_body d s p prev_ep_addr with
      | none => some (false, s)
      | some (s1, prev1) =>
        walk d max_len fuel s1 (tu_desc_next d p) ((len_parsed + rd d p) % 2 ^ 32) prev1
    else some (true, s)

/-! ## Removal of duplicate string indices (lines 270-279) -/

/-- The innermost loop `while (jdx < n && a[idx] == a[jdx]) { a[jdx] = a[n-1];
--n; }`, by recursion on the counter `n = num_string_indices`. -/
def dedup_while (idx jdx : Nat) (a : List Nat) : Nat → List Nat × Nat
  | 0 => (a, 0)
  | n + 1 =>
    if jdx < n + 1 ∧ a.getD idx 0 = a.getD jdx 0 then
      dedup_while idx jdx (a.set jdx (a.getD n 0)) n
    else (a, n + 1)

/-- The loop `for (jdx = ...; jdx < n; jdx++)` around `dedup_while`; each
iteration increases `jdx` and does not increase `n`, so `fuel >= n - jdx`
iterations are enough. -/
def dedup_inner (idx : Nat) : Nat → Nat → List Nat → Nat → List Nat × Nat
  | 0, _, a, n => (a, n)
  | fuel + 1, jdx, a, n =>
    if jdx < n then
      let r := dedup_while idx jdx a n
      dedup_inner idx fuel (jdx + 1) r.1 r.2
    else (a, n)

/-- The loop `for (idx = ...; idx < n; idx++)` around `dedup_inner`. -/
def dedup_outer : Nat → Nat → List Nat → Nat → List Nat × Nat
  | 0, _, a, n => (a, n)
  | fuel + 1, idx, a, n =>
    if idx < n then
      let r := dedup_inner idx n (idx + 1) a n
      dedup_outer fuel (idx + 1) r.1 r.2
    else (a, n)

/-- The whole duplicate removal applied to the record. -/
def remove_duplicates (s : usb_midi_descriptor_info_t) : usb_midi_descriptor_info_t :=
  let r := dedup_outer s.num_string_indices 0 s.all_string_indices s.num_string_indices
  { s with all_string_indices := r.1, num_string_indices := r.2 }

/-- The condition of the final `TU_VERIFY` (lines 267-268). -/
def has_usable_endpoint (s : usb_midi_descriptor_info_t) : Bool :=
  (s.ep_out != 0 && s.num_cables_tx != 0) || (s.ep_in != 0 && s.num_cables_rx != 0)

/-- The end of `usb_midi_descriptor_lib_configure` after the loop (lines
266-282): the final `TU_VERIFY`, the duplicate removal and `configured = true`. -/
def configure_finish (s : usb_midi_descriptor_info_t) : Bool × usb_midi_descriptor_info_t :=
  if has_usable_endpoint s then
    (true, { remove_duplicates s with configured := true })
  else (false, s)

/-- Lines 111-114: the string index of the interface descriptor at offset
`midi_descriptor` is collected when it is not 0. -/
def record_interface_string (s : usb_midi_descriptor_info_t) (d : List Nat)
    (midi_descriptor : Nat) : usb_midi_descriptor_info_t :=
  let iInterface := rd d (midi_descriptor + 8)
  if iInterface ≠ 0 then push_string_index s iInterface else s

/-- The `TU_VERIFY` of lines 124-126 on the first sub-descriptor, at offset
`p_desc`: an interface header, a class-specific endpoint descriptor or a
standard endpoint descriptor. -/
def first_desc_ok (d : List Nat) (p_desc : Nat) : Bool :=
  let bDescriptorType := rd d (p_desc + 1)
  let bDescriptorSubType := rd d (p_desc + 2)
  (bDescriptorType == TUSB_DESC_CS_INTERFACE && bDescriptorSubType == MIDI_CS_INTERFACE_HEADER) ||
  (bDescriptorType == TUSB_DESC_CS_ENDPOINT && bDescriptorSubType == MIDI_CS_ENDPOINT_GENERAL) ||
  bDescriptorType == TUSB_DESC_ENDPOINT

/-- `usb_midi_descriptor_lib_configure(midi_descriptor, max_len)` on the record
`s`; `midi_descriptor` is an offset into the memory `d`.  The result is the
returned boolean and the record afterwards, `none` when the fuel ran out. -/
def usb_midi_descriptor_lib_configure (fuel : Nat) (s : usb_midi_descriptor_info_t)
    (d : List Nat) (midi_descriptor max_len : Nat) :
    Option (Bool × usb_midi_descriptor_info_t) :=
  let s1 := record_interface_string s d midi_descriptor
  let len_parsed := rd d midi_descriptor
  let p_desc := tu_desc_next d midi_descriptor
  if first_desc_ok d p_desc then
    match walk d max_len fuel s1 p_desc len_parsed 0 with
    | none => none
    | some (false, s2) => some (false, s2)
    | some (true, s2) => some (configure_finish s2)
  else some (false, s1)

/-! ## `usb_midi_descriptor_lib_configure_from_full` -/

/-- The loop of lines 79-83: skip descriptors until byte 5 (`bInterfaceClass`
when the descriptor is an interface descriptor) is TUSB_CLASS_AUDIO.  The
result is `desc_itf` and `len_parsed` (a `uint16_t`) after the loop. -/
def full_skip_to_audio (d : List Nat) (max_len : Nat) : Nat → Nat → Nat → Option (Nat × Nat)
  | 0, desc_itf, len_parsed =>
    if len_parsed < max_len ∧ TUSB_CLASS_AUDIO ≠ rd d (desc_itf + 5) then none
    else some (desc_itf, len_parsed)
  | fuel + 1, desc_itf, len_parsed =>
    if len_parsed < max_len ∧ TUSB_CLASS_AUDIO ≠ rd d (desc_itf + 5) then
      full_skip_to_audio d max_len fuel (tu_desc_next d desc_itf)
        ((len_parsed + tu_desc_len d desc_itf) % 2 ^ 16)
    else some (desc_itf, len_parsed)

/-- The loop of lines 96-101: skip descriptors until bytes 5 and 6 are
TUSB_CLASS_AUDIO and AUDIO_SUBCLASS_MIDI_STREAMING.  The result is `p_desc`
(equal to `desc_itf`) and `len_parsed` after the loop. -/
def full_find_midi (d : List Nat) (max_len : Nat) : Nat → Nat → Nat → Option (Nat × Nat)
  | 0, p_desc, len_parsed =>
    if len_parsed < max_len ∧
        (rd d (p_desc + 5) ≠ TUSB_CLASS_AUDIO ∨ rd d (p_desc + 6) ≠ AUDIO_SUBCLASS_MIDI_STREAMING) then
      none
    else some (p_desc, len_parsed)
  | fuel + 1, p_desc, len_parsed =>
    if len_parsed < max_len ∧
        (rd d (p_desc + 5) ≠ TUSB_CLASS_AUDIO ∨ rd d (p_desc + 6) ≠ AUDIO_SUBCLASS_MIDI_STREAMING) then
      full_find_midi d max_len fuel (tu_desc_next d p_desc) ((len_parsed + rd d p_desc) % 2 ^ 16)
    else some (p_desc, len_parsed)

/-- `usb_midi_descriptor_lib_configure_from_full(full_config_descriptor)` on the
record `s`; `full_config_descriptor` is an offset into the memory `d`.
`max_len` and `len_parsed` are `uint16_t`, the difference passed on is
converted to the `uint32_t` parameter of the callee. -/
def usb_midi_descriptor_lib_configure_from_full (fuel : Nat) (s : usb_midi_descriptor_info_t)
    (d : List Nat) (full_config_descriptor : Nat) :
    Option (Bool × usb_midi_descriptor_info_t) :=
  let wTotalLength := rd d (full_config_descriptor + 2) + 256 * rd d (full_config_descriptor + 3)
  let max_len := Int.toNat (((wTotalLength : Int) - (tu_desc_len d full_config_descriptor : Int)) % 2 ^ 16)
  let s0 := { s with num_string_indices := 0 }
  match full_skip_to_audio d max_len fuel (tu_desc_next d full_config_descriptor) 0 with
  | none => none
  | some (desc_itf, len_parsed) =>
    if ¬ (len_parsed < max_len ∧ TUSB_CLASS_AUDIO = rd d (desc_itf + 5)) then some (false, s0)
    else if AUDIO_SUBCLASS_CONTROL = rd d (desc_itf + 6) then
      let iInterface := rd d (desc_itf + 8)
      let s1 := if iInterface ≠ 0 then push_string_index s0 iInterface else s0
      match full_find_midi d max_len fuel desc_itf len_parsed with
      | none => none
      | some (p_desc, len_parsed1) =>
        if TUSB_CLASS_AUDIO ≠ rd d (p_desc + 5) then some (false, s1)
        else if AUDIO_SUBCLASS_MIDI_STREAMING ≠ rd d (p_desc + 6) then some (false, s1)
        else usb_midi_descriptor_lib_configure fuel s1 d p_desc
          (Int.toNat (((max_len : Int) - (len_parsed1 : Int)) % 2 ^ 32))
    else if AUDIO_SUBCLASS_MIDI_STREAMING ≠ rd d (desc_itf + 6) then some (false, s0)
    else usb_midi_descriptor_lib_configure fuel s0 d desc_itf
      (Int.toNat (((max_len : Int) - (len_parsed : Int)) % 2 ^ 32))

/-! ## The queries -/

/-- `usb_midi_descriptor_lib_get_all_str_inidices`: the returned `int` and the
array that `*inidices` is set to (`none` when it is left untouched).  The
local `nstrings` is a `uint8_t` initialised with -1. -/
def usb_midi_descriptor_lib_get_all_str_inidices (s : usb_midi_descriptor_info_t) :
    Int × Option (List Nat) :=
  let nstrings : Nat := Int.toNat ((-1 : Int) % 256)
  if s.configured then
    let nstrings := s.num_string_indices
    if nstrings ≠ 0 then ((nstrings : Int), some s.all_string_indices)
    else ((nstrings : Int), none)
  else ((nstrings : Int), none)

/-- The loop of `usb_midi_descriptor_lib_get_str_idx_for_in_cable` over the
OUT jacks, with `n` iterations left from index `jack_idx`. -/
def find_out_jack (s : usb_midi_descriptor_info_t) (jack_id : Nat) : Nat → Nat → Nat
  | 0, _ => 0
  | n + 1, jack_idx =>
    if (s.out_jack_info.getD jack_idx out_jack_zero).jack_id = jack_id then
      (s.out_jack_info.getD jack_idx out_jack_zero).string_index
    else find_out_jack s jack_id n (jack_idx + 1)

/-- The loop of `usb_midi_descriptor_lib_get_str_idx_for_out_cable` over the
IN jacks, with `n` iterations left from index `jack_idx`. -/
def find_in_jack (s : usb_midi_descriptor_info_t) (jack_id : Nat) : Nat → Nat → Nat
  | 0, _ => 0
  | n + 1, jack_idx =>
    if (s.in_jack_info.getD jack_idx in_jack_zero).jack_id = jack_id then
      (s.in_jack_info.getD jack_idx in_jack_zero).string_index
    else find_in_jack s jack_id n (jack_idx + 1)

/-- `usb_midi_descriptor_lib_get_str_idx_for_in_cable(in_cable_num)`. -/
def usb_midi_descriptor_lib_get_str_idx_for_in_cable (s : usb_midi_descriptor_info_t)
    (in_cable_num : Nat) : Nat :=
  if in_cable_num ≥ s.num_cables_rx then 0
  else find_out_jack s (s.ep_in_associated_jacks.getD in_cable_num 0) s.next_out_jack 0

/-- `usb_midi_descriptor_lib_get_str_idx_for_out_cable(out_cable_num)`. -/
def usb_midi_descriptor_lib_get_str_idx_for_out_cable (s : usb_midi_descriptor_info_t)
    (out_cable_num : Nat) : Nat :=
  if out_cable_num ≥ s.num_cables_tx then 0
  else find_in_jack s (s.ep_out_associated_jacks.getD out_cable_num 0) s.next_in_jack 0

/-! ## The sub-descriptors of a buffer -/

/-- The offsets of the sub-descriptors that the first `n` iterations of the
loop of `usb_midi_descriptor_lib_configure` read, as the loop condition and the
bLength bytes alone determine them (whether or not a `TU_VERIFY` stops the walk
earlier). -/
def sub_descriptors (d : List Nat) (max_len : Nat) : Nat → Nat → Nat → List Nat
  | 0, _, _ => []
  | n + 1, p, len_parsed =>
    if len_parsed < max_len then
      p :: sub_descriptors d max_len n (tu_desc_next d p) ((len_parsed + rd d p) % 2 ^ 32)
    else []

/-- The sub-descriptors that `usb_midi_descriptor_lib_configure` meets in its
first `n` iterations on the descriptor at offset `midi_descriptor`. -/
def configure_sub_descriptors (d : List Nat) (midi_descriptor max_len n : Nat) : List Nat :=
  sub_descriptors d max_len n (tu_desc_next d midi_descriptor) (rd d midi_descriptor)

/-- The sub-descriptor at offset `p` is a standard endpoint descriptor. -/
def is_endpoint_desc (d : List Nat) (p : Nat) : Bool :=
  rd d (p + 1) == TUSB_DESC_ENDPOINT

/-- The sub-descriptor at offset `p` is a class-specific endpoint descriptor. -/
def is_cs_endpoint_desc (d : List Nat) (p : Nat) : Bool :=
  rd d (p + 1) == TUSB_DESC_CS_ENDPOINT

/-- A memory image for C6: interface descriptor, MS header, two standard IN
endpoint descriptors (0x81, 0x82) and a CS-endpoint descriptor. -/
def two_in_endpoints_desc : List Nat :=
  [9, 4, 1, 0, 2, 1, 3, 0, 0,  7, 0x24, 1, 0, 1, 30, 0,
   9, 5, 0x81, 2, 64, 0, 0, 0, 0,  9, 5, 0x82, 2, 64, 0, 0, 0, 0,  5, 0x25, 1, 1, 1]

/-- A memory image for C7: interface descriptor, MS header, a standard OUT
endpoint descriptor with address 0x00, a second standard OUT endpoint
descriptor with address 0x01 and its CS-endpoint descriptor with one cable. -/
def two_out_endpoints_zero_desc : List Nat :=
  [9, 4, 1, 0, 2, 1, 3, 0, 0,  7, 0x24, 1, 0, 1, 30, 0,
   9, 5, 0x00, 2, 64, 0, 0, 0, 0,  9, 5, 0x01, 2, 64, 0, 0, 0, 0,  5, 0x25, 1, 1, 1]

/-- A memory image for C7 as amended: as before with the addresses 0x01 and
0x02. -/
def two_out_endpoints_desc : List Nat :=
  [9, 4, 1, 0, 2, 1, 3, 0, 0,  7, 0x24, 1, 0, 1, 30, 0,
   9, 5, 0x01, 2, 64, 0, 0, 0, 0,  9, 5, 0x02, 2, 64, 0, 0, 0, 0,  5, 0x25, 1, 1, 1]

/-- A memory image for C4: interface descriptor, MS header, a standard OUT
endpoint descriptor (0x02) and its CS-endpoint descriptor with one cable that
names jack 1; no jack is declared. -/
def one_out_endpoint_desc : List Nat :=
  [9, 4, 1, 0, 1, 1, 3, 0, 0,  7, 0x24, 1, 0, 1, 21, 0,
   9, 5, 0x02, 2, 64, 0, 0, 0, 0,  5, 0x25, 1, 1, 1]

/-- A memory image for C4: interface descriptor, MS header, an IN jack (id 1,
iJack 7) and a standard OUT endpoint descriptor (0x02) with its CS-endpoint
descriptor. -/
def in_jack_then_endpoint_desc : List Nat :=
  [9, 4, 1, 0, 1, 1, 3, 0, 0,  7, 0x24, 1, 0, 1, 27, 0,  6, 0x24, 2, 1, 1, 7,
   9, 5, 0x02, 2, 64, 0, 0, 0, 0,  5, 0x25, 1, 1, 1]

/-- A memory image for C4 and C5: interface descriptor, MS header, an IN jack
(id 1, iJack 7) and nothing else. -/
def no_endpoint_desc : List Nat :=
  [9, 4, 1, 0, 0, 1, 3, 0, 0,  7, 0x24, 1, 0, 1, 13, 0,  6, 0x24, 2, 1, 1, 7]

/-- A memory image for C10: interface descriptor, MS header, 17 IN-jack
descriptors with the ids 1..17 (iJack equal to the id), a standard OUT endpoint
descriptor (0x02) and its CS-endpoint descriptor with one cable that names
jack 17. -/
def seventeen_in_jacks_desc : List Nat :=
  [9, 4, 1, 0, 1, 1, 3, 0, 0,  7, 0x24, 1, 0, 1, 123, 0] ++
  (List.range 17).flatMap (fun k => [6, 0x24, 2, 1, k + 1, k + 1]) ++
  [9, 5, 0x02, 2, 64, 0, 0, 0, 0,  5, 0x25, 1, 1, 17]

/-- A memory image for C10: interface descriptor, MS header, 17 OUT-jack
descriptors with the ids 1..17, one input pin each (iJack equal to the id), a
standard IN endpoint descriptor (0x81) and its CS-endpoint descriptor with one
cable that names jack 17. -/
def seventeen_out_jacks_desc : List Nat :=
  [9, 4, 1, 0, 1, 1, 3, 0, 0,  7, 0x24, 1, 0, 1, 174, 0] ++
  (List.range 17).flatMap (fun k => [9, 0x24, 3, 1, k + 1, 1, 1, 1, k + 1]) ++
  [9, 5, 0x81, 2, 64, 0, 0, 0, 0,  5, 0x25, 1, 1, 17]

/-! ## Well-formed descriptors (C1, C2) -/

/-- The bytes of a MIDI IN-jack descriptor (`midi_desc_in_jack_t`) that
declares the jack `j`. -/
def in_jack_desc (j : in_jack_info_t) : List Nat :=
  [6, TUSB_DESC_CS_INTERFACE, MIDI_CS_INTERFACE_IN_JACK, j.jack_type, j.jack_id, j.string_index]

/-- The declaration of an OUT jack: type, id, the (source id, source pin)
pairs of its input pins and the string index. -/
structure out_jack_decl_t where
  bJackType : Nat
  bJackID : Nat
  sources : List (Nat × Nat)
  iJack : Nat
deriving DecidableEq

/-- The bytes of a MIDI OUT-jack descriptor with N = `sources.length` input
pins: length 7+2N, the pairs from offset 6 on, the string index after them. -/
def out_jack_desc (j : out_jack_decl_t) : List Nat :=
  [7 + 2 * j.sources.length, TUSB_DESC_CS_INTERFACE, MIDI_CS_INTERFACE_OUT_JACK,
    j.bJackType, j.bJackID, j.sources.length] ++
  j.sources.flatMap (fun sp => [sp.1, sp.2]) ++ [j.iJack]

/-- The bytes of a class-specific endpoint descriptor that lists the jack ids
`assoc`. -/
def cs_endpoint_desc (assoc : List Nat) : List Nat :=
  [4 + assoc.length, TUSB_DESC_CS_ENDPOINT, MIDI_CS_ENDPOINT_GENERAL, assoc.length] ++ assoc

/-- The list `hdr` is a class-specific MS interface header whose bLength byte
is its length. -/
def is_ms_header (hdr : List Nat) : Prop :=
  rd hdr 0 = hdr.length ∧ 3 ≤ hdr.length ∧ rd hdr 1 = TUSB_DESC_CS_INTERFACE ∧
    rd hdr 2 = MIDI_CS_INTERFACE_HEADER

/-- The list `ep` is a standard endpoint descriptor whose bLength byte is its
length. -/
def is_standard_endpoint (ep : List Nat) : Prop :=
  rd ep 0 = ep.length ∧ 3 ≤ ep.length ∧ rd ep 1 = TUSB_DESC_ENDPOINT

/-- The list `itf` is a 9-byte interface descriptor. -/
def is_interface_desc (itf : List Nat) : Prop :=
  itf.length = 9 ∧ rd itf 0 = 9

/-- The string index of the first pair of `pairs` (jack id, string index) whose
id is `id`, 0 when there is none: what the loops of the two cable queries
compute. -/
def first_string_index (id : Nat) : List (Nat × Nat) → Nat
  | [] => 0
  | e :: rest => if e.1 = id then e.2 else first_string_index id rest

/-- The IN-jack table of the record `s` holds the jacks `js` (ids and string
indices), in the order of their declaration. -/
def in_table_holds (s : usb_midi_descriptor_info_t) (js : List in_jack_info_t) : Prop :=
  s.in_jack_info.length = MAX_IN_JACKS ∧ s.next_in_jack = js.length ∧
    (s.in_jack_info.take js.length).map (fun e => (e.jack_id, e.string_index))
      = js.map (fun j => (j.jack_id, j.string_index))

/-- The OUT-jack table of the record `s` holds the jacks `js` (ids and string
indices), in the order of their declaration. -/
def out_table_holds (s : usb_midi_descriptor_info_t) (js : List out_jack_decl_t) : Prop :=
  s.out_jack_info.length = MAX_OUT_JACKS ∧ s.next_out_jack = js.length ∧
    (s.out_jack_info.take js.length).map (fun e => (e.jack_id, e.string_index))
      = js.map (fun j => (j.bJackID, j.iJack))

/-- The records `s` and `s1` agree on the endpoint addresses, the cable counts
and the cable associations. -/
def same_endpoints (s s1 : usb_midi_descriptor_info_t) : Prop :=
  s1.ep_in = s.ep_in ∧ s1.ep_out = s.ep_out ∧ s1.num_cables_rx = s.num_cables_rx ∧
    s1.num_cables_tx = s.num_cables_tx ∧
    s1.ep_in_associated_jacks = s.ep_in_associated_jacks ∧
    s1.ep_out_associated_jacks = s.ep_out_associated_jacks

/-- A memory image for C1: interface descriptor, MS header, no jack, a
standard OUT endpoint descriptor (0x02) and its CS-endpoint descriptor that
lists C = 0 jack ids. -/
def zero_cables_out_desc : List Nat :=
  [9, 4, 1, 0, 1, 1, 3, 0, 0] ++ [7, 0x24, 1, 0, 1, 20, 0] ++
  ([] : List in_jack_info_t).flatMap in_jack_desc ++
  [9, 5, 0x02, 2, 64, 0, 0, 0, 0] ++ cs_endpoint_desc []

/-- A memory image for C2: interface descriptor, MS header, no jack, a
standard IN endpoint descriptor (0x81) and its CS-endpoint descriptor that
lists C = 0 jack ids. -/
def zero_cables_in_desc : List Nat :=
  [9, 4, 1, 0, 1, 1, 3, 0, 0] ++ [7, 0x24, 1, 0, 1, 20, 0] ++
  ([] : List out_jack_decl_t).flatMap out_jack_desc ++
  [9, 5, 0x81, 2, 64, 0, 0, 0, 0] ++ cs_endpoint_desc []

/-- The invariant of the duplicate removal while the outer loop is at `idx`
and the inner loop at `jdx`: among the first `n` entries of `a`, no entry
before `idx` occurs again later, and the entry `idx` does not occur between
`idx` and `jdx`. -/
def dedup_inv (idx jdx : Nat) (a : List Nat) (n : Nat) : Prop :=
  (∀ i, i < idx → ∀ j, i < j → j < n → a.getD i 0 ≠ a.getD j 0) ∧
  (∀ j, idx < j → j < jdx → j < n → a.getD idx 0 ≠ a.getD j 0)

/-- A memory image for C8: the interface descriptor has iInterface 5, the two
IN jacks have iJack 5 and 7, the ELEMENT descriptor ends with 7 and the OUT
jack has iJack 5. -/
def repeated_indices_desc : List Nat :=
  [9, 4, 1, 0, 1, 1, 3, 0, 5,  7, 0x24, 1, 0, 1, 48, 0,  6, 0x24, 2, 1, 1, 5,
   6, 0x24, 2, 1, 2, 7,  6, 0x24, 4, 1, 0, 7,  9, 0x24, 3, 1, 3, 1, 1, 1, 5,
   9, 5, 0x02, 2, 64, 0, 0, 0, 0,  5, 0x25, 1, 1, 1]

/-- A memory image for C3: a configuration descriptor (wTotalLength 75), an
audio-control interface, its class-specific header and an input terminal
(terminal type 0x0101, bAssocTerminal 3), then at offset 39 a MIDI-streaming
interface with its header, one IN jack (id 1, iJack 5), one bulk OUT endpoint
(0x02) and its CS-endpoint descriptor with one cable that names jack 1. -/
def audio_terminal_config_desc : List Nat :=
  [9, 2, 75, 0, 2, 1, 0, 0x80, 50,
   9, 4, 0, 0, 0, 1, 1, 0, 0,
   9, 0x24, 1, 0x00, 0x01, 21, 0, 1, 1,
   12, 0x24, 2, 1, 0x01, 0x01, 3, 2, 3, 0, 0, 0,
   9, 4, 1, 0, 1, 1, 3, 0, 0,  7, 0x24, 1, 0, 1, 27, 0,  6, 0x24, 2, 1, 1, 5,
   9, 5, 0x02, 2, 64, 0, 0, 0, 0,  5, 0x25, 1, 1, 1]

/-- The scenario of the specification for C3: a configuration descriptor
(wTotalLength 63), an audio-control interface with its class-specific header,
then at offset 27 the MIDI-streaming interface of `audio_terminal_config_desc`. -/
def scenario_config_desc : List Nat :=
  [9, 2, 63, 0, 2, 1, 0, 0x80, 50,
   9, 4, 0, 0, 0, 1, 1, 0, 0,
   9, 0x24, 1, 0x00, 0x01, 9, 0, 1, 1,
   9, 4, 1, 0, 1, 1, 3, 0, 0,  7, 0x24, 1, 0, 1, 27, 0,  6, 0x24, 2, 1, 1, 5,
   9, 5, 0x02, 2, 64, 0, 0, 0, 0,  5, 0x25, 1, 1, 1]

/-! ## Malformed buffers (C11 .. C15) -/

/-- The offset of the sub-descriptor and the value of `len_parsed` at the
start of iteration `n` of the loop, when the loop condition admits the
iterations before it. -/
def walk_cursor (d : List Nat) (max_len : Nat) : Nat → Nat → Nat → Option (Nat × Nat)
  | 0, p, len_parsed => some (p, len_parsed)
  | n + 1, p, len_parsed =>
    if len_parsed < max_len then
      walk_cursor d max_len n (tu_desc_next d p) ((len_parsed + rd d p) % 2 ^ 32)
    else none

/-- The sub-descriptor at offset `p` is one that the walk handles: a
class-specific interface descriptor with the subtype HEADER, IN_JACK, OUT_JACK
or ELEMENT, a standard endpoint descriptor, or a class-specific endpoint
descriptor with the subtype GENERAL. -/
def is_known_desc (d : List Nat) (p : Nat) : Bool :=
  (rd d (p + 1) == TUSB_DESC_CS_INTERFACE &&
    (rd d (p + 2) == MIDI_CS_INTERFACE_HEADER || rd d (p + 2) == MIDI_CS_INTERFACE_IN_JACK ||
      rd d (p + 2) == MIDI_CS_INTERFACE_OUT_JACK || rd d (p + 2) == MIDI_CS_INTERFACE_ELEMENT)) ||
  rd d (p + 1) == TUSB_DESC_ENDPOINT ||
  (rd d (p + 1) == TUSB_DESC_CS_ENDPOINT && rd d (p + 2) == MIDI_CS_ENDPOINT_GENERAL)

/-- A memory image for C11: interface descriptor, MS header, an IN jack, a
standard OUT endpoint descriptor (0x02), its CS-endpoint descriptor with one
cable, and the first 3 bytes of a 7-byte class-specific header descriptor; the
buffer ends there (39 bytes). -/
def truncated_tail_desc : List Nat :=
  [9, 4, 1, 0, 1, 1, 3, 0, 0,  7, 0x24, 1, 0, 1, 27, 0,  6, 0x24, 2, 1, 1, 5,
   9, 5, 0x02, 2, 64, 0, 0, 0, 0,  5, 0x25, 1, 1, 1,  7, 0x24, 1]

/-- A memory image for C12: interface descriptor, MS header, a class-specific
interface descriptor with the unknown subtype 9, then a standard OUT endpoint
descriptor and its CS-endpoint descriptor. -/
def unknown_subtype_desc : List Nat :=
  [9, 4, 1, 0, 1, 1, 3, 0, 0,  7, 0x24, 1, 0, 1, 25, 0,  4, 0x24, 9, 0,
   9, 5, 0x02, 2, 64, 0, 0, 0, 0,  5, 0x25, 1, 1, 1]

/-- A memory image for C13: interface descriptor, MS header, a standard OUT
endpoint descriptor (0x02) and two CS-endpoint descriptors in a row. -/
def two_cs_endpoints_desc : List Nat :=
  [9, 4, 1, 0, 1, 1, 3, 0, 0,  7, 0x24, 1, 0, 1, 26, 0,
   9, 5, 0x02, 2, 64, 0, 0, 0, 0,  5, 0x25, 1, 1, 1,  5, 0x25, 1, 1, 1]

/-- A memory image for C14: the interface descriptor is followed at once by a
standard OUT endpoint descriptor (0x02) and its CS-endpoint descriptor with one
cable; there is no MS header. -/
def no_header_desc : List Nat :=
  [9, 4, 1, 0, 1, 1, 3, 0, 0,  9, 5, 0x02, 2, 64, 0, 0, 0, 0,  5, 0x25, 1, 1, 1]

/-- A memory image for C14 as amended: the interface descriptor is followed by
an IN-jack descriptor. -/
def jack_first_desc : List Nat :=
  [9, 4, 1, 0, 1, 1, 3, 0, 0,  6, 0x24, 2, 1, 1, 5,
   9, 5, 0x02, 2, 64, 0, 0, 0, 0,  5, 0x25, 1, 1, 1]

/-- A memory image for C15: the interface descriptor is followed by a
class-specific header descriptor whose bLength byte is 0. -/
def zero_length_desc : List Nat :=
  [9, 4, 1, 0, 0, 1, 3, 0, 0,  0, 0x24, 1]

/-! ## `utf16ToUtf8` (utf16_to_utf8.h)

The destination is the list of the bytes written so far: the function writes
`dest[0]`, `dest[1]`, ... in this order, each index once, so `destidx` is the
length of the list.  Every value stored is below 256, so the conversion to
`uint8_t` changes nothing.  The indices are `size_t`. -/

/-- The code unit `src[i]`, a `uint16_t`; indices outside the list read 0. -/
def rd16 (src : List Nat) (i : Nat) : Nat := src.getD i 0 % 65536

/-- The four bytes written for the code point `code` of a surrogate pair
(lines 104-107). -/
def utf8_pair_bytes (code : Nat) : List Nat :=
  [0xF0 ||| ((code >>> 18) &&& 0x07), 0x80 ||| ((code >>> 12) &&& 0x3f),
   0x80 ||| ((code >>> 6) &&& 0x3f), 0x80 ||| (code &&& 0x3f)]

/-- The loop `for(;;)` of `utf16ToUtf8` (lines 58-135) from the index `srcidx`
with the bytes `dest` written; one unit of fuel per iteration, `none` when the
fuel runs out.  The result is the list of all bytes written. -/
def utf16_loop (src : List Nat) (maxsrc maxdest : Nat) :
    Nat → Nat → List Nat → Option (List Nat)
  | 0, _, _ => none
  | fuel + 1, srcidx, dest =>
    let destidx := dest.length
    let u := rd16 src srcidx
    if srcidx ≥ maxsrc ∨ u = 0 ∨ destidx + 1 ≥ maxdest then
      some (dest ++ [0])
    else if u < 0x80 then
      utf16_loop src maxsrc maxdest fuel (srcidx + 1) (dest ++ [u &&& 0x7f])
    else if u < 0x800 then
      if destidx + 2 ≥ maxdest then
        some (dest ++ [0])
      else
        utf16_loop src maxsrc maxdest fuel (srcidx + 1)
          (dest ++ [0xC0 ||| ((u >>> 6) &&& 0x1f), 0x80 ||| (u &&& 0x3f)])
    else if u < 0xD800 ∨ u ≥ 0xE000 then
      if destidx + 3 ≥ maxdest then
        some (dest ++ [0])
      else
        utf16_loop src maxsrc maxdest fuel (srcidx + 1)
          (dest ++ [0xE0 ||| ((u >>> 12) &&& 0xf), 0x80 ||| ((u >>> 6) &&& 0x3f),
            0x80 ||| (u &&& 0x3f)])
    else if srcidx + 1 < maxsrc then
      if destidx + 4 < maxdest then
        if u ≥ 0xD800 ∧ u < 0xDC00 ∧
            rd16 src (srcidx + 1) ≥ 0xDC00 ∧ rd16 src (srcidx + 1) < 0xE000 then
          let upper := u &&& 0x3FF
          let lower := rd16 src (srcidx + 1) &&& 0x3FF
          let code := ((upper <<< 10) ||| lower) + 0x10000
          utf16_loop src maxsrc maxdest fuel (srcidx + 2) (dest ++ utf8_pair_bytes code)
        else
          utf16_loop src maxsrc maxdest fuel (srcidx + 1) (dest ++ [0xEF, 0xBF, 0xBD])
      else
        some (dest ++ [0])
    else
      some ((if destidx + 3 < maxdest then dest ++ [0xEF, 0xBF, 0xBD] else dest) ++ [0])

/-- The index at which the loop starts (lines 55-57): 1 when `src[0]` is the
byte-order mark, else 0. -/
def utf16_start (src : List Nat) (maxsrc : Nat) : Nat :=
  if 0 < maxsrc ∧ rd16 src 0 = 0xFEFF then 1 else 0

/-- `utf16ToUtf8(src, maxsrc, dest, maxdest)`: the bytes written to `dest`, in
the order of their indices.  Every iteration but the last increases `srcidx`
and needs `srcidx < maxsrc`, so `maxsrc + 1` iterations are enough. -/
def utf16ToUtf8 (src : List Nat) (maxsrc maxdest : Nat) : Option (List Nat) :=
  utf16_loop src maxsrc maxdest (maxsrc + 1) (utf16_start src maxsrc) []

/-! ## The Unicode encoding forms, for comparison -/

/-- A Unicode scalar value: a code point up to U+10FFFF outside the surrogate
range U+D800..U+DFFF. -/
def is_scalar (cp : Nat) : Prop := cp < 0xD800 ∨ (0xE000 ≤ cp ∧ cp ≤ 0x10FFFF)

/-- The standard UTF-8 encoding of a code point (Unicode, Table 3-6). -/
def utf8_encode (cp : Nat) : List Nat :=
  if cp < 0x80 then [cp]
  else if cp < 0x800 then [0xC0 + cp / 64, 0x80 + cp % 64]
  else if cp < 0x10000 then [0xE0 + cp / 4096, 0x80 + cp / 64 % 64, 0x80 + cp % 64]
  else [0xF0 + cp / 262144, 0x80 + cp / 4096 % 64, 0x80 + cp / 64 % 64, 0x80 + cp % 64]

/-- The standard UTF-16 encoding of a code point (Unicode, Table 3-5). -/
def utf16_encode (cp : Nat) : List Nat :=
  if cp < 0x10000 then [cp]
  else [0xD800 + (cp - 0x10000) / 1024, 0xDC00 + (cp - 0x10000) % 1024]

/-! ## Jack tables, catalog and cable counts (C24 .. C29) -/

/-- A memory image for C24 and C26: interface descriptor, MS header, one
OUT-jack descriptor at offset 16 with the id 3 and two input pins (source ids 1
and 2 at the offsets 6 and 8 of the descriptor, string index 7 at its offset
10), a standard IN endpoint descriptor (0x81) and its CS-endpoint descriptor
with one cable that names jack 3. -/
def two_pin_out_jack_desc : List Nat :=
  [9, 4, 1, 0, 1, 1, 3, 0, 0,  7, 0x24, 1, 0, 1, 32, 0,
   11, 0x24, 3, 1, 3, 2, 1, 1, 2, 1, 7,
   9, 5, 0x81, 2, 64, 0, 0, 0, 0,  5, 0x25, 1, 1, 3]

/-- A memory image for C25: two IN jacks with the id 1, the first with iJack 5
and the second with iJack 7, and an OUT endpoint (0x02) whose one cable names
jack 1. -/
def same_id_in_jacks_desc : List Nat :=
  [9, 4, 1, 0, 1, 1, 3, 0, 0,  7, 0x24, 1, 0, 1, 33, 0,
   6, 0x24, 2, 1, 1, 5,  6, 0x24, 2, 1, 1, 7,
   9, 5, 0x02, 2, 64, 0, 0, 0, 0,  5, 0x25, 1, 1, 1]

/-- A memory image for C25: two OUT jacks with the id 1 and one input pin
each, the first with iJack 5 and the second with iJack 7, and an IN endpoint
(0x81) whose one cable names jack 1. -/
def same_id_out_jacks_desc : List Nat :=
  [9, 4, 1, 0, 1, 1, 3, 0, 0,  7, 0x24, 1, 0, 1, 39, 0,
   9, 0x24, 3, 1, 1, 1, 1, 1, 5,  9, 0x24, 3, 1, 1, 1, 1, 1, 7,
   9, 5, 0x81, 2, 64, 0, 0, 0, 0,  5, 0x25, 1, 1, 1]

/-- The value `v` is among the first `n` entries of the array `a`. -/
def holds_value (a : List Nat) (n v : Nat) : Prop := ∃ i, i < n ∧ a.getD i 0 = v

/-- A memory image for C28: interface descriptor, MS header, 41 ELEMENT
descriptors of 4 bytes whose last bytes are 1..41 (the first at offset 16, the
41st at offset 176), a standard OUT endpoint descriptor (0x02) and its
CS-endpoint descriptor with one cable. -/
def many_elements_desc : List Nat :=
  [9, 4, 1, 0, 1, 1, 3, 0, 0,  7, 0x24, 1, 0, 1, 185, 0] ++
  (List.range 41).flatMap (fun k => [4, 0x24, 4, k + 1]) ++
  [9, 5, 0x02, 2, 64, 0, 0, 0, 0,  5, 0x25, 1, 1, 1]

/-- A memory image for C29: interface descriptor, MS header, a standard OUT
endpoint descriptor (0x02) and a CS-endpoint descriptor whose bNumEmbMIDIJack
byte is 17, followed by the 17 jack ids 1..17. -/
def seventeen_cables_desc : List Nat :=
  [9, 4, 1, 0, 1, 1, 3, 0, 0,  7, 0x24, 1, 0, 1, 37, 0,
   9, 5, 0x02, 2, 64, 0, 0, 0, 0,
   21, 0x25, 1, 17, 1, 2, 3, 4, 5, 6, 7, 8, 9, 10, 11, 12, 13, 14, 15, 16, 17]

/-- A record for C27: the 40-entry array begins with 5, 5, 7, 7, 5 and the
count is 5. -/
def five_indices_record : usb_midi_descriptor_info_t :=
  { usb_midi_descriptor_lib_init with
    all_string_indices := [5, 5, 7, 7, 5] ++ List.replicate 35 0
    num_string_indices := 5 }

end UsbMidi

/-! # Properties of the embedding -/

namespace UsbMidi

/-! ## Basic facts about the walk -/

theorem tu_edpt_dir_ne_zero {a : Nat} (h : tu_edpt_dir a = true) : a ≠ 0 := by
  rintro rfl
  simp [tu_edpt_dir] at h

/-- The CS_INTERFACE branch leaves the endpoint fields and the flag alone. -/
theorem walk_cs_interface_fields {d : List Nat} {s s1 : usb_midi_descriptor_info_t} {p : Nat}
    (h : walk_cs_interface d s p = some s1) :
    s1.ep_in = s.ep_in ∧ s1.ep_out = s.ep_out ∧ s1.num_cables_rx = s.num_cables_rx ∧
      s1.num_cables_tx = s.num_cables_tx ∧ s1.configured = s.configured ∧
      s1.ep_in_associated_jacks = s.ep_in_associated_jacks ∧
      s1.ep_out_associated_jacks = s.ep_out_associated_jacks := by
  unfold walk_cs_interface at h
  simp only at h
  split_ifs at h <;> simp only [Option.some.injEq] at h <;> subst h <;> simp [push_string_index]

/-- The CS_ENDPOINT branch leaves the endpoint addresses and the flag alone. -/
theorem walk_cs_endpoint_fields {d : List Nat} {s s1 : usb_midi_descriptor_info_t} {p prev : Nat}
    (h : walk_cs_endpoint d s p prev = some s1) :
    s1.ep_in = s.ep_in ∧ s1.ep_out = s.ep_out ∧ s1.configured = s.configured ∧
      s1.next_in_jack = s.next_in_jack ∧ s1.next_out_jack = s.next_out_jack ∧
      s1.in_jack_info = s.in_jack_info ∧ s1.out_jack_info = s.out_jack_info ∧
      s1.all_string_indices = s.all_string_indices ∧
      s1.num_string_indices = s.num_string_indices := by
  unfold walk_cs_endpoint at h
  simp only at h
  split_ifs at h <;> simp only [Option.some.injEq] at h <;> subst h <;> simp

/-- The ENDPOINT branch records the address in the field of its direction. -/
theorem walk_endpoint_fields {d : List Nat} {s s1 : usb_midi_descriptor_info_t} {p prev1 : Nat}
    (h : walk_endpoint d s p = some (s1, prev1)) :
    s1.configured = s.configured ∧ prev1 = rd d (p + 2) ∧
      s1.num_cables_rx = s.num_cables_rx ∧ s1.num_cables_tx = s.num_cables_tx ∧
      (tu_edpt_dir (rd d (p + 2)) = true →
        s.ep_in = 0 ∧ s1.ep_in = rd d (p + 2) ∧ s1.ep_out = s.ep_out) ∧
      (tu_edpt_dir (rd d (p + 2)) = false →
        s.ep_out = 0 ∧ s1.ep_out = rd d (p + 2) ∧ s1.ep_in = s.ep_in) := by
  unfold walk_endpoint at h
  simp only at h
  split_ifs at h with h1 h2 h3 h4 h5 <;> simp only [Option.some.injEq, Prod.mk.injEq] at h <;>
    obtain ⟨rfl, rfl⟩ := h <;> simp_all

/-- The three shapes of a successful iteration. -/
theorem walk_body_cases {d : List Nat} {s s1 : usb_midi_descriptor_info_t} {p prev prev1 : Nat}
    (h : walk_body d s p prev = some (s1, prev1)) :
    (rd d (p + 1) = TUSB_DESC_CS_INTERFACE ∧ walk_cs_interface d s p = some s1 ∧ prev1 = prev) ∨
    (rd d (p + 1) = TUSB_DESC_CS_ENDPOINT ∧ walk_cs_endpoint d s p prev = some s1 ∧ prev1 = 0) ∨
    (rd d (p + 1) = TUSB_DESC_ENDPOINT ∧ walk_endpoint d s p = some (s1, prev1)) := by
  unfold walk_body at h
  simp only at h
  split_ifs at h with h1 h2 h3 h4
  · left
    refine ⟨h2, ?_⟩
    cases hc : walk_cs_interface d s p with
    | none => simp [hc] at h
    | some s2 =>
      simp only [hc, Option.some.injEq, Prod.mk.injEq] at h
      exact ⟨by rw [h.1], h.2.symm⟩
  · right; left
    refine ⟨h3, ?_⟩
    cases hc : walk_cs_endpoint d s p prev with
    | none => simp [hc] at h
    | some s2 =>
      simp only [hc, Option.some.injEq, Prod.mk.injEq] at h
      exact ⟨by rw [h.1], h.2.symm⟩
  · right; right
    exact ⟨h4, h⟩
  · exfalso
    tauto

/-- One iteration of the loop that does not fail. -/
theorem walk_succ_of_body {d : List Nat} {max_len : Nat} {s s1 : usb_midi_descriptor_info_t}
    {p len_parsed prev prev1 : Nat} (fuel : Nat) (hlen : len_parsed < max_len)
    (h : walk_body d s p prev = some (s1, prev1)) :
    walk d max_len (fuel + 1) s p len_parsed prev =
      walk d max_len fuel s1 (tu_desc_next d p) ((len_parsed + rd d p) % 2 ^ 32) prev1 := by
  simp [walk, hlen, h]

/-- An iteration in which a `TU_VERIFY` fails. -/
theorem walk_succ_of_body_none {d : List Nat} {max_len : Nat} {s : usb_midi_descriptor_info_t}
    {p len_parsed prev : Nat} (fuel : Nat) (hlen : len_parsed < max_len)
    (h : walk_body d s p prev = none) :
    walk d max_len (fuel + 1) s p len_parsed prev = some (false, s) := by
  simp [walk, hlen, h]

/-- More fuel does not change a result. -/
theorem walk_fuel_mono {d : List Nat} {max_len : Nat} :
    ∀ (fuel k : Nat) (s : usb_midi_descriptor_info_t) (p len_parsed prev : Nat)
      (r : Bool × usb_midi_descriptor_info_t),
      walk d max_len fuel s p len_parsed prev = some r →
      walk d max_len (fuel + k) s p len_parsed prev = some r := by
  intro fuel
  induction fuel with
  | zero =>
    intro k s p len_parsed prev r h
    by_cases hlen : len_parsed < max_len
    · simp [walk, hlen] at h
    · cases k with
      | zero => exact h
      | succ k =>
        simp only [walk, hlen, if_false] at h
        simp [walk, hlen, h]
  | succ fuel ih =>
    intro k s p len_parsed prev r h
    have hk : fuel + 1 + k = (fuel + k) + 1 := by omega
    rw [hk]
    by_cases hlen : len_parsed < max_len
    · cases hb : walk_body d s p prev with
      | none =>
        rw [walk_succ_of_body_none fuel hlen hb] at h
        rw [walk_succ_of_body_none (fuel + k) hlen hb]
        exact h
      | some r1 =>
        obtain ⟨s1, prev1⟩ := r1
        rw [walk_succ_of_body fuel hlen hb] at h
        rw [walk_succ_of_body (fuel + k) hlen hb]
        exact ih k _ _ _ _ r h
    · simp only [walk, hlen, if_false] at h
      simp [walk, hlen, h]

/-- The walk never writes the `configured` flag. -/
theorem walk_body_configured {d : List Nat} {s s1 : usb_midi_descriptor_info_t}
    {p prev prev1 : Nat} (h : walk_body d s p prev = some (s1, prev1)) :
    s1.configured = s.configured := by
  rcases walk_body_cases h with ⟨_, h1, _⟩ | ⟨_, h1, _⟩ | ⟨_, h1⟩
  · exact (walk_cs_interface_fields h1).2.2.2.2.1
  · exact (walk_cs_endpoint_fields h1).2.2.1
  · exact (walk_endpoint_fields h1).1

theorem walk_configured {d : List Nat} {max_len : Nat} :
    ∀ (fuel : Nat) (s : usb_midi_descriptor_info_t) (p len_parsed prev : Nat)
      (r : Bool × usb_midi_descriptor_info_t),
      walk d max_len fuel s p len_parsed prev = some r → r.2.configured = s.configured := by
  intro fuel
  induction fuel with
  | zero =>
    intro s p len_parsed prev r h
    by_cases hlen : len_parsed < max_len
    · simp [walk, hlen] at h
    · simp only [walk, hlen, if_false, Option.some.injEq] at h
      rw [← h]
  | succ fuel ih =>
    intro s p len_parsed prev r h
    by_cases hlen : len_parsed < max_len
    · cases hb : walk_body d s p prev with
      | none =>
        rw [walk_succ_of_body_none fuel hlen hb] at h
        simp only [Option.some.injEq] at h
        rw [← h]
      | some r1 =>
        obtain ⟨s1, prev1⟩ := r1
        rw [walk_succ_of_body fuel hlen hb] at h
        rw [ih _ _ _ _ r h, walk_body_configured hb]
    · simp only [walk, hlen, if_false, Option.some.injEq] at h
      rw [← h]

/-- A property of the record that every successful iteration preserves holds
for the record of every result of the walk. -/
theorem walk_invariant {d : List Nat} {max_len : Nat} (I : usb_midi_descriptor_info_t → Prop)
    (hpres : ∀ (s s1 : usb_midi_descriptor_info_t) (p prev prev1 : Nat),
      I s → walk_body d s p prev = some (s1, prev1) → I s1) :
    ∀ (fuel : Nat) (s : usb_midi_descriptor_info_t) (p len_parsed prev : Nat)
      (r : Bool × usb_midi_descriptor_info_t),
      I s → walk d max_len fuel s p len_parsed prev = some r → I r.2 := by
  intro fuel
  induction fuel with
  | zero =>
    intro s p len_parsed prev r hI h
    by_cases hlen : len_parsed < max_len
    · simp [walk, hlen] at h
    · simp only [walk, hlen, if_false, Option.some.injEq] at h
      rw [← h]; exact hI
  | succ fuel ih =>
    intro s p len_parsed prev r hI h
    by_cases hlen : len_parsed < max_len
    · cases hb : walk_body d s p prev with
      | none =>
        rw [walk_succ_of_body_none fuel hlen hb] at h
        simp only [Option.some.injEq] at h
        rw [← h]; exact hI
      | some r1 =>
        obtain ⟨s1, prev1⟩ := r1
        rw [walk_succ_of_body fuel hlen hb] at h
        exact ih _ _ _ _ r (hpres _ _ _ _ _ hI hb) h
    · simp only [walk, hlen, if_false, Option.some.injEq] at h
      rw [← h]; exact hI

/-- A walk that meets a sub-descriptor on which the iteration fails for every
record with the property `I`, where `I` holds at the start and is preserved by
every successful iteration, returns false. -/
theorem walk_false_of_failing_desc {d : List Nat} {max_len : Nat}
    (I : usb_midi_descriptor_info_t → Prop) (B : Nat → Prop)
    (hpres : ∀ (s s1 : usb_midi_descriptor_info_t) (p prev prev1 : Nat),
      I s → walk_body d s p prev = some (s1, prev1) → I s1)
    (hfail : ∀ (s : usb_midi_descriptor_info_t) (p prev : Nat),
      I s → B p → walk_body d s p prev = none) :
    ∀ (n : Nat) (s : usb_midi_descriptor_info_t) (p len_parsed prev : Nat),
      I s → (∃ q ∈ sub_descriptors d max_len n p len_parsed, B q) →
      ∃ s1, walk d max_len n s p len_parsed prev = some (false, s1) := by
  intro n
  induction n with
  | zero => intro s p len_parsed prev _ h; simp [sub_descriptors] at h
  | succ n ih =>
    intro s p len_parsed prev hI h
    obtain ⟨q, hq, hB⟩ := h
    by_cases hlen : len_parsed < max_len
    · simp only [sub_descriptors, hlen, if_true, List.mem_cons] at hq
      cases hb : walk_body d s p prev with
      | none => exact ⟨s, walk_succ_of_body_none n hlen hb⟩
      | some r1 =>
        obtain ⟨s1, prev1⟩ := r1
        rw [walk_succ_of_body n hlen hb]
        rcases hq with rfl | hq
        · rw [hfail s q prev hI hB] at hb
          cases hb
        · exact ih _ _ _ _ (hpres _ _ _ _ _ hI hb) ⟨q, hq, hB⟩
    · simp [sub_descriptors, hlen] at hq

/-- A walk that meets a sub-descriptor establishing `I` and later one that
fails under `I` returns false. -/
theorem walk_false_of_two_desc {d : List Nat} {max_len : Nat}
    (I : usb_midi_descriptor_info_t → Prop) (B1 B2 : Nat → Prop)
    (hpres : ∀ (s s1 : usb_midi_descriptor_info_t) (p prev prev1 : Nat),
      I s → walk_body d s p prev = some (s1, prev1) → I s1)
    (hset : ∀ (s s1 : usb_midi_descriptor_info_t) (p prev prev1 : Nat),
      B1 p → walk_body d s p prev = some (s1, prev1) → I s1)
    (hfail : ∀ (s : usb_midi_descriptor_info_t) (p prev : Nat),
      I s → B2 p → walk_body d s p prev = none) :
    ∀ (n : Nat) (s : usb_midi_descriptor_info_t) (p len_parsed prev i j a b : Nat),
      i < j →
      (sub_descriptors d max_len n p len_parsed)[i]? = some a →
      (sub_descriptors d max_len n p len_parsed)[j]? = some b →
      B1 a → B2 b →
      ∃ s1, walk d max_len n s p len_parsed prev = some (false, s1) := by
  intro n
  induction n with
  | zero => intro s p len_parsed prev i j a b _ ha; simp [sub_descriptors] at ha
  | succ n ih =>
    intro s p len_parsed prev i j a b hij ha hb hB1 hB2
    by_cases hlen : len_parsed < max_len
    · simp only [sub_descriptors, hlen, if_true] at ha hb
      cases hbody : walk_body d s p prev with
      | none => exact ⟨s, walk_succ_of_body_none n hlen hbody⟩
      | some r1 =>
        obtain ⟨s1, prev1⟩ := r1
        rw [walk_succ_of_body n hlen hbody]
        obtain ⟨j, rfl⟩ : ∃ j1, j = j1 + 1 := ⟨j - 1, by omega⟩
        rw [List.getElem?_cons_succ] at hb
        cases i with
        | zero =>
          simp only [List.getElem?_cons_zero, Option.some.injEq] at ha
          subst ha
          exact walk_false_of_failing_desc I B2 hpres hfail n s1 _ _ prev1
            (hset _ _ _ _ _ hB1 hbody) ⟨b, List.getElem?_mem hb, hB2⟩
        | succ i =>
          rw [List.getElem?_cons_succ] at ha
          exact ih s1 _ _ prev1 i j a b (by omega) ha hb hB1 hB2
    · simp [sub_descriptors, hlen] at ha

/-- A walk that returns false makes `usb_midi_descriptor_lib_configure` return
false. -/
theorem configure_false_of_walk_false {d : List Nat} {midi_descriptor max_len n : Nat}
    (h : ∀ s1 : usb_midi_descriptor_info_t, ∃ s2,
      walk d max_len n s1 (tu_desc_next d midi_descriptor) (rd d midi_descriptor) 0
        = some (false, s2))
    (s : usb_midi_descriptor_info_t) :
    ∃ s1, usb_midi_descriptor_lib_configure n s d midi_descriptor max_len = some (false, s1) := by
  unfold usb_midi_descriptor_lib_configure
  simp only
  split_ifs with hc
  · obtain ⟨s2, h2⟩ := h (record_interface_string s d midi_descriptor)
    rw [h2]
    exact ⟨s2, rfl⟩
  · exact ⟨_, rfl⟩

/-- More fuel does not change a result of `usb_midi_descriptor_lib_configure`. -/
theorem configure_fuel_mono {d : List Nat} {midi_descriptor max_len : Nat} (fuel k : Nat)
    (s : usb_midi_descriptor_info_t) (r : Bool × usb_midi_descriptor_info_t)
    (h : usb_midi_descriptor_lib_configure fuel s d midi_descriptor max_len = some r) :
    usb_midi_descriptor_lib_configure (fuel + k) s d midi_descriptor max_len = some r := by
  unfold usb_midi_descriptor_lib_configure at h ⊢
  simp only at h ⊢
  split_ifs at h ⊢ with hc
  · cases hw : walk d max_len fuel (record_interface_string s d midi_descriptor)
        (tu_desc_next d midi_descriptor) (rd d midi_descriptor) 0 with
    | none => rw [hw] at h; cases h
    | some r1 =>
      rw [walk_fuel_mono fuel k _ _ _ _ r1 hw]
      rw [hw] at h
      exact h
  · exact h

/-- A successful iteration keeps a recorded IN endpoint. -/
theorem walk_body_ep_in_ne_zero {d : List Nat} (s s1 : usb_midi_descriptor_info_t)
    (p prev prev1 : Nat) (hI : s.ep_in ≠ 0) (h : walk_body d s p prev = some (s1, prev1)) :
    s1.ep_in ≠ 0 := by
  rcases walk_body_cases h with ⟨_, h1, _⟩ | ⟨_, h1, _⟩ | ⟨_, h1⟩
  · rw [(walk_cs_interface_fields h1).1]; exact hI
  · rw [(walk_cs_endpoint_fields h1).1]; exact hI
  · have hf := walk_endpoint_fields h1
    cases hdir : tu_edpt_dir (rd d (p + 2)) with
    | true => exact absurd (hf.2.2.2.2.1 hdir).1 hI
    | false => rw [(hf.2.2.2.2.2 hdir).2.2]; exact hI

/-- A successful iteration keeps a recorded OUT endpoint. -/
theorem walk_body_ep_out_ne_zero {d : List Nat} (s s1 : usb_midi_descriptor_info_t)
    (p prev prev1 : Nat) (hI : s.ep_out ≠ 0) (h : walk_body d s p prev = some (s1, prev1)) :
    s1.ep_out ≠ 0 := by
  rcases walk_body_cases h with ⟨_, h1, _⟩ | ⟨_, h1, _⟩ | ⟨_, h1⟩
  · rw [(walk_cs_interface_fields h1).2.1]; exact hI
  · rw [(walk_cs_endpoint_fields h1).2.1]; exact hI
  · have hf := walk_endpoint_fields h1
    cases hdir : tu_edpt_dir (rd d (p + 2)) with
    | true => rw [(hf.2.2.2.2.1 hdir).2.2]; exact hI
    | false => exact absurd (hf.2.2.2.2.2 hdir).1 hI

/-- The iteration on a standard endpoint descriptor is the ENDPOINT branch. -/
theorem walk_body_of_endpoint {d : List Nat} {s : usb_midi_descriptor_info_t} {p prev : Nat}
    (hp : is_endpoint_desc d p = true) : walk_body d s p prev = walk_endpoint d s p := by
  have h5 : rd d (p + 1) = TUSB_DESC_ENDPOINT := by simpa [is_endpoint_desc] using hp
  unfold walk_body
  simp [h5, TUSB_DESC_ENDPOINT, TUSB_DESC_CS_INTERFACE, TUSB_DESC_CS_ENDPOINT]

/-! ## Two endpoints of one direction (C6, C7) -/

/-- C6: when the sub-descriptors that the walk meets include two standard
endpoint descriptors whose address has the IN direction bit set, then
`usb_midi_descriptor_lib_configure` returns false, from every record and
whatever else the memory contains (`n` iterations reach the second one, and
every amount of fuel from `n` on gives the result). -/
theorem configure_two_in_endpoints_false (s : usb_midi_descriptor_info_t) (d : List Nat)
    (midi_descriptor max_len n fuel i j p q : Nat) (hfuel : n ≤ fuel) (hij : i < j)
    (hp : (configure_sub_descriptors d midi_descriptor max_len n)[i]? = some p)
    (hq : (configure_sub_descriptors d midi_descriptor max_len n)[j]? = some q)
    (hpe : is_endpoint_desc d p = true) (hpd : tu_edpt_dir (rd d (p + 2)) = true)
    (hqe : is_endpoint_desc d q = true) (hqd : tu_edpt_dir (rd d (q + 2)) = true) :
    ∃ s1, usb_midi_descriptor_lib_configure fuel s d midi_descriptor max_len
      = some (false, s1) := by
  have hw : ∀ s1 : usb_midi_descriptor_info_t, ∃ s2,
      walk d max_len n s1 (tu_desc_next d midi_descriptor) (rd d midi_descriptor) 0
        = some (false, s2) := by
    intro s1
    refine walk_false_of_two_desc (fun t => t.ep_in ≠ 0)
      (fun a => is_endpoint_desc d a = true ∧ tu_edpt_dir (rd d (a + 2)) = true)
      (fun a => is_endpoint_desc d a = true ∧ tu_edpt_dir (rd d (a + 2)) = true)
      walk_body_ep_in_ne_zero ?_ ?_ n s1 _ _ 0 i j p q hij hp hq ⟨hpe, hpd⟩ ⟨hqe, hqd⟩
    · intro t t1 a prev prev1 hB hbody
      rw [walk_body_of_endpoint hB.1] at hbody
      rw [((walk_endpoint_fields hbody).2.2.2.2.1 hB.2).2.1]
      exact tu_edpt_dir_ne_zero hB.2
    · intro t a prev hI hB
      rw [walk_body_of_endpoint hB.1]
      cases hbody : walk_endpoint d t a with
      | none => rfl
      | some r =>
        obtain ⟨t1, prev1⟩ := r
        exact absurd ((walk_endpoint_fields hbody).2.2.2.2.1 hB.2).1 hI
  obtain ⟨s1, h1⟩ := configure_false_of_walk_false hw s
  obtain ⟨k, rfl⟩ : ∃ k, fuel = n + k := ⟨fuel - n, by omega⟩
  exact ⟨s1, configure_fuel_mono n k s _ h1⟩

/-- C6 at a concrete input: the endpoints 0x81 and 0x82. -/
theorem configure_two_in_endpoints_false_witness :
    ∃ s1, usb_midi_descriptor_lib_configure 3 usb_midi_descriptor_lib_init
      two_in_endpoints_desc 0 39 = some (false, s1) :=
  configure_two_in_endpoints_false usb_midi_descriptor_lib_init two_in_endpoints_desc
    0 39 3 3 1 2 16 25 (by decide) (by decide) (by decide) (by decide) (by decide) (by decide)
    (by decide) (by decide)

/-- C7 as stated fails: the walk of `two_out_endpoints_zero_desc` meets two
standard OUT endpoint descriptors (at offsets 16 and 25, addresses 0x00 and
0x01) and `usb_midi_descriptor_lib_configure` returns true. -/
theorem configure_two_out_endpoints_counterexample :
    configure_sub_descriptors two_out_endpoints_zero_desc 0 39 5 = [9, 16, 25, 34] ∧
    is_endpoint_desc two_out_endpoints_zero_desc 16 = true ∧
    tu_edpt_dir (rd two_out_endpoints_zero_desc (16 + 2)) = false ∧
    is_endpoint_desc two_out_endpoints_zero_desc 25 = true ∧
    tu_edpt_dir (rd two_out_endpoints_zero_desc (25 + 2)) = false ∧
    (usb_midi_descriptor_lib_configure 5 usb_midi_descriptor_lib_init
      two_out_endpoints_zero_desc 0 39).map Prod.fst = some true := by
  decide

/-- C7 as amended: when the sub-descriptors that the walk meets include two
standard endpoint descriptors of the OUT direction and the address byte of the
first is not 0, then `usb_midi_descriptor_lib_configure` returns false, from
every record. -/
theorem configure_two_out_endpoints_false (s : usb_midi_descriptor_info_t) (d : List Nat)
    (midi_descriptor max_len n fuel i j p q : Nat) (hfuel : n ≤ fuel) (hij : i < j)
    (hp : (configure_sub_descriptors d midi_descriptor max_len n)[i]? = some p)
    (hq : (configure_sub_descriptors d midi_descriptor max_len n)[j]? = some q)
    (hpe : is_endpoint_desc d p = true) (hpd : tu_edpt_dir (rd d (p + 2)) = false)
    (hp0 : rd d (p + 2) ≠ 0)
    (hqe : is_endpoint_desc d q = true) (hqd : tu_edpt_dir (rd d (q + 2)) = false) :
    ∃ s1, usb_midi_descriptor_lib_configure fuel s d midi_descriptor max_len
      = some (false, s1) := by
  have hw : ∀ s1 : usb_midi_descriptor_info_t, ∃ s2,
      walk d max_len n s1 (tu_desc_next d midi_descriptor) (rd d midi_descriptor) 0
        = some (false, s2) := by
    intro s1
    refine walk_false_of_two_desc (fun t => t.ep_out ≠ 0)
      (fun a => is_endpoint_desc d a = true ∧ tu_edpt_dir (rd d (a + 2)) = false ∧
        rd d (a + 2) ≠ 0)
      (fun a => is_endpoint_desc d a = true ∧ tu_edpt_dir (rd d (a + 2)) = false)
      walk_body_ep_out_ne_zero ?_ ?_ n s1 _ _ 0 i j p q hij hp hq ⟨hpe, hpd, hp0⟩ ⟨hqe, hqd⟩
    · intro t t1 a prev prev1 hB hbody
      rw [walk_body_of_endpoint hB.1] at hbody
      rw [((walk_endpoint_fields hbody).2.2.2.2.2 hB.2.1).2.1]
      exact hB.2.2
    · intro t a prev hI hB
      rw [walk_body_of_endpoint hB.1]
      cases hbody : walk_endpoint d t a with
      | none => rfl
      | some r =>
        obtain ⟨t1, prev1⟩ := r
        exact absurd ((walk_endpoint_fields hbody).2.2.2.2.2 hB.2).1 hI
  obtain ⟨s1, h1⟩ := configure_false_of_walk_false hw s
  obtain ⟨k, rfl⟩ : ∃ k, fuel = n + k := ⟨fuel - n, by omega⟩
  exact ⟨s1, configure_fuel_mono n k s _ h1⟩

/-- C7 as amended at a concrete input: the endpoints 0x01 and 0x02. -/
theorem configure_two_out_endpoints_false_witness :
    ∃ s1, usb_midi_descriptor_lib_configure 3 usb_midi_descriptor_lib_init
      two_out_endpoints_desc 0 39 = some (false, s1) :=
  configure_two_out_endpoints_false usb_midi_descriptor_lib_init two_out_endpoints_desc
    0 39 3 3 1 2 16 25 (by decide) (by decide) (by decide) (by decide) (by decide) (by decide)
    (by decide) (by decide) (by decide)

/-! ## A failed parse (C4) -/

theorem record_interface_string_fields (s : usb_midi_descriptor_info_t) (d : List Nat)
    (midi_descriptor : Nat) :
    (record_interface_string s d midi_descriptor).configured = s.configured ∧
    (record_interface_string s d midi_descriptor).ep_in = s.ep_in ∧
    (record_interface_string s d midi_descriptor).ep_out = s.ep_out ∧
    (record_interface_string s d midi_descriptor).num_cables_rx = s.num_cables_rx ∧
    (record_interface_string s d midi_descriptor).num_cables_tx = s.num_cables_tx ∧
    (record_interface_string s d midi_descriptor).next_in_jack = s.next_in_jack ∧
    (record_interface_string s d midi_descriptor).next_out_jack = s.next_out_jack ∧
    (record_interface_string s d midi_descriptor).in_jack_info = s.in_jack_info ∧
    (record_interface_string s d midi_descriptor).out_jack_info = s.out_jack_info ∧
    (record_interface_string s d midi_descriptor).ep_in_associated_jacks
      = s.ep_in_associated_jacks ∧
    (record_interface_string s d midi_descriptor).ep_out_associated_jacks
      = s.ep_out_associated_jacks := by
  unfold record_interface_string
  simp only
  split_ifs <;> simp [push_string_index]

/-- The shapes of a result of `usb_midi_descriptor_lib_configure`. -/
theorem configure_cases {fuel : Nat} {s : usb_midi_descriptor_info_t} {d : List Nat}
    {midi_descriptor max_len : Nat} {r : Bool × usb_midi_descriptor_info_t}
    (h : usb_midi_descriptor_lib_configure fuel s d midi_descriptor max_len = some r) :
    (first_desc_ok d (tu_desc_next d midi_descriptor) = false ∧
      r = (false, record_interface_string s d midi_descriptor)) ∨
    (first_desc_ok d (tu_desc_next d midi_descriptor) = true ∧
      walk d max_len fuel (record_interface_string s d midi_descriptor)
        (tu_desc_next d midi_descriptor) (rd d midi_descriptor) 0 = some (false, r.2) ∧
      r.1 = false) ∨
    (first_desc_ok d (tu_desc_next d midi_descriptor) = true ∧
      ∃ s2, walk d max_len fuel (record_interface_string s d midi_descriptor)
        (tu_desc_next d midi_descriptor) (rd d midi_descriptor) 0 = some (true, s2) ∧
      r = configure_finish s2) := by
  unfold usb_midi_descriptor_lib_configure at h
  simp only at h
  split_ifs at h with hc
  · right
    cases hw : walk d max_len fuel (record_interface_string s d midi_descriptor)
        (tu_desc_next d midi_descriptor) (rd d midi_descriptor) 0 with
    | none => rw [hw] at h; cases h
    | some r1 =>
      obtain ⟨b, s2⟩ := r1
      rw [hw] at h
      cases b with
      | false =>
        left
        simp only [Option.some.injEq] at h
        subst h
        exact ⟨hc, rfl, rfl⟩
      | true =>
        right
        simp only [Option.some.injEq] at h
        exact ⟨hc, s2, rfl, h.symm⟩
  · left
    simp only [Option.some.injEq] at h
    exact ⟨by simpa using hc, h.symm⟩

/-- C4 as stated fails.  The record after a successful parse of
`one_out_endpoint_desc` is configured and answers 0 for OUT cable 0; the parse
of `in_jack_then_endpoint_desc` on that record returns false, and afterwards
the flag is still true, OUT cable 0 gives 7 and the catalog has changed. -/
theorem configure_failed_parse_counterexample :
    ∃ s0 s1, usb_midi_descriptor_lib_configure 5 usb_midi_descriptor_lib_init
        one_out_endpoint_desc 0 30 = some (true, s0) ∧
      usb_midi_descriptor_lib_configure 5 s0 in_jack_then_endpoint_desc 0 36
        = some (false, s1) ∧
      s1.configured = true ∧
      usb_midi_descriptor_lib_get_str_idx_for_out_cable s0 0 = 0 ∧
      usb_midi_descriptor_lib_get_str_idx_for_out_cable s1 0 = 7 ∧
      (usb_midi_descriptor_lib_get_all_str_inidices s0).1 = 0 ∧
      (usb_midi_descriptor_lib_get_all_str_inidices s1).1 = 1 :=
  ⟨_, _, rfl, rfl, by decide, by decide, by decide, by decide, by decide⟩

/-- C4 as amended: a call of `usb_midi_descriptor_lib_configure` that returns
false leaves the `configured` flag as it was, for every record and every input;
when the record was not configured, the flag is false afterwards and
`usb_midi_descriptor_lib_get_all_str_inidices` gives the same result after the
call as before it. -/
theorem configure_false_keeps_configured (fuel : Nat) (s s1 : usb_midi_descriptor_info_t)
    (d : List Nat) (midi_descriptor max_len : Nat)
    (h : usb_midi_descriptor_lib_configure fuel s d midi_descriptor max_len = some (false, s1)) :
    s1.configured = s.configured ∧
    (s.configured = false → s1.configured = false ∧
      usb_midi_descriptor_lib_get_all_str_inidices s1
        = usb_midi_descriptor_lib_get_all_str_inidices s) := by
  have hc : s1.configured = s.configured := by
    rcases configure_cases h with ⟨_, h1⟩ | ⟨_, h1, _⟩ | ⟨_, s2, h1, h2⟩
    · simp only [Prod.mk.injEq, true_and] at h1
      rw [h1]
      exact (record_interface_string_fields s d midi_descriptor).1
    · rw [walk_configured _ _ _ _ _ _ h1]
      exact (record_interface_string_fields s d midi_descriptor).1
    · unfold configure_finish at h2
      split_ifs at h2
      · simp at h2
      · simp only [Prod.mk.injEq, true_and] at h2
        rw [h2, walk_configured _ _ _ _ _ _ h1]
        exact (record_interface_string_fields s d midi_descriptor).1
  refine ⟨hc, fun hs => ⟨by rw [hc, hs], ?_⟩⟩
  have hs1 : s1.configured = false := by rw [hc, hs]
  simp [usb_midi_descriptor_lib_get_all_str_inidices, hs, hs1]

/-- C4 as amended at a concrete input: the parse of `no_endpoint_desc` from
the initialised record returns false. -/
theorem configure_false_keeps_configured_witness :
    ∃ s1, usb_midi_descriptor_lib_configure 3 usb_midi_descriptor_lib_init
        no_endpoint_desc 0 22 = some (false, s1) ∧
      s1.configured = usb_midi_descriptor_lib_init.configured ∧
      (usb_midi_descriptor_lib_init.configured = false → s1.configured = false ∧
        usb_midi_descriptor_lib_get_all_str_inidices s1
          = usb_midi_descriptor_lib_get_all_str_inidices usb_midi_descriptor_lib_init) :=
  ⟨_, rfl, configure_false_keeps_configured 3 usb_midi_descriptor_lib_init _
    no_endpoint_desc 0 22 rfl⟩

/-! ## The final acceptance test (C5) -/

/-- A property of the record that every successful iteration on a
sub-descriptor with the property `B` preserves holds after a walk that meets
only such sub-descriptors. -/
theorem walk_invariant_on {d : List Nat} {max_len : Nat}
    (I : usb_midi_descriptor_info_t → Prop) (B : Nat → Prop)
    (hpres : ∀ (s s1 : usb_midi_descriptor_info_t) (p prev prev1 : Nat),
      I s → B p → walk_body d s p prev = some (s1, prev1) → I s1) :
    ∀ (n : Nat) (s : usb_midi_descriptor_info_t) (p len_parsed prev : Nat)
      (r : Bool × usb_midi_descriptor_info_t),
      I s → (∀ q ∈ sub_descriptors d max_len n p len_parsed, B q) →
      walk d max_len n s p len_parsed prev = some r → I r.2 := by
  intro n
  induction n with
  | zero =>
    intro s p len_parsed prev r hI _ h
    by_cases hlen : len_parsed < max_len
    · simp [walk, hlen] at h
    · simp only [walk, hlen, if_false, Option.some.injEq] at h
      rw [← h]; exact hI
  | succ n ih =>
    intro s p len_parsed prev r hI hB h
    by_cases hlen : len_parsed < max_len
    · simp only [sub_descriptors, hlen, if_true, List.mem_cons, forall_eq_or_imp] at hB
      cases hb : walk_body d s p prev with
      | none =>
        rw [walk_succ_of_body_none n hlen hb] at h
        simp only [Option.some.injEq] at h
        rw [← h]; exact hI
      | some r1 =>
        obtain ⟨s1, prev1⟩ := r1
        rw [walk_succ_of_body n hlen hb] at h
        exact ih _ _ _ _ r (hpres _ _ _ _ _ hI hB.1 hb) hB.2 h
    · simp only [walk, hlen, if_false, Option.some.injEq] at h
      rw [← h]; exact hI

/-- C9 fails on the code: on the initialised record, which is not configured,
`usb_midi_descriptor_lib_get_all_str_inidices` returns 255 (the `uint8_t`
local that holds -1) and leaves `*inidices` untouched; 255 is not <= 0. -/
theorem get_all_str_inidices_unconfigured :
    usb_midi_descriptor_lib_get_all_str_inidices usb_midi_descriptor_lib_init = (255, none) ∧
    ¬ ((usb_midi_descriptor_lib_get_all_str_inidices usb_midi_descriptor_lib_init).1 ≤ 0) := by
  decide

/-! ## Full jack tables (C10) -/

/-- The CS_INTERFACE branch keeps the jack counters within the tables. -/
theorem walk_cs_interface_next {d : List Nat} {s s1 : usb_midi_descriptor_info_t} {p : Nat}
    (h : walk_cs_interface d s p = some s1) :
    (s.next_in_jack ≤ MAX_IN_JACKS → s1.next_in_jack ≤ MAX_IN_JACKS) ∧
    (s.next_out_jack ≤ MAX_OUT_JACKS → s1.next_out_jack ≤ MAX_OUT_JACKS) := by
  unfold walk_cs_interface at h
  simp only at h
  split_ifs at h with h1 h2 h3 h4 h5 h6 h7 h8 <;> simp only [Option.some.injEq] at h <;>
    subst h <;> simp only [push_string_index, MAX_IN_JACKS, MAX_OUT_JACKS] at * <;>
    constructor <;> intro _ <;> omega

/-- The ENDPOINT branch leaves the jack tables and the catalog alone. -/
theorem walk_endpoint_tables {d : List Nat} {s s1 : usb_midi_descriptor_info_t} {p prev1 : Nat}
    (h : walk_endpoint d s p = some (s1, prev1)) :
    s1.next_in_jack = s.next_in_jack ∧ s1.next_out_jack = s.next_out_jack ∧
    s1.in_jack_info = s.in_jack_info ∧ s1.out_jack_info = s.out_jack_info ∧
    s1.all_string_indices = s.all_string_indices ∧
    s1.num_string_indices = s.num_string_indices ∧
    s1.ep_in_associated_jacks = s.ep_in_associated_jacks ∧
    s1.ep_out_associated_jacks = s.ep_out_associated_jacks := by
  unfold walk_endpoint at h
  simp only at h
  split_ifs at h <;> simp only [Option.some.injEq, Prod.mk.injEq] at h <;>
    obtain ⟨rfl, rfl⟩ := h <;> simp

/-- A successful iteration keeps the jack counters within the tables. -/
theorem walk_body_next {d : List Nat} (s s1 : usb_midi_descriptor_info_t)
    (p prev prev1 : Nat)
    (hI : s.next_in_jack ≤ MAX_IN_JACKS ∧ s.next_out_jack ≤ MAX_OUT_JACKS)
    (h : walk_body d s p prev = some (s1, prev1)) :
    s1.next_in_jack ≤ MAX_IN_JACKS ∧ s1.next_out_jack ≤ MAX_OUT_JACKS := by
  rcases walk_body_cases h with ⟨_, h1, _⟩ | ⟨_, h1, _⟩ | ⟨_, h1⟩
  · exact ⟨(walk_cs_interface_next h1).1 hI.1, (walk_cs_interface_next h1).2 hI.2⟩
  · have hf := walk_cs_endpoint_fields h1
    rw [hf.2.2.2.1, hf.2.2.2.2.1]; exact hI
  · have hf := walk_endpoint_tables h1
    rw [hf.1, hf.2.1]; exact hI

/-- C10 as stated fails: `seventeen_in_jacks_desc` declares 17 IN jacks and
`seventeen_out_jacks_desc` declares 17 OUT jacks; both are accepted from the
initialised record, 16 jacks are recorded, and the cable that names the 17th
jack (iJack 17) has no string index. -/
theorem configure_seventeen_jacks_counterexample :
    ∃ s1 s2, usb_midi_descriptor_lib_configure 21 usb_midi_descriptor_lib_init
        seventeen_in_jacks_desc 0 132 = some (true, s1) ∧
      s1.next_in_jack = 16 ∧ usb_midi_descriptor_lib_get_str_idx_for_out_cable s1 0 = 0 ∧
      usb_midi_descriptor_lib_configure 21 usb_midi_descriptor_lib_init
        seventeen_out_jacks_desc 0 183 = some (true, s2) ∧
      s2.next_out_jack = 16 ∧ usb_midi_descriptor_lib_get_str_idx_for_in_cable s2 0 = 0 :=
  ⟨_, _, rfl, by decide, by decide, rfl, by decide, by decide⟩

/-! ## Reading a concatenation -/

theorem rd_append_left {l r : List Nat} {i : Nat} (h : i < l.length) :
    rd (l ++ r) i = rd l i := by
  simp [rd, List.getD_eq_getElem?_getD, List.getElem?_append_left h]

theorem rd_append_right (l r : List Nat) (i : Nat) :
    rd (l ++ r) (l.length + i) = rd r i := by
  simp [rd, List.getD_eq_getElem?_getD, List.getElem?_append_right]

/-- The byte `i` of a block that sits in the memory after `pre`. -/
theorem rd_block (pre blk post : List Nat) {i : Nat} (h : i < blk.length) :
    rd (pre ++ (blk ++ post)) (pre.length + i) = rd blk i := by
  rw [rd_append_right, rd_append_left h]

theorem take_succ_set {α : Type} (l : List α) (n : Nat) (x : α) (h : n < l.length) :
    (l.set n x).take (n + 1) = l.take n ++ [x] := by
  induction l generalizing n with
  | nil => simp at h
  | cons a l ih =>
    cases n with
    | zero => simp
    | succ n =>
      simp only [List.length_cons, Nat.add_lt_add_iff_right] at h
      simp [ih n h]

/-! ## The cable queries as a search for the first matching id -/

theorem find_in_jack_eq (s : usb_midi_descriptor_info_t) (id : Nat) :
    ∀ (n k : Nat), k + n ≤ s.in_jack_info.length →
      find_in_jack s id n k = first_string_index id
        (((s.in_jack_info.drop k).take n).map (fun e => (e.jack_id, e.string_index))) := by
  intro n
  induction n with
  | zero => intro k _; simp [find_in_jack, first_string_index]
  | succ n ih =>
    intro k hk
    have hk1 : k < s.in_jack_info.length := by omega
    have hd : s.in_jack_info.drop k = s.in_jack_info[k] :: s.in_jack_info.drop (k + 1) :=
      List.drop_eq_getElem_cons hk1
    have hg : s.in_jack_info.getD k in_jack_zero = s.in_jack_info[k] := by
      simp [List.getD_eq_getElem?_getD, List.getElem?_eq_getElem hk1]
    rw [find_in_jack, hg, hd, ih (k + 1) (by omega)]
    simp [first_string_index]

theorem find_out_jack_eq (s : usb_midi_descriptor_info_t) (id : Nat) :
    ∀ (n k : Nat), k + n ≤ s.out_jack_info.length →
      find_out_jack s id n k = first_string_index id
        (((s.out_jack_info.drop k).take n).map (fun e => (e.jack_id, e.string_index))) := by
  intro n
  induction n with
  | zero => intro k _; simp [find_out_jack, first_string_index]
  | succ n ih =>
    intro k hk
    have hk1 : k < s.out_jack_info.length := by omega
    have hd : s.out_jack_info.drop k = s.out_jack_info[k] :: s.out_jack_info.drop (k + 1) :=
      List.drop_eq_getElem_cons hk1
    have hg : s.out_jack_info.getD k out_jack_zero = s.out_jack_info[k] := by
      simp [List.getD_eq_getElem?_getD, List.getElem?_eq_getElem hk1]
    rw [find_out_jack, hg, hd, ih (k + 1) (by omega)]
    simp [first_string_index]

/-- With pairwise distinct ids the first match is the only one. -/
theorem first_string_index_of_nodup {id x : Nat} :
    ∀ (pairs : List (Nat × Nat)), (pairs.map Prod.fst).Nodup → (id, x) ∈ pairs →
      first_string_index id pairs = x := by
  intro pairs
  induction pairs with
  | nil => intro _ h; simp at h
  | cons e rest ih =>
    intro hnd hmem
    simp only [List.map_cons, List.nodup_cons] at hnd
    simp only [List.mem_cons] at hmem
    by_cases he : e.1 = id
    · rcases hmem with hmem | hmem
      · simp [first_string_index, ← hmem]
      · exfalso
        apply hnd.1
        rw [he]
        exact List.mem_map.mpr ⟨(id, x), hmem, rfl⟩
    · rcases hmem with hmem | hmem
      · exact absurd (by rw [← hmem]) he
      · simp [first_string_index, he, ih hnd.2 hmem]

/-! ## Walking over IN-jack descriptors -/

/-- The iteration on an IN-jack descriptor when the table has room. -/
theorem walk_body_in_jack (pre post : List Nat) (j : in_jack_info_t)
    (s : usb_midi_descriptor_info_t) (prev : Nat)
    (hid : j.jack_id < 256) (hsi : j.string_index < 256)
    (hroom : s.next_in_jack < MAX_IN_JACKS) :
    ∃ s1, walk_body (pre ++ (in_jack_desc j ++ post)) s pre.length prev = some (s1, prev) ∧
      s1.in_jack_info = s.in_jack_info.set s.next_in_jack
        ⟨j.jack_id, j.jack_type % 256, j.string_index⟩ ∧
      s1.next_in_jack = s.next_in_jack + 1 := by
  have h1 : rd (pre ++ (in_jack_desc j ++ post)) (pre.length + 1) = TUSB_DESC_CS_INTERFACE := by
    rw [rd_block pre (in_jack_desc j) post (by simp [in_jack_desc])]
    simp [rd, in_jack_desc, TUSB_DESC_CS_INTERFACE]
  have h2 : rd (pre ++ (in_jack_desc j ++ post)) (pre.length + 2) = MIDI_CS_INTERFACE_IN_JACK := by
    rw [rd_block pre (in_jack_desc j) post (by simp [in_jack_desc])]
    simp [rd, in_jack_desc, MIDI_CS_INTERFACE_IN_JACK]
  have h3 : rd (pre ++ (in_jack_desc j ++ post)) (pre.length + 3) = j.jack_type % 256 := by
    rw [rd_block pre (in_jack_desc j) post (by simp [in_jack_desc])]
    simp [rd, in_jack_desc]
  have h4 : rd (pre ++ (in_jack_desc j ++ post)) (pre.length + 4) = j.jack_id := by
    rw [rd_block pre (in_jack_desc j) post (by simp [in_jack_desc])]
    simp [rd, in_jack_desc, Nat.mod_eq_of_lt hid]
  have h5 : rd (pre ++ (in_jack_desc j ++ post)) (pre.length + 5) = j.string_index := by
    rw [rd_block pre (in_jack_desc j) post (by simp [in_jack_desc])]
    simp [rd, in_jack_desc, Nat.mod_eq_of_lt hsi]
  have hn : (s.next_in_jack + 1) % 256 = s.next_in_jack + 1 := by
    apply Nat.mod_eq_of_lt
    simp only [MAX_IN_JACKS] at hroom
    omega
  by_cases h0 : j.string_index = 0
  · refine ⟨{ s with
        in_jack_info := s.in_jack_info.set s.next_in_jack
          ⟨j.jack_id, j.jack_type % 256, j.string_index⟩
        next_in_jack := (s.next_in_jack + 1) % 256 }, ?_, rfl, hn⟩
    simp [walk_body, walk_cs_interface, h1, h2, h3, h4, h5, hroom, h0,
      TUSB_DESC_CS_INTERFACE, MIDI_CS_INTERFACE_IN_JACK, MIDI_CS_INTERFACE_HEADER]
  · refine ⟨push_string_index { s with
        in_jack_info := s.in_jack_info.set s.next_in_jack
          ⟨j.jack_id, j.jack_type % 256, j.string_index⟩
        next_in_jack := (s.next_in_jack + 1) % 256 } j.string_index, ?_, rfl, hn⟩
    simp [walk_body, walk_cs_interface, h1, h2, h3, h4, h5, hroom, h0,
      TUSB_DESC_CS_INTERFACE, MIDI_CS_INTERFACE_IN_JACK, MIDI_CS_INTERFACE_HEADER]

theorem same_endpoints_refl (s : usb_midi_descriptor_info_t) : same_endpoints s s :=
  ⟨rfl, rfl, rfl, rfl, rfl, rfl⟩

theorem same_endpoints_trans {s s1 s2 : usb_midi_descriptor_info_t}
    (h1 : same_endpoints s s1) (h2 : same_endpoints s1 s2) : same_endpoints s s2 := by
  unfold same_endpoints at h1 h2 ⊢
  refine ⟨h2.1.trans h1.1, h2.2.1.trans h1.2.1, h2.2.2.1.trans h1.2.2.1, ?_, ?_, ?_⟩
  · exact h2.2.2.2.1.trans h1.2.2.2.1
  · exact h2.2.2.2.2.1.trans h1.2.2.2.2.1
  · exact h2.2.2.2.2.2.trans h1.2.2.2.2.2

/-- An iteration on a CS_INTERFACE descriptor leaves the endpoint part of the
record alone. -/
theorem same_endpoints_of_cs_interface {d : List Nat} {s s1 : usb_midi_descriptor_info_t}
    {p prev prev1 : Nat} (ht : rd d (p + 1) = TUSB_DESC_CS_INTERFACE)
    (h : walk_body d s p prev = some (s1, prev1)) : same_endpoints s s1 := by
  rcases walk_body_cases h with ⟨_, h1, _⟩ | ⟨h5, _, _⟩ | ⟨h5, _⟩
  · have hf := walk_cs_interface_fields h1
    exact ⟨hf.1, hf.2.1, hf.2.2.1, hf.2.2.2.1, hf.2.2.2.2.2.1, hf.2.2.2.2.2.2⟩
  · rw [ht] at h5; cases h5
  · rw [ht] at h5; cases h5

/-- The walk over a run of IN-jack descriptors that fit into the table: it
records them in order and goes on with the sub-descriptor after them. -/
theorem walk_in_jacks {max_len : Nat} (hmax : max_len < 2 ^ 32) :
    ∀ (js done : List in_jack_info_t) (pre post : List Nat) (s : usb_midi_descriptor_info_t)
      (fuel len_parsed prev : Nat),
      (∀ j ∈ js, j.jack_id < 256 ∧ j.string_index < 256) →
      in_table_holds s done → done.length + js.length ≤ MAX_IN_JACKS →
      len_parsed + 6 * js.length ≤ max_len →
      ∃ s1, walk (pre ++ (js.flatMap in_jack_desc ++ post)) max_len (fuel + js.length) s
            pre.length len_parsed prev
          = walk (pre ++ (js.flatMap in_jack_desc ++ post)) max_len fuel s1
            (pre.length + 6 * js.length) (len_parsed + 6 * js.length) prev ∧
        in_table_holds s1 (done ++ js) ∧ same_endpoints s s1 ∧
        s1.out_jack_info = s.out_jack_info ∧ s1.next_out_jack = s.next_out_jack := by
  intro js
  induction js with
  | nil =>
    intro done pre post s fuel len_parsed prev _ ht _ _
    exact ⟨s, by simp, by simpa using ht, same_endpoints_refl s, rfl, rfl⟩
  | cons j js ih =>
    intro done pre post s fuel len_parsed prev hb ht hroom hlen
    simp only [List.length_cons] at hroom hlen
    have hj := hb j (List.mem_cons_self _ _)
    obtain ⟨hlen16, hnext, htake⟩ := ht
    have hroom1 : s.next_in_jack < MAX_IN_JACKS := by rw [hnext]; omega
    have hmem : pre ++ ((j :: js).flatMap in_jack_desc ++ post)
        = pre ++ (in_jack_desc j ++ (js.flatMap in_jack_desc ++ post)) := by
      simp [List.flatMap_cons]
    have hmem2 : pre ++ (in_jack_desc j ++ (js.flatMap in_jack_desc ++ post))
        = (pre ++ in_jack_desc j) ++ (js.flatMap in_jack_desc ++ post) := by
      simp
    obtain ⟨s1, hbody, htab, hnx⟩ :=
      walk_body_in_jack pre (js.flatMap in_jack_desc ++ post) j s prev hj.1 hj.2 hroom1
    have hl0 : rd (pre ++ (in_jack_desc j ++ (js.flatMap in_jack_desc ++ post))) pre.length
        = 6 := by
      have := rd_block pre (in_jack_desc j) (js.flatMap in_jack_desc ++ post)
        (i := 0) (by simp [in_jack_desc])
      simp only [Nat.add_zero] at this
      rw [this]
      simp [rd, in_jack_desc]
    have ht1 : rd (pre ++ (in_jack_desc j ++ (js.flatMap in_jack_desc ++ post)))
        (pre.length + 1) = TUSB_DESC_CS_INTERFACE := by
      rw [rd_block pre (in_jack_desc j) _ (by simp [in_jack_desc])]
      simp [rd, in_jack_desc, TUSB_DESC_CS_INTERFACE]
    have hse := same_endpoints_of_cs_interface ht1 hbody
    have hother : s1.out_jack_info = s.out_jack_info ∧ s1.next_out_jack = s.next_out_jack := by
      have hroom2 : s.next_in_jack < 16 := hroom1
      have h2 : rd (pre ++ (in_jack_desc j ++ (js.flatMap in_jack_desc ++ post)))
          (pre.length + 2) = MIDI_CS_INTERFACE_IN_JACK := by
        rw [rd_block pre (in_jack_desc j) _ (by simp [in_jack_desc])]
        simp [rd, in_jack_desc, MIDI_CS_INTERFACE_IN_JACK]
      rcases walk_body_cases hbody with ⟨_, hc, _⟩ | ⟨h5, _, _⟩ | ⟨h5, _⟩
      · unfold walk_cs_interface at hc
        simp only [h2, MIDI_CS_INTERFACE_IN_JACK, MIDI_CS_INTERFACE_HEADER, MAX_IN_JACKS,
          hroom2] at hc
        simp only [if_true, OfNat.ofNat_ne_one, if_false, Option.some.injEq] at hc
        subst hc
        split_ifs <;> simp [push_string_index]
      · rw [ht1] at h5; cases h5
      · rw [ht1] at h5; cases h5
    have hstep : walk (pre ++ (in_jack_desc j ++ (js.flatMap in_jack_desc ++ post))) max_len
          (fuel + js.length + 1) s pre.length len_parsed prev
        = walk (pre ++ (in_jack_desc j ++ (js.flatMap in_jack_desc ++ post))) max_len
          (fuel + js.length) s1 (pre.length + 6) (len_parsed + 6) prev := by
      rw [walk_succ_of_body (fuel + js.length) (by omega) hbody]
      simp only [tu_desc_next, hl0]
      rw [Nat.mod_eq_of_lt (by omega)]
    have ht1 : in_table_holds s1 (done ++ [j]) := by
      refine ⟨by rw [htab, List.length_set]; exact hlen16, by rw [hnx, hnext]; simp, ?_⟩
      rw [htab, hnext]
      simp only [List.length_append, List.length_singleton]
      rw [take_succ_set _ _ _ (by rw [hlen16]; omega)]
      simp [htake]
    obtain ⟨s2, hw, ht2, hse2, ho2⟩ := ih (done ++ [j]) (pre ++ in_jack_desc j) post s1 fuel
      (len_parsed + 6) prev (fun x hx => hb x (List.mem_cons_of_mem _ hx)) ht1
      (by simp only [List.length_append, List.length_singleton]; omega) (by omega)
    refine ⟨s2, ?_, by simpa using ht2, same_endpoints_trans hse hse2,
      ho2.1.trans hother.1, ho2.2.trans hother.2⟩
    simp only [List.length_cons]
    rw [hmem, show fuel + (js.length + 1) = fuel + js.length + 1 by omega, hstep, hmem2]
    have hpl : (pre ++ in_jack_desc j).length = pre.length + 6 := by simp [in_jack_desc]
    rw [hpl] at hw
    rw [hw]
    congr 1 <;> omega

/-! ## Walking over the header and the endpoint descriptors -/

/-- The iteration on the MS interface header changes nothing. -/
theorem walk_body_header (pre post hdr : List Nat) (s : usb_midi_descriptor_info_t)
    (prev : Nat) (hh : is_ms_header hdr) :
    walk_body (pre ++ (hdr ++ post)) s pre.length prev = some (s, prev) ∧
    rd (pre ++ (hdr ++ post)) pre.length = hdr.length := by
  obtain ⟨h0, h3, h1, h2⟩ := hh
  have r0 := rd_block pre hdr post (i := 0) (by omega)
  have r1 := rd_block pre hdr post (i := 1) (by omega)
  have r2 := rd_block pre hdr post (i := 2) (by omega)
  rw [Nat.add_zero, h0] at r0
  rw [h1] at r1
  rw [h2] at r2
  refine ⟨?_, r0⟩
  simp [walk_body, walk_cs_interface, r1, r2, TUSB_DESC_CS_INTERFACE, MIDI_CS_INTERFACE_HEADER]

/-- The iteration on a standard OUT endpoint descriptor when no OUT endpoint
is recorded. -/
theorem walk_body_out_endpoint (pre post ep : List Nat) (s : usb_midi_descriptor_info_t)
    (prev : Nat) (he : is_standard_endpoint ep) (hdir : tu_edpt_dir (rd ep 2) = false)
    (h1 : s.ep_out = 0) (h2 : s.num_cables_tx = 0) :
    walk_body (pre ++ (ep ++ post)) s pre.length prev
      = some ({ s with ep_out := rd ep 2 }, rd ep 2) ∧
    rd (pre ++ (ep ++ post)) pre.length = ep.length := by
  obtain ⟨e0, e3, e1⟩ := he
  have r0 := rd_block pre ep post (i := 0) (by omega)
  have r1 := rd_block pre ep post (i := 1) (by omega)
  have r2 := rd_block pre ep post (i := 2) (by omega)
  rw [Nat.add_zero, e0] at r0
  rw [e1] at r1
  refine ⟨?_, r0⟩
  simp [walk_body, walk_endpoint, r1, r2, hdir, h1, h2, TUSB_DESC_CS_INTERFACE,
    TUSB_DESC_ENDPOINT, TUSB_DESC_CS_ENDPOINT]

/-- The iteration on a standard IN endpoint descriptor when no IN endpoint is
recorded. -/
theorem walk_body_in_endpoint (pre post ep : List Nat) (s : usb_midi_descriptor_info_t)
    (prev : Nat) (he : is_standard_endpoint ep) (hdir : tu_edpt_dir (rd ep 2) = true)
    (h1 : s.ep_in = 0) (h2 : s.num_cables_rx = 0) :
    walk_body (pre ++ (ep ++ post)) s pre.length prev
      = some ({ s with ep_in := rd ep 2 }, rd ep 2) ∧
    rd (pre ++ (ep ++ post)) pre.length = ep.length := by
  obtain ⟨e0, e3, e1⟩ := he
  have r0 := rd_block pre ep post (i := 0) (by omega)
  have r1 := rd_block pre ep post (i := 1) (by omega)
  have r2 := rd_block pre ep post (i := 2) (by omega)
  rw [Nat.add_zero, e0] at r0
  rw [e1] at r1
  refine ⟨?_, r0⟩
  simp [walk_body, walk_endpoint, r1, r2, hdir, h1, h2, TUSB_DESC_CS_INTERFACE,
    TUSB_DESC_ENDPOINT, TUSB_DESC_CS_ENDPOINT]

/-- The entries that the copy loop writes and those it leaves. -/
theorem copy_assoc_jacks_getD (d : List Nat) (q : Nat) :
    ∀ (n k : Nat) (a : List Nat) (c : Nat), k + n ≤ a.length →
      (copy_assoc_jacks d q n k a).getD c 0
        = if k ≤ c ∧ c < k + n then rd d (q + c) else a.getD c 0 := by
  intro n
  induction n with
  | zero =>
    intro k a c _
    have : ¬ (k ≤ c ∧ c < k + 0) := by omega
    rw [if_neg this]
    rfl
  | succ n ih =>
    intro k a c hk
    rw [copy_assoc_jacks, ih (k + 1) _ c (by rw [List.length_set]; omega)]
    by_cases hc : c = k
    · subst hc
      have : c < a.length := by omega
      simp [List.getD_eq_getElem?_getD, List.getElem?_set, this]
    · have h1 : (k + 1 ≤ c ∧ c < k + 1 + n) ↔ (k ≤ c ∧ c < k + (n + 1)) := by omega
      simp only [h1]
      split_ifs
      · rfl
      · simp [List.getD_eq_getElem?_getD, List.getElem?_set, Ne.symm hc]

theorem copy_assoc_jacks_length (d : List Nat) (q : Nat) :
    ∀ (n k : Nat) (a : List Nat), (copy_assoc_jacks d q n k a).length = a.length := by
  intro n
  induction n with
  | zero => intro k a; rfl
  | succ n ih => intro k a; rw [copy_assoc_jacks, ih, List.length_set]

/-- The bytes of a CS-endpoint descriptor in the memory. -/
theorem cs_endpoint_desc_bytes (pre post assoc : List Nat) (hC : assoc.length ≤ 16) :
    rd (pre ++ (cs_endpoint_desc assoc ++ post)) pre.length = 4 + assoc.length ∧
    rd (pre ++ (cs_endpoint_desc assoc ++ post)) (pre.length + 1) = TUSB_DESC_CS_ENDPOINT ∧
    rd (pre ++ (cs_endpoint_desc assoc ++ post)) (pre.length + 2) = MIDI_CS_ENDPOINT_GENERAL ∧
    rd (pre ++ (cs_endpoint_desc assoc ++ post)) (pre.length + 3) = assoc.length ∧
    ∀ c, c < assoc.length →
      rd (pre ++ (cs_endpoint_desc assoc ++ post)) (pre.length + 4 + c) = assoc.getD c 0 % 256 := by
  have r0 := rd_block pre (cs_endpoint_desc assoc) post (i := 0) (by simp [cs_endpoint_desc])
  have r1 := rd_block pre (cs_endpoint_desc assoc) post (i := 1) (by simp [cs_endpoint_desc])
  have r2 := rd_block pre (cs_endpoint_desc assoc) post (i := 2) (by simp [cs_endpoint_desc])
  have r3 := rd_block pre (cs_endpoint_desc assoc) post (i := 3) (by simp [cs_endpoint_desc])
  rw [Nat.add_zero] at r0
  refine ⟨?_, ?_, ?_, ?_, ?_⟩
  · rw [r0]; simp only [rd, cs_endpoint_desc]
    simp only [List.cons_append, List.getD_cons_zero]
    omega
  · rw [r1]; simp [rd, cs_endpoint_desc, TUSB_DESC_CS_ENDPOINT]
  · rw [r2]; simp [rd, cs_endpoint_desc, MIDI_CS_ENDPOINT_GENERAL]
  · rw [r3]; simp only [rd, cs_endpoint_desc]
    simp only [List.cons_append, List.getD_cons_succ, List.getD_cons_zero]
    omega
  · intro c hc
    have := rd_block pre (cs_endpoint_desc assoc) post (i := 4 + c)
      (by simp [cs_endpoint_desc]; omega)
    rw [Nat.add_assoc, this]
    have h4 : cs_endpoint_desc assoc = [4 + assoc.length, TUSB_DESC_CS_ENDPOINT,
        MIDI_CS_ENDPOINT_GENERAL, assoc.length] ++ assoc := rfl
    rw [h4, show 4 + c = ([4 + assoc.length, TUSB_DESC_CS_ENDPOINT,
        MIDI_CS_ENDPOINT_GENERAL, assoc.length] : List Nat).length + c by rfl, rd_append_right]
    rfl

/-- The iteration on the CS-endpoint descriptor that follows an OUT endpoint. -/
theorem walk_body_cs_endpoint_out (pre post assoc : List Nat) (s : usb_midi_descriptor_info_t)
    (prev : Nat) (hC : assoc.length ≤ 16) (hprev : prev ≠ 0)
    (hdir : tu_edpt_dir prev = false) (h1 : s.ep_out = prev) (h2 : s.num_cables_tx = 0) :
    walk_body (pre ++ (cs_endpoint_desc assoc ++ post)) s pre.length prev
      = some ({ s with
          num_cables_tx := assoc.length
          ep_out_associated_jacks := copy_assoc_jacks (pre ++ (cs_endpoint_desc assoc ++ post))
            (pre.length + 4) assoc.length 0 s.ep_out_associated_jacks }, 0) := by
  obtain ⟨_, r1, r2, r3, _⟩ := cs_endpoint_desc_bytes pre post assoc hC
  have hm : ¬ assoc.length > MAX_OUT_CABLES := by simp only [MAX_OUT_CABLES]; omega
  simp [walk_body, walk_cs_endpoint, r1, r2, r3, hprev, hdir, h1, h2, hm,
    TUSB_DESC_CS_INTERFACE, TUSB_DESC_CS_ENDPOINT, MIDI_CS_ENDPOINT_GENERAL]

/-- The iteration on the CS-endpoint descriptor that follows an IN endpoint. -/
theorem walk_body_cs_endpoint_in (pre post assoc : List Nat) (s : usb_midi_descriptor_info_t)
    (prev : Nat) (hC : assoc.length ≤ 16)
    (hdir : tu_edpt_dir prev = true) (h1 : s.ep_in = prev) (h2 : s.num_cables_rx = 0) :
    walk_body (pre ++ (cs_endpoint_desc assoc ++ post)) s pre.length prev
      = some ({ s with
          num_cables_rx := assoc.length
          ep_in_associated_jacks := copy_assoc_jacks (pre ++ (cs_endpoint_desc assoc ++ post))
            (pre.length + 4) assoc.length 0 s.ep_in_associated_jacks }, 0) := by
  obtain ⟨_, r1, r2, r3, _⟩ := cs_endpoint_desc_bytes pre post assoc hC
  have hm : ¬ assoc.length > MAX_IN_CABLES := by simp only [MAX_IN_CABLES]; omega
  have hprev : prev ≠ 0 := tu_edpt_dir_ne_zero hdir
  simp [walk_body, walk_cs_endpoint, r1, r2, r3, hprev, hdir, h1, h2, hm,
    TUSB_DESC_CS_INTERFACE, TUSB_DESC_CS_ENDPOINT, MIDI_CS_ENDPOINT_GENERAL]

/-- The walk over the last two sub-descriptors of a buffer: a standard OUT
endpoint descriptor and its CS-endpoint descriptor. -/
theorem walk_out_endpoint_pair {max_len : Nat} (hmax : max_len < 2 ^ 32)
    (pre ep assoc : List Nat) (s : usb_midi_descriptor_info_t) (len_parsed prev : Nat)
    (he : is_standard_endpoint ep) (hdir : tu_edpt_dir (rd ep 2) = false)
    (hne : rd ep 2 ≠ 0) (hC : assoc.length ≤ 16)
    (h1 : s.ep_out = 0) (h2 : s.num_cables_tx = 0)
    (hlen : len_parsed + ep.length + (4 + assoc.length) = max_len) :
    walk (pre ++ (ep ++ cs_endpoint_desc assoc)) max_len 2 s pre.length len_parsed prev
      = some (true, { s with
          ep_out := rd ep 2
          num_cables_tx := assoc.length
          ep_out_associated_jacks := copy_assoc_jacks (pre ++ (ep ++ cs_endpoint_desc assoc))
            (pre.length + ep.length + 4) assoc.length 0 s.ep_out_associated_jacks }) := by
  obtain ⟨hb1, hl1⟩ := walk_body_out_endpoint pre (cs_endpoint_desc assoc) ep s prev he hdir h1 h2
  rw [walk_succ_of_body 1 (by omega) hb1]
  simp only [tu_desc_next, hl1]
  rw [Nat.mod_eq_of_lt (by omega)]
  have hmem : pre ++ (ep ++ cs_endpoint_desc assoc)
      = (pre ++ ep) ++ (cs_endpoint_desc assoc ++ []) := by simp
  have hpl : (pre ++ ep).length = pre.length + ep.length := by simp
  have hb2 := walk_body_cs_endpoint_out (pre ++ ep) [] assoc { s with ep_out := rd ep 2 }
    (rd ep 2) hC hne hdir rfl h2
  have hl2 := (cs_endpoint_desc_bytes (pre ++ ep) [] assoc hC).1
  rw [← hmem, hpl] at hb2 hl2
  rw [walk_succ_of_body 0 (by omega) hb2]
  simp only [tu_desc_next, hl2]
  rw [Nat.mod_eq_of_lt (by omega)]
  have hdone : ¬ (len_parsed + ep.length + (4 + assoc.length) < max_len) := by omega
  simp [walk, hdone]

/-- The walk over the last two sub-descriptors of a buffer: a standard IN
endpoint descriptor and its CS-endpoint descriptor. -/
theorem walk_in_endpoint_pair {max_len : Nat} (hmax : max_len < 2 ^ 32)
    (pre ep assoc : List Nat) (s : usb_midi_descriptor_info_t) (len_parsed prev : Nat)
    (he : is_standard_endpoint ep) (hdir : tu_edpt_dir (rd ep 2) = true)
    (hC : assoc.length ≤ 16)
    (h1 : s.ep_in = 0) (h2 : s.num_cables_rx = 0)
    (hlen : len_parsed + ep.length + (4 + assoc.length) = max_len) :
    walk (pre ++ (ep ++ cs_endpoint_desc assoc)) max_len 2 s pre.length len_parsed prev
      = some (true, { s with
          ep_in := rd ep 2
          num_cables_rx := assoc.length
          ep_in_associated_jacks := copy_assoc_jacks (pre ++ (ep ++ cs_endpoint_desc assoc))
            (pre.length + ep.length + 4) assoc.length 0 s.ep_in_associated_jacks }) := by
  obtain ⟨hb1, hl1⟩ := walk_body_in_endpoint pre (cs_endpoint_desc assoc) ep s prev he hdir h1 h2
  rw [walk_succ_of_body 1 (by omega) hb1]
  simp only [tu_desc_next, hl1]
  rw [Nat.mod_eq_of_lt (by omega)]
  have hmem : pre ++ (ep ++ cs_endpoint_desc assoc)
      = (pre ++ ep) ++ (cs_endpoint_desc assoc ++ []) := by simp
  have hpl : (pre ++ ep).length = pre.length + ep.length := by simp
  have hb2 := walk_body_cs_endpoint_in (pre ++ ep) [] assoc { s with ep_in := rd ep 2 }
    (rd ep 2) hC hdir rfl h2
  have hl2 := (cs_endpoint_desc_bytes (pre ++ ep) [] assoc hC).1
  rw [← hmem, hpl] at hb2 hl2
  rw [walk_succ_of_body 0 (by omega) hb2]
  simp only [tu_desc_next, hl2]
  rw [Nat.mod_eq_of_lt (by omega)]
  have hdone : ¬ (len_parsed + ep.length + (4 + assoc.length) < max_len) := by omega
  simp [walk, hdone]

/-- The associated jack id of cable `c` after the copy loop. -/
theorem assoc_after_copy (pre ep assoc a : List Nat) (c : Nat) (hC : assoc.length ≤ 16)
    (ha : a.length = 16) (hc : c < assoc.length) :
    (copy_assoc_jacks (pre ++ (ep ++ cs_endpoint_desc assoc)) (pre.length + ep.length + 4)
      assoc.length 0 a).getD c 0 = assoc.getD c 0 % 256 := by
  rw [copy_assoc_jacks_getD _ _ _ _ _ _ (by omega)]
  rw [if_pos ⟨by omega, by omega⟩]
  have hmem : pre ++ (ep ++ cs_endpoint_desc assoc)
      = (pre ++ ep) ++ (cs_endpoint_desc assoc ++ []) := by simp
  have hpl : (pre ++ ep).length = pre.length + ep.length := by simp
  have := (cs_endpoint_desc_bytes (pre ++ ep) [] assoc hC).2.2.2.2 c hc
  rw [← hmem, hpl] at this
  exact this

/-! ## String indices of the OUT cables (C1) -/

theorem rd_lt (d : List Nat) (i : Nat) : rd d i < 256 := Nat.mod_lt _ (by decide)

theorem flatMap_in_jack_desc_length (js : List in_jack_info_t) :
    (js.flatMap in_jack_desc).length = 6 * js.length := by
  induction js with
  | nil => rfl
  | cons j js ih => simp [List.flatMap_cons, ih, in_jack_desc]; omega

/-- C1 as stated fails at C = 0: `zero_cables_out_desc` is an interface
descriptor, the MS header, no IN jack, one standard OUT endpoint descriptor
(address 0x02) and its CS-endpoint descriptor listing 0 jack ids, with max_len
the sum of the bLength bytes (29); the parse returns false. -/
theorem configure_zero_out_cables_counterexample :
    zero_cables_out_desc.length = 29 ∧
    (usb_midi_descriptor_lib_configure 3 usb_midi_descriptor_lib_init
      zero_cables_out_desc 0 29).map Prod.fst = some false := by
  decide

/-- C1 as amended (1 <= C <= 16).  From the initialised record, for the memory
made of a 9-byte interface descriptor, the MS header, at most 16 IN-jack
descriptors with pairwise distinct ids, one standard OUT endpoint descriptor
(non-zero address, direction bit clear) and its CS-endpoint descriptor listing
C jack ids, 1 <= C <= 16, that all name declared IN jacks, with max_len the sum
of the bLength bytes: `usb_midi_descriptor_lib_configure` returns true, and
afterwards `usb_midi_descriptor_lib_get_str_idx_for_out_cable c` is the iJack
byte of the IN jack whose id is the c-th listed id for c < C, and 0 for
c >= C. -/
theorem configure_out_cables (itf hdr ep : List Nat) (jacks : List in_jack_info_t)
    (assoc : List Nat) (hitf : is_interface_desc itf) (hhdr : is_ms_header hdr)
    (hn : jacks.length ≤ MAX_IN_JACKS)
    (hbytes : ∀ j ∈ jacks, j.jack_id < 256 ∧ j.string_index < 256)
    (hnd : (jacks.map (fun j => j.jack_id)).Nodup)
    (hep : is_standard_endpoint ep) (hdir : tu_edpt_dir (rd ep 2) = false)
    (hne : rd ep 2 ≠ 0) (hC1 : 1 ≤ assoc.length) (hC : assoc.length ≤ MAX_OUT_CABLES)
    (hassoc : ∀ a ∈ assoc, ∃ j ∈ jacks, j.jack_id = a) :
    ∃ s1, usb_midi_descriptor_lib_configure (jacks.length + 3) usb_midi_descriptor_lib_init
        (itf ++ hdr ++ jacks.flatMap in_jack_desc ++ ep ++ cs_endpoint_desc assoc) 0
        (9 + hdr.length + 6 * jacks.length + ep.length + (4 + assoc.length)) = some (true, s1) ∧
      (∀ c : Nat, c < assoc.length → ∃ j ∈ jacks, j.jack_id = assoc.getD c 0 ∧
        usb_midi_descriptor_lib_get_str_idx_for_out_cable s1 c = j.string_index) ∧
      (∀ c : Nat, assoc.length ≤ c →
        usb_midi_descriptor_lib_get_str_idx_for_out_cable s1 c = 0) := by
  obtain ⟨hitf9, hitf0⟩ := hitf
  have hhdr' := hhdr
  obtain ⟨hh0, hh3, _, _⟩ := hhdr'
  have hep' := hep
  obtain ⟨he0, _, _⟩ := hep'
  have hhl : hdr.length < 256 := by rw [← hh0]; exact rd_lt _ _
  have hel : ep.length < 256 := by rw [← he0]; exact rd_lt _ _
  simp only [MAX_IN_JACKS] at hn
  simp only [MAX_OUT_CABLES] at hC
  have hmax : 9 + hdr.length + 6 * jacks.length + ep.length + (4 + assoc.length) < 2 ^ 32 := by
    omega
  generalize hL : 9 + hdr.length + 6 * jacks.length + ep.length + (4 + assoc.length) = max_len
    at hmax ⊢
  -- the memory, bracketed to the right
  have hd : itf ++ hdr ++ jacks.flatMap in_jack_desc ++ ep ++ cs_endpoint_desc assoc
      = itf ++ (hdr ++ (jacks.flatMap in_jack_desc ++ (ep ++ cs_endpoint_desc assoc))) := by
    simp
  rw [hd]
  generalize hdd : itf ++ (hdr ++ (jacks.flatMap in_jack_desc ++ (ep ++ cs_endpoint_desc assoc)))
    = d
  -- the record after the interface descriptor
  have hf := record_interface_string_fields usb_midi_descriptor_lib_init d 0
  generalize hs0 : record_interface_string usb_midi_descriptor_lib_init d 0 = s0 at hf
  have hnext : tu_desc_next d 0 = 9 := by
    rw [tu_desc_next, ← hdd, rd_append_left (by omega), hitf0]
  have hlen0 : rd d 0 = 9 := by rw [← hdd, rd_append_left (by omega), hitf0]
  -- the header
  obtain ⟨hbh, hlh⟩ := walk_body_header itf
    (jacks.flatMap in_jack_desc ++ (ep ++ cs_endpoint_desc assoc)) hdr s0 0 hhdr
  rw [hdd, hitf9] at hbh hlh
  have hfirst : first_desc_ok d 9 = true := by
    obtain ⟨_, _, hh1, hh2⟩ := hhdr
    have r1 := rd_block itf hdr (jacks.flatMap in_jack_desc ++ (ep ++ cs_endpoint_desc assoc))
      (i := 1) (by omega)
    have r2 := rd_block itf hdr (jacks.flatMap in_jack_desc ++ (ep ++ cs_endpoint_desc assoc))
      (i := 2) (by omega)
    rw [hdd, hitf9, hh1] at r1
    rw [hdd, hitf9, hh2] at r2
    simp [first_desc_ok, r1, r2]
  -- the IN jacks
  have ht0 : in_table_holds s0 [] := by
    refine ⟨by rw [hf.2.2.2.2.2.2.2.1]; rfl, by rw [hf.2.2.2.2.2.1]; rfl, by simp⟩
  obtain ⟨s1, hw1, ht1, hse1, _⟩ := walk_in_jacks hmax jacks [] (itf ++ hdr)
    (ep ++ cs_endpoint_desc assoc) s0 2 (9 + hdr.length) 0 hbytes ht0
    (by simp only [MAX_IN_JACKS, List.length_nil]; omega) (by omega)
  have hd1 : itf ++ hdr ++ (jacks.flatMap in_jack_desc ++ (ep ++ cs_endpoint_desc assoc)) = d := by
    rw [← hdd]; simp
  have hpl1 : (itf ++ hdr).length = 9 + hdr.length := by simp [hitf9]
  rw [hd1, hpl1] at hw1
  simp only [List.nil_append] at ht1
  -- the endpoint and its CS-endpoint descriptor
  obtain ⟨a1, a2, a3, a4, a5, a6⟩ := hse1
  have hw2 := walk_out_endpoint_pair hmax (itf ++ hdr ++ jacks.flatMap in_jack_desc) ep assoc s1
    (9 + hdr.length + 6 * jacks.length) 0 hep hdir hne hC
    (by rw [a2, hf.2.2.1]; rfl) (by rw [a4, hf.2.2.2.2.1]; rfl) (by omega)
  have hd2 : itf ++ hdr ++ jacks.flatMap in_jack_desc ++ (ep ++ cs_endpoint_desc assoc) = d := by
    rw [← hdd]; simp
  have hpl2 : (itf ++ hdr ++ jacks.flatMap in_jack_desc).length
      = 9 + hdr.length + 6 * jacks.length := by
    rw [List.length_append, List.length_append, flatMap_in_jack_desc_length, hitf9]
  rw [hd2, hpl2] at hw2
  -- the whole walk
  have hwalk : walk d max_len (jacks.length + 3) s0 9 9 0 = some (true, { s1 with
      ep_out := rd ep 2
      num_cables_tx := assoc.length
      ep_out_associated_jacks := copy_assoc_jacks d
        (9 + hdr.length + 6 * jacks.length + ep.length + 4) assoc.length 0
        s1.ep_out_associated_jacks }) := by
    rw [show jacks.length + 3 = (2 + jacks.length) + 1 by omega,
      walk_succ_of_body _ (by omega) hbh]
    simp only [tu_desc_next, hlh]
    rw [Nat.mod_eq_of_lt (by omega), hw1, hw2]
  have hres : usb_midi_descriptor_lib_configure (jacks.length + 3) usb_midi_descriptor_lib_init
      d 0 max_len = some (true, { remove_duplicates { s1 with
        ep_out := rd ep 2
        num_cables_tx := assoc.length
        ep_out_associated_jacks := copy_assoc_jacks d
          (9 + hdr.length + 6 * jacks.length + ep.length + 4) assoc.length 0
          s1.ep_out_associated_jacks } with configured := true }) := by
    unfold usb_midi_descriptor_lib_configure
    simp only [hs0, hnext, hfirst, hlen0, if_true, hwalk]
    have hu : has_usable_endpoint { s1 with
        ep_out := rd ep 2
        num_cables_tx := assoc.length
        ep_out_associated_jacks := copy_assoc_jacks d
          (9 + hdr.length + 6 * jacks.length + ep.length + 4) assoc.length 0
          s1.ep_out_associated_jacks } = true := by
      have : assoc.length ≠ 0 := by omega
      simp [has_usable_endpoint, hne, this]
    simp only [configure_finish, hu, if_true]
  refine ⟨_, hres, ?_, ?_⟩
  · intro c hc
    obtain ⟨j, hj, hid⟩ := hassoc (assoc.getD c 0) (by
      rw [List.getD_eq_getElem?_getD, List.getElem?_eq_getElem hc]
      exact List.getElem_mem hc)
    refine ⟨j, hj, hid, ?_⟩
    obtain ⟨hl, hnx, htk⟩ := ht1
    have hl16 : s1.ep_out_associated_jacks.length = 16 := by rw [a6, hf.2.2.2.2.2.2.2.2.2.2]; rfl
    have hget := assoc_after_copy (itf ++ hdr ++ jacks.flatMap in_jack_desc) ep assoc
      s1.ep_out_associated_jacks c hC hl16 hc
    rw [hd2, hpl2] at hget
    have hidlt : assoc.getD c 0 < 256 := by rw [← hid]; exact (hbytes j hj).1
    rw [Nat.mod_eq_of_lt hidlt] at hget
    have hnot : ¬ (c ≥ assoc.length) := by omega
    simp only [usb_midi_descriptor_lib_get_str_idx_for_out_cable, remove_duplicates, hnot,
      if_false, hget]
    rw [hnx, find_in_jack_eq _ _ _ _ (by
      show 0 + jacks.length ≤ s1.in_jack_info.length
      rw [hl]; simp only [MAX_IN_JACKS]; omega)]
    simp only [List.drop_zero]
    rw [htk]
    refine first_string_index_of_nodup _ ?_ ?_
    · simpa [List.map_map, Function.comp_def] using hnd
    · rw [← hid]
      exact List.mem_map.mpr ⟨j, hj, rfl⟩
  · intro c hc
    have : c ≥ assoc.length := hc
    simp [usb_midi_descriptor_lib_get_str_idx_for_out_cable, remove_duplicates, this]

/-- C1 as amended at a concrete input: one IN jack (id 1, iJack 5) and an OUT
endpoint 0x02 with one cable that names jack 1. -/
theorem configure_out_cables_witness :
    ∃ s1, usb_midi_descriptor_lib_configure 4 usb_midi_descriptor_lib_init
        [9, 4, 1, 0, 1, 1, 3, 0, 0,  7, 0x24, 1, 0, 1, 27, 0,  6, 0x24, 2, 1, 1, 5,
          9, 5, 0x02, 2, 64, 0, 0, 0, 0,  5, 0x25, 1, 1, 1] 0 36 = some (true, s1) ∧
      usb_midi_descriptor_lib_get_str_idx_for_out_cable s1 0 = 5 ∧
      usb_midi_descriptor_lib_get_str_idx_for_out_cable s1 1 = 0 := by
  obtain ⟨s1, h1, h2, h3⟩ := configure_out_cables [9, 4, 1, 0, 1, 1, 3, 0, 0]
    [7, 0x24, 1, 0, 1, 27, 0] [9, 5, 0x02, 2, 64, 0, 0, 0, 0] [⟨1, 1, 5⟩] [1]
    (by unfold is_interface_desc; decide) (by unfold is_ms_header; decide) (by decide)
    (by decide) (by decide) (by unfold is_standard_endpoint; decide) (by decide) (by decide)
    (by decide) (by decide) (by decide)
  refine ⟨s1, h1, ?_, h3 1 (by decide)⟩
  obtain ⟨j, hj, _, hget⟩ := h2 0 (by decide)
  simp only [List.mem_singleton] at hj
  rw [hget, hj]

/-! ## Walking over OUT-jack descriptors -/

theorem out_jack_desc_length (j : out_jack_decl_t) :
    (out_jack_desc j).length = 7 + 2 * j.sources.length := by
  have h : ∀ l : List (Nat × Nat), (l.flatMap (fun sp => [sp.1, sp.2])).length = 2 * l.length := by
    intro l
    induction l with
    | nil => rfl
    | cons a l ih => simp [List.flatMap_cons, ih]; omega
  simp [out_jack_desc, h]
  omega

/-- The bytes of an OUT-jack descriptor that the walk looks at. -/
theorem out_jack_desc_bytes (j : out_jack_decl_t) (hN : j.sources.length ≤ 16)
    (hid : j.bJackID < 256) (hsi : j.iJack < 256) :
    rd (out_jack_desc j) 0 = 7 + 2 * j.sources.length ∧
    rd (out_jack_desc j) 1 = TUSB_DESC_CS_INTERFACE ∧
    rd (out_jack_desc j) 2 = MIDI_CS_INTERFACE_OUT_JACK ∧
    rd (out_jack_desc j) 4 = j.bJackID ∧
    rd (out_jack_desc j) 5 = j.sources.length ∧
    rd (out_jack_desc j) (6 + j.sources.length * 2) = j.iJack := by
  refine ⟨?_, ?_, ?_, ?_, ?_, ?_⟩
  · simp only [rd, out_jack_desc, List.cons_append, List.getD_cons_zero]; omega
  · simp [rd, out_jack_desc, TUSB_DESC_CS_INTERFACE]
  · simp [rd, out_jack_desc, MIDI_CS_INTERFACE_OUT_JACK]
  · simp [rd, out_jack_desc, Nat.mod_eq_of_lt hid]
  · simp only [rd, out_jack_desc, List.cons_append, List.getD_cons_succ, List.getD_cons_zero]
    omega
  · have hl : ([7 + 2 * j.sources.length, TUSB_DESC_CS_INTERFACE, MIDI_CS_INTERFACE_OUT_JACK,
        j.bJackType, j.bJackID, j.sources.length] ++
        j.sources.flatMap (fun sp => [sp.1, sp.2])).length = 6 + j.sources.length * 2 := by
      have := out_jack_desc_length j
      simp only [out_jack_desc, List.length_append, List.length_singleton] at this
      simp only [List.length_append]
      omega
    have := rd_append_right ([7 + 2 * j.sources.length, TUSB_DESC_CS_INTERFACE,
        MIDI_CS_INTERFACE_OUT_JACK, j.bJackType, j.bJackID, j.sources.length] ++
        j.sources.flatMap (fun sp => [sp.1, sp.2])) [j.iJack] 0
    rw [hl, Nat.add_zero] at this
    rw [out_jack_desc, this]
    simp [rd, Nat.mod_eq_of_lt hsi]

/-- The iteration on an OUT-jack descriptor when the table has room: the entry
written holds the id and the trailing string-index byte. -/
theorem walk_body_out_jack (pre post : List Nat) (j : out_jack_decl_t)
    (s : usb_midi_descriptor_info_t) (prev : Nat) (hN : j.sources.length ≤ 16)
    (hid : j.bJackID < 256) (hsi : j.iJack < 256)
    (hroom : s.next_out_jack < MAX_OUT_JACKS) :
    ∃ s1 e, walk_body (pre ++ (out_jack_desc j ++ post)) s pre.length prev = some (s1, prev) ∧
      s1.out_jack_info = s.out_jack_info.set s.next_out_jack e ∧
      e.jack_id = j.bJackID ∧ e.string_index = j.iJack ∧
      s1.next_out_jack = s.next_out_jack + 1 ∧
      s1.in_jack_info = s.in_jack_info ∧ s1.next_in_jack = s.next_in_jack := by
  obtain ⟨b0, b1, b2, b4, b5, b6⟩ := out_jack_desc_bytes j hN hid hsi
  have hlen := out_jack_desc_length j
  have h1 := rd_block pre (out_jack_desc j) post (i := 1) (by omega)
  have h2 := rd_block pre (out_jack_desc j) post (i := 2) (by omega)
  have h4 := rd_block pre (out_jack_desc j) post (i := 4) (by omega)
  have h5 := rd_block pre (out_jack_desc j) post (i := 5) (by omega)
  have h6 := rd_block pre (out_jack_desc j) post (i := 6 + j.sources.length * 2) (by omega)
  rw [b1] at h1
  rw [b2] at h2
  rw [b4] at h4
  rw [b5] at h5
  rw [b6, ← Nat.add_assoc] at h6
  have hn : (s.next_out_jack + 1) % 256 = s.next_out_jack + 1 := by
    apply Nat.mod_eq_of_lt
    simp only [MAX_OUT_JACKS] at hroom
    omega
  by_cases h8 : rd (pre ++ (out_jack_desc j ++ post)) (pre.length + 8) = 0
  · refine ⟨{ s with
        out_jack_info := s.out_jack_info.set s.next_out_jack
          { jack_id := j.bJackID
            jack_type := rd (pre ++ (out_jack_desc j ++ post)) (pre.length + 3)
            num_source_ids := j.sources.length
            source_ids := store_source_ids (rd (pre ++ (out_jack_desc j ++ post)) (pre.length + 6))
              j.sources.length 0 (s.out_jack_info.getD s.next_out_jack out_jack_zero).source_ids
            string_index := j.iJack }
        next_out_jack := (s.next_out_jack + 1) % 256 }, _, ?_, rfl, rfl, rfl, hn, rfl, rfl⟩
    simp [walk_body, walk_cs_interface, h1, h2, h4, h5, h6, h8, hroom,
      TUSB_DESC_CS_INTERFACE, MIDI_CS_INTERFACE_OUT_JACK, MIDI_CS_INTERFACE_IN_JACK,
      MIDI_CS_INTERFACE_HEADER]
  · refine ⟨push_string_index { s with
        out_jack_info := s.out_jack_info.set s.next_out_jack
          { jack_id := j.bJackID
            jack_type := rd (pre ++ (out_jack_desc j ++ post)) (pre.length + 3)
            num_source_ids := j.sources.length
            source_ids := store_source_ids (rd (pre ++ (out_jack_desc j ++ post)) (pre.length + 6))
              j.sources.length 0 (s.out_jack_info.getD s.next_out_jack out_jack_zero).source_ids
            string_index := j.iJack }
        next_out_jack := (s.next_out_jack + 1) % 256 }
        (rd (pre ++ (out_jack_desc j ++ post)) (pre.length + 8)), _, ?_, rfl, rfl, rfl, hn,
        rfl, rfl⟩
    simp [walk_body, walk_cs_interface, h1, h2, h4, h5, h6, h8, hroom,
      TUSB_DESC_CS_INTERFACE, MIDI_CS_INTERFACE_OUT_JACK, MIDI_CS_INTERFACE_IN_JACK,
      MIDI_CS_INTERFACE_HEADER]

/-- The walk over a run of OUT-jack descriptors that fit into the table: it
records them in order and goes on with the sub-descriptor after them. -/
theorem walk_out_jacks {max_len : Nat} (hmax : max_len < 2 ^ 32) :
    ∀ (js done : List out_jack_decl_t) (pre post : List Nat) (s : usb_midi_descriptor_info_t)
      (fuel len_parsed prev : Nat),
      (∀ j ∈ js, j.sources.length ≤ 16 ∧ j.bJackID < 256 ∧ j.iJack < 256) →
      out_table_holds s done → done.length + js.length ≤ MAX_OUT_JACKS →
      len_parsed + (js.flatMap out_jack_desc).length ≤ max_len →
      ∃ s1, walk (pre ++ (js.flatMap out_jack_desc ++ post)) max_len (fuel + js.length) s
            pre.length len_parsed prev
          = walk (pre ++ (js.flatMap out_jack_desc ++ post)) max_len fuel s1
            (pre.length + (js.flatMap out_jack_desc).length)
            (len_parsed + (js.flatMap out_jack_desc).length) prev ∧
        out_table_holds s1 (done ++ js) ∧ same_endpoints s s1 := by
  intro js
  induction js with
  | nil =>
    intro done pre post s fuel len_parsed prev _ ht _ _
    exact ⟨s, by simp, by simpa using ht, same_endpoints_refl s⟩
  | cons j js ih =>
    intro done pre post s fuel len_parsed prev hb ht hroom hlen
    simp only [List.length_cons] at hroom
    simp only [List.flatMap_cons, List.length_append] at hlen
    obtain ⟨hN, hid, hsi⟩ := hb j (List.mem_cons_self _ _)
    obtain ⟨hlen16, hnext, htake⟩ := ht
    have hroom1 : s.next_out_jack < MAX_OUT_JACKS := by rw [hnext]; omega
    have hjl := out_jack_desc_length j
    have hmem : pre ++ ((j :: js).flatMap out_jack_desc ++ post)
        = pre ++ (out_jack_desc j ++ (js.flatMap out_jack_desc ++ post)) := by
      simp [List.flatMap_cons]
    have hmem2 : pre ++ (out_jack_desc j ++ (js.flatMap out_jack_desc ++ post))
        = (pre ++ out_jack_desc j) ++ (js.flatMap out_jack_desc ++ post) := by
      simp
    obtain ⟨s1, e, hbody, htab, heid, hesi, hnx, _, _⟩ :=
      walk_body_out_jack pre (js.flatMap out_jack_desc ++ post) j s prev hN hid hsi hroom1
    have hl0 : rd (pre ++ (out_jack_desc j ++ (js.flatMap out_jack_desc ++ post))) pre.length
        = (out_jack_desc j).length := by
      have := rd_block pre (out_jack_desc j) (js.flatMap out_jack_desc ++ post)
        (i := 0) (by omega)
      simp only [Nat.add_zero] at this
      rw [this, (out_jack_desc_bytes j hN hid hsi).1, hjl]
    have ht1 : rd (pre ++ (out_jack_desc j ++ (js.flatMap out_jack_desc ++ post)))
        (pre.length + 1) = TUSB_DESC_CS_INTERFACE := by
      rw [rd_block pre (out_jack_desc j) _ (by omega)]
      exact (out_jack_desc_bytes j hN hid hsi).2.1
    have hse := same_endpoints_of_cs_interface ht1 hbody
    have hstep : walk (pre ++ (out_jack_desc j ++ (js.flatMap out_jack_desc ++ post))) max_len
          (fuel + js.length + 1) s pre.length len_parsed prev
        = walk (pre ++ (out_jack_desc j ++ (js.flatMap out_jack_desc ++ post))) max_len
          (fuel + js.length) s1 (pre.length + (out_jack_desc j).length)
          (len_parsed + (out_jack_desc j).length) prev := by
      rw [walk_succ_of_body (fuel + js.length) (by omega) hbody]
      simp only [tu_desc_next, hl0]
      rw [Nat.mod_eq_of_lt (by omega)]
    have ht1 : out_table_holds s1 (done ++ [j]) := by
      refine ⟨by rw [htab, List.length_set]; exact hlen16, by rw [hnx, hnext]; simp, ?_⟩
      rw [htab, hnext]
      simp only [List.length_append, List.length_singleton]
      rw [take_succ_set _ _ _ (by rw [hlen16]; omega)]
      simp [htake, heid, hesi]
    obtain ⟨s2, hw, ht2, hse2⟩ := ih (done ++ [j]) (pre ++ out_jack_desc j) post s1 fuel
      (len_parsed + (out_jack_desc j).length) prev (fun x hx => hb x (List.mem_cons_of_mem _ hx))
      ht1 (by simp only [List.length_append, List.length_singleton]; omega) (by omega)
    refine ⟨s2, ?_, by simpa using ht2, same_endpoints_trans hse hse2⟩
    simp only [List.length_cons]
    rw [hmem, show fuel + (js.length + 1) = fuel + js.length + 1 by omega, hstep, hmem2]
    have hpl : (pre ++ out_jack_desc j).length = pre.length + (out_jack_desc j).length := by simp
    rw [hpl] at hw
    rw [hw]
    simp only [List.flatMap_cons, List.length_append]
    congr 1 <;> omega

/-! ## String indices of the IN cables (C2) -/

/-- C2 as stated fails at C = 0: `zero_cables_in_desc` is an interface
descriptor, the MS header, no OUT jack, one standard IN endpoint descriptor
(address 0x81) and its CS-endpoint descriptor listing 0 jack ids; the parse
returns false. -/
theorem configure_zero_in_cables_counterexample :
    zero_cables_in_desc.length = 29 ∧
    (usb_midi_descriptor_lib_configure 3 usb_midi_descriptor_lib_init
      zero_cables_in_desc 0 29).map Prod.fst = some false := by
  decide

/-- C2 as amended (1 <= C <= 16).  From the initialised record, for the memory
made of a 9-byte interface descriptor, the MS header, at most 16 OUT-jack
descriptors with pairwise distinct ids, each with N <= 16 input pins, length
7+2N and the string index in the byte after the N pairs, one standard IN
endpoint descriptor (direction bit set) and its CS-endpoint descriptor listing
C jack ids, 1 <= C <= 16, that all name declared OUT jacks, with max_len the
length of the whole: `usb_midi_descriptor_lib_configure` returns true, and
afterwards `usb_midi_descriptor_lib_get_str_idx_for_in_cable c` is that
trailing string-index byte of the OUT jack whose id is the c-th listed id for
c < C, and 0 for c >= C. -/
theorem configure_in_cables (itf hdr ep : List Nat) (jacks : List out_jack_decl_t)
    (assoc : List Nat) (hitf : is_interface_desc itf) (hhdr : is_ms_header hdr)
    (hn : jacks.length ≤ MAX_OUT_JACKS)
    (hbytes : ∀ j ∈ jacks, j.sources.length ≤ 16 ∧ j.bJackID < 256 ∧ j.iJack < 256)
    (hnd : (jacks.map (fun j => j.bJackID)).Nodup)
    (hep : is_standard_endpoint ep) (hdir : tu_edpt_dir (rd ep 2) = true)
    (hC1 : 1 ≤ assoc.length) (hC : assoc.length ≤ MAX_IN_CABLES)
    (hassoc : ∀ a ∈ assoc, ∃ j ∈ jacks, j.bJackID = a) :
    ∃ s1, usb_midi_descriptor_lib_configure (jacks.length + 3) usb_midi_descriptor_lib_init
        (itf ++ hdr ++ jacks.flatMap out_jack_desc ++ ep ++ cs_endpoint_desc assoc) 0
        (itf ++ hdr ++ jacks.flatMap out_jack_desc ++ ep ++ cs_endpoint_desc assoc).length
          = some (true, s1) ∧
      (∀ c : Nat, c < assoc.length → ∃ j ∈ jacks, j.bJackID = assoc.getD c 0 ∧
        usb_midi_descriptor_lib_get_str_idx_for_in_cable s1 c = j.iJack) ∧
      (∀ c : Nat, assoc.length ≤ c →
        usb_midi_descriptor_lib_get_str_idx_for_in_cable s1 c = 0) := by
  obtain ⟨hitf9, hitf0⟩ := hitf
  have hhdr' := hhdr
  obtain ⟨hh0, hh3, _, _⟩ := hhdr'
  have hep' := hep
  obtain ⟨he0, _, _⟩ := hep'
  have hhl : hdr.length < 256 := by rw [← hh0]; exact rd_lt _ _
  have hel : ep.length < 256 := by rw [← he0]; exact rd_lt _ _
  simp only [MAX_OUT_JACKS] at hn
  simp only [MAX_IN_CABLES] at hC
  have hJ : (jacks.flatMap out_jack_desc).length ≤ 39 * jacks.length := by
    clear hn hnd hassoc
    induction jacks with
    | nil => simp
    | cons j js ih =>
      have := out_jack_desc_length j
      have hj := (hbytes j (List.mem_cons_self _ _)).1
      have := ih (fun x hx => hbytes x (List.mem_cons_of_mem _ hx))
      simp only [List.flatMap_cons, List.length_append, List.length_cons]
      omega
  have hlenall : (itf ++ hdr ++ jacks.flatMap out_jack_desc ++ ep ++ cs_endpoint_desc assoc).length
      = 9 + hdr.length + (jacks.flatMap out_jack_desc).length + ep.length
        + (4 + assoc.length) := by
    simp only [List.length_append, hitf9, cs_endpoint_desc, List.length_cons, List.length_nil]
  rw [hlenall]
  have hmax : 9 + hdr.length + (jacks.flatMap out_jack_desc).length + ep.length
      + (4 + assoc.length) < 2 ^ 32 := by
    omega
  generalize hL : 9 + hdr.length + (jacks.flatMap out_jack_desc).length + ep.length
    + (4 + assoc.length) = max_len at hmax ⊢
  have hd : itf ++ hdr ++ jacks.flatMap out_jack_desc ++ ep ++ cs_endpoint_desc assoc
      = itf ++ (hdr ++ (jacks.flatMap out_jack_desc ++ (ep ++ cs_endpoint_desc assoc))) := by
    simp
  rw [hd]
  generalize hdd : itf ++ (hdr ++ (jacks.flatMap out_jack_desc ++ (ep ++ cs_endpoint_desc assoc)))
    = d
  have hf := record_interface_string_fields usb_midi_descriptor_lib_init d 0
  generalize hs0 : record_interface_string usb_midi_descriptor_lib_init d 0 = s0 at hf
  have hnext : tu_desc_next d 0 = 9 := by
    rw [tu_desc_next, ← hdd, rd_append_left (by omega), hitf0]
  have hlen0 : rd d 0 = 9 := by rw [← hdd, rd_append_left (by omega), hitf0]
  obtain ⟨hbh, hlh⟩ := walk_body_header itf
    (jacks.flatMap out_jack_desc ++ (ep ++ cs_endpoint_desc assoc)) hdr s0 0 hhdr
  rw [hdd, hitf9] at hbh hlh
  have hfirst : first_desc_ok d 9 = true := by
    obtain ⟨_, _, hh1, hh2⟩ := hhdr
    have r1 := rd_block itf hdr (jacks.flatMap out_jack_desc ++ (ep ++ cs_endpoint_desc assoc))
      (i := 1) (by omega)
    have r2 := rd_block itf hdr (jacks.flatMap out_jack_desc ++ (ep ++ cs_endpoint_desc assoc))
      (i := 2) (by omega)
    rw [hdd, hitf9, hh1] at r1
    rw [hdd, hitf9, hh2] at r2
    simp [first_desc_ok, r1, r2]
  have ht0 : out_table_holds s0 [] := by
    refine ⟨by rw [hf.2.2.2.2.2.2.2.2.1]; rfl, by rw [hf.2.2.2.2.2.2.1]; rfl, by simp⟩
  obtain ⟨s1, hw1, ht1, hse1⟩ := walk_out_jacks hmax jacks [] (itf ++ hdr)
    (ep ++ cs_endpoint_desc assoc) s0 2 (9 + hdr.length) 0 hbytes ht0
    (by simp only [MAX_OUT_JACKS, List.length_nil]; omega) (by omega)
  have hd1 : itf ++ hdr ++ (jacks.flatMap out_jack_desc ++ (ep ++ cs_endpoint_desc assoc)) = d := by
    rw [← hdd]; simp
  have hpl1 : (itf ++ hdr).length = 9 + hdr.length := by simp [hitf9]
  rw [hd1, hpl1] at hw1
  simp only [List.nil_append] at ht1
  obtain ⟨a1, a2, a3, a4, a5, a6⟩ := hse1
  have hw2 := walk_in_endpoint_pair hmax (itf ++ hdr ++ jacks.flatMap out_jack_desc) ep assoc s1
    (9 + hdr.length + (jacks.flatMap out_jack_desc).length) 0 hep hdir hC
    (by rw [a1, hf.2.1]; rfl) (by rw [a3, hf.2.2.2.1]; rfl) (by omega)
  have hd2 : itf ++ hdr ++ jacks.flatMap out_jack_desc ++ (ep ++ cs_endpoint_desc assoc) = d := by
    rw [← hdd]; simp
  have hpl2 : (itf ++ hdr ++ jacks.flatMap out_jack_desc).length
      = 9 + hdr.length + (jacks.flatMap out_jack_desc).length := by
    rw [List.length_append, List.length_append, hitf9]
  rw [hd2, hpl2] at hw2
  have hwalk : walk d max_len (jacks.length + 3) s0 9 9 0 = some (true, { s1 with
      ep_in := rd ep 2
      num_cables_rx := assoc.length
      ep_in_associated_jacks := copy_assoc_jacks d
        (9 + hdr.length + (jacks.flatMap out_jack_desc).length + ep.length + 4) assoc.length 0
        s1.ep_in_associated_jacks }) := by
    rw [show jacks.length + 3 = (2 + jacks.length) + 1 by omega,
      walk_succ_of_body _ (by omega) hbh]
    simp only [tu_desc_next, hlh]
    rw [Nat.mod_eq_of_lt (by omega), hw1, hw2]
  have hne : rd ep 2 ≠ 0 := tu_edpt_dir_ne_zero hdir
  have hres : usb_midi_descriptor_lib_configure (jacks.length + 3) usb_midi_descriptor_lib_init
      d 0 max_len = some (true, { remove_duplicates { s1 with
        ep_in := rd ep 2
        num_cables_rx := assoc.length
        ep_in_associated_jacks := copy_assoc_jacks d
          (9 + hdr.length + (jacks.flatMap out_jack_desc).length + ep.length + 4) assoc.length 0
          s1.ep_in_associated_jacks } with configured := true }) := by
    unfold usb_midi_descriptor_lib_configure
    simp only [hs0, hnext, hfirst, hlen0, if_true, hwalk]
    have hu : has_usable_endpoint { s1 with
        ep_in := rd ep 2
        num_cables_rx := assoc.length
        ep_in_associated_jacks := copy_assoc_jacks d
          (9 + hdr.length + (jacks.flatMap out_jack_desc).length + ep.length + 4) assoc.length 0
          s1.ep_in_associated_jacks } = true := by
      have : assoc.length ≠ 0 := by omega
      simp [has_usable_endpoint, hne, this]
    simp only [configure_finish, hu, if_true]
  refine ⟨_, hres, ?_, ?_⟩
  · intro c hc
    obtain ⟨j, hj, hid⟩ := hassoc (assoc.getD c 0) (by
      rw [List.getD_eq_getElem?_getD, List.getElem?_eq_getElem hc]
      exact List.getElem_mem hc)
    refine ⟨j, hj, hid, ?_⟩
    obtain ⟨hl, hnx, htk⟩ := ht1
    have hl16 : s1.ep_in_associated_jacks.length = 16 := by rw [a5, hf.2.2.2.2.2.2.2.2.2.1]; rfl
    have hget := assoc_after_copy (itf ++ hdr ++ jacks.flatMap out_jack_desc) ep assoc
      s1.ep_in_associated_jacks c hC hl16 hc
    rw [hd2, hpl2] at hget
    have hidlt : assoc.getD c 0 < 256 := by rw [← hid]; exact (hbytes j hj).2.1
    rw [Nat.mod_eq_of_lt hidlt] at hget
    have hnot : ¬ (c ≥ assoc.length) := by omega
    simp only [usb_midi_descriptor_lib_get_str_idx_for_in_cable, remove_duplicates, hnot,
      if_false, hget]
    rw [hnx, find_out_jack_eq _ _ _ _ (by
      show 0 + jacks.length ≤ s1.out_jack_info.length
      rw [hl]; simp only [MAX_OUT_JACKS]; omega)]
    simp only [List.drop_zero]
    rw [htk]
    refine first_string_index_of_nodup _ ?_ ?_
    · simpa [List.map_map, Function.comp_def] using hnd
    · rw [← hid]
      exact List.mem_map.mpr ⟨j, hj, rfl⟩
  · intro c hc
    have : c ≥ assoc.length := hc
    simp [usb_midi_descriptor_lib_get_str_idx_for_in_cable, remove_duplicates, this]

/-- C2 as amended at a concrete input: two OUT jacks, id 1 with no input pin
(iJack 6) and id 2 with two input pins (iJack 7), and an IN endpoint 0x81 with
two cables that name the jacks 2 and 1. -/
theorem configure_in_cables_witness :
    ∃ s1, usb_midi_descriptor_lib_configure 5 usb_midi_descriptor_lib_init
        [9, 4, 1, 0, 1, 1, 3, 0, 0,  7, 0x24, 1, 0, 1, 40, 0,  7, 0x24, 3, 1, 1, 0, 6,
          11, 0x24, 3, 1, 2, 2, 3, 1, 4, 1, 7,
          9, 5, 0x81, 2, 64, 0, 0, 0, 0,  6, 0x25, 1, 2, 2, 1] 0 49 = some (true, s1) ∧
      usb_midi_descriptor_lib_get_str_idx_for_in_cable s1 0 = 7 ∧
      usb_midi_descriptor_lib_get_str_idx_for_in_cable s1 1 = 6 ∧
      usb_midi_descriptor_lib_get_str_idx_for_in_cable s1 2 = 0 := by
  obtain ⟨s1, h1, h2, h3⟩ := configure_in_cables [9, 4, 1, 0, 1, 1, 3, 0, 0]
    [7, 0x24, 1, 0, 1, 40, 0] [9, 5, 0x81, 2, 64, 0, 0, 0, 0]
    [⟨1, 1, [], 6⟩, ⟨1, 2, [(3, 1), (4, 1)], 7⟩] [2, 1]
    (by unfold is_interface_desc; decide) (by unfold is_ms_header; decide) (by decide)
    (by decide) (by decide) (by unfold is_standard_endpoint; decide) (by decide)
    (by decide) (by decide) (by decide)
  refine ⟨s1, h1, ?_, ?_, h3 2 (by decide)⟩
  · obtain ⟨j, hj, hid, hget⟩ := h2 0 (by decide)
    simp only [List.mem_cons, List.mem_singleton, List.not_mem_nil, or_false] at hj
    rcases hj with rfl | rfl
    · simp at hid
    · rw [hget]
  · obtain ⟨j, hj, hid, hget⟩ := h2 1 (by decide)
    simp only [List.mem_cons, List.mem_singleton, List.not_mem_nil, or_false] at hj
    rcases hj with rfl | rfl
    · rw [hget]
    · simp at hid

/-! ## The duplicate removal leaves no value twice (C8) -/

theorem getD_set_ne (a : List Nat) (i k x : Nat) (h : i ≠ k) :
    (a.set k x).getD i 0 = a.getD i 0 := by
  simp [List.getD_eq_getElem?_getD, List.getElem?_set, Ne.symm h]

/-- The entry `k` after `a[k] = a[m]` with `k <= m`, also when `k` lies past
the end of the list (both sides then read 0). -/
theorem getD_set_self (a : List Nat) (k m : Nat) (h : k ≤ m) :
    (a.set k (a.getD m 0)).getD k 0 = a.getD m 0 := by
  by_cases hk : k < a.length
  · simp [List.getD_eq_getElem?_getD, List.getElem?_set, hk]
  · have hm : ¬ m < a.length := by omega
    have h0 : a.getD m 0 = 0 := by
      simp [List.getD_eq_getElem?_getD, List.getElem?_eq_none (Nat.le_of_not_lt hm)]
    rw [h0]
    have h1 : (a.set k 0).length ≤ k := by rw [List.length_set]; omega
    simp [List.getD_eq_getElem?_getD, List.getElem?_eq_none h1]

/-- The `while` loop keeps the invariant and ends with `jdx` past the count or
with an entry `jdx` that differs from the entry `idx`. -/
theorem dedup_while_inv (idx jdx : Nat) (hij : idx < jdx) :
    ∀ (n : Nat) (a : List Nat), dedup_inv idx jdx a n →
      dedup_inv idx jdx (dedup_while idx jdx a n).1 (dedup_while idx jdx a n).2 ∧
      (dedup_while idx jdx a n).2 ≤ n ∧
      (jdx < (dedup_while idx jdx a n).2 →
        (dedup_while idx jdx a n).1.getD idx 0 ≠ (dedup_while idx jdx a n).1.getD jdx 0) := by
  intro n
  induction n with
  | zero =>
    intro a h
    refine ⟨⟨fun i _ j _ hj => absurd hj (by simp [dedup_while]),
      fun j _ _ hj => absurd hj (by simp [dedup_while])⟩, Nat.le_refl _, fun hj => ?_⟩
    simp [dedup_while] at hj
  | succ n ih =>
    intro a h
    by_cases hc : jdx < n + 1 ∧ a.getD idx 0 = a.getD jdx 0
    · have hr : dedup_while idx jdx a (n + 1) = dedup_while idx jdx (a.set jdx (a.getD n 0)) n := by
        rw [dedup_while, if_pos hc]
      rw [hr]
      have hinv : dedup_inv idx jdx (a.set jdx (a.getD n 0)) n := by
        obtain ⟨h1, h2⟩ := h
        constructor
        · intro i hi j hlt hjn
          rw [getD_set_ne a i jdx _ (by omega)]
          by_cases hj : j = jdx
          · subst hj
            rw [getD_set_self a j n (by omega)]
            exact h1 i hi n (by omega) (by omega)
          · rw [getD_set_ne a j jdx _ hj]
            exact h1 i hi j hlt (by omega)
        · intro j hlt hjj hjn
          rw [getD_set_ne a idx jdx _ (by omega), getD_set_ne a j jdx _ (by omega)]
          exact h2 j hlt hjj (by omega)
      obtain ⟨k1, k2, k3⟩ := ih _ hinv
      exact ⟨k1, by omega, k3⟩
    · have hr : dedup_while idx jdx a (n + 1) = (a, n + 1) := by
        rw [dedup_while, if_neg hc]
      rw [hr]
      refine ⟨h, Nat.le_refl _, fun hj heq => hc ⟨hj, heq⟩⟩

/-- The inner `for` loop ends with an entry `idx` that does not occur again. -/
theorem dedup_inner_inv (idx : Nat) :
    ∀ (fuel jdx : Nat) (a : List Nat) (n : Nat), idx < jdx → n ≤ fuel + jdx →
      dedup_inv idx jdx a n →
      dedup_inv (idx + 1) (idx + 2) (dedup_inner idx fuel jdx a n).1
        (dedup_inner idx fuel jdx a n).2 ∧
      (dedup_inner idx fuel jdx a n).2 ≤ n := by
  have hdone : ∀ (jdx : Nat) (a : List Nat) (n : Nat), n ≤ jdx → dedup_inv idx jdx a n →
      dedup_inv (idx + 1) (idx + 2) a n := by
    intro jdx a n hn h
    obtain ⟨h1, h2⟩ := h
    constructor
    · intro i hi j hlt hjn
      by_cases hii : i < idx
      · exact h1 i hii j hlt hjn
      · have : i = idx := by omega
        subst this
        exact h2 j hlt (by omega) hjn
    · intro j h3 h4 _
      omega
  intro fuel
  induction fuel with
  | zero =>
    intro jdx a n _ hn h
    exact ⟨hdone jdx a n (by omega) h, Nat.le_refl _⟩
  | succ fuel ih =>
    intro jdx a n hij hn h
    by_cases hc : jdx < n
    · have hr : dedup_inner idx (fuel + 1) jdx a n
          = dedup_inner idx fuel (jdx + 1) (dedup_while idx jdx a n).1
            (dedup_while idx jdx a n).2 := by
        simp [dedup_inner, hc]
      rw [hr]
      obtain ⟨⟨w1, w2⟩, w3, w4⟩ := dedup_while_inv idx jdx hij n a h
      have hinv : dedup_inv idx (jdx + 1) (dedup_while idx jdx a n).1
          (dedup_while idx jdx a n).2 := by
        refine ⟨w1, fun j hlt hjj hjn => ?_⟩
        by_cases hj : j = jdx
        · subst hj; exact w4 hjn
        · exact w2 j hlt (by omega) hjn
      obtain ⟨k1, k2⟩ := ih (jdx + 1) _ _ (by omega) (by omega) hinv
      exact ⟨k1, by omega⟩
    · have hr : dedup_inner idx (fuel + 1) jdx a n = (a, n) := by
        simp [dedup_inner, hc]
      rw [hr]
      exact ⟨hdone jdx a n (by omega) h, Nat.le_refl _⟩

/-- The outer `for` loop ends with pairwise different entries. -/
theorem dedup_outer_inv :
    ∀ (fuel idx : Nat) (a : List Nat) (n : Nat), n ≤ fuel + idx →
      dedup_inv idx (idx + 1) a n →
      ∀ i j, i < j → j < (dedup_outer fuel idx a n).2 →
        (dedup_outer fuel idx a n).1.getD i 0 ≠ (dedup_outer fuel idx a n).1.getD j 0 := by
  have hdone : ∀ (idx : Nat) (a : List Nat) (n : Nat), n ≤ idx → dedup_inv idx (idx + 1) a n →
      ∀ i j, i < j → j < n → a.getD i 0 ≠ a.getD j 0 := by
    intro idx a n hn h i j hlt hjn
    exact h.1 i (by omega) j hlt hjn
  intro fuel
  induction fuel with
  | zero =>
    intro idx a n hn h
    exact hdone idx a n (by omega) h
  | succ fuel ih =>
    intro idx a n hn h
    by_cases hc : idx < n
    · have hr : dedup_outer (fuel + 1) idx a n
          = dedup_outer fuel (idx + 1) (dedup_inner idx n (idx + 1) a n).1
            (dedup_inner idx n (idx + 1) a n).2 := by
        simp [dedup_outer, hc]
      rw [hr]
      obtain ⟨k1, k2⟩ := dedup_inner_inv idx n (idx + 1) a n (by omega) (by omega) h
      exact ih (idx + 1) _ _ (by omega) k1
    · have hr : dedup_outer (fuel + 1) idx a n = (a, n) := by
        simp [dedup_outer, hc]
      rw [hr]
      exact hdone idx a n (by omega) h

/-- Pairwise different entries make the exposed prefix duplicate-free. -/
theorem nodup_take_of_distinct (a : List Nat) (n : Nat)
    (h : ∀ i j, i < j → j < n → a.getD i 0 ≠ a.getD j 0) : (a.take n).Nodup := by
  rw [List.Nodup, List.pairwise_iff_getElem]
  intro i j hi hj hlt
  rw [List.length_take] at hi hj
  have hj1 : j < n := by omega
  have hi2 : i < a.length := by omega
  have hj2 : j < a.length := by omega
  have := h i j hlt hj1
  simp only [List.getD_eq_getElem?_getD, List.getElem?_eq_getElem hi2,
    List.getElem?_eq_getElem hj2, Option.getD_some] at this
  simpa [List.getElem_take] using this

/-- After the duplicate removal the first `num_string_indices` entries are
pairwise different. -/
theorem remove_duplicates_nodup (s : usb_midi_descriptor_info_t) :
    ((remove_duplicates s).all_string_indices.take (remove_duplicates s).num_string_indices).Nodup := by
  apply nodup_take_of_distinct
  exact dedup_outer_inv s.num_string_indices 0 s.all_string_indices s.num_string_indices
    (by omega) ⟨fun i hi => absurd hi (by omega), fun j h1 h2 => absurd h2 (by omega)⟩

/-- C8: for every input that `usb_midi_descriptor_lib_configure` accepts from
the initialised record, the first `num_string_indices` entries of the array
that `usb_midi_descriptor_lib_get_all_str_inidices` exposes are pairwise
different. -/
theorem configure_catalog_nodup (fuel : Nat) (d : List Nat) (midi_descriptor max_len : Nat)
    (s1 : usb_midi_descriptor_info_t) (n : Int) (a : List Nat)
    (h : usb_midi_descriptor_lib_configure fuel usb_midi_descriptor_lib_init d midi_descriptor
      max_len = some (true, s1))
    (hq : usb_midi_descriptor_lib_get_all_str_inidices s1 = (n, some a)) :
    (a.take n.toNat).Nodup := by
  rcases configure_cases h with ⟨_, h1⟩ | ⟨_, _, h1⟩ | ⟨_, s2, _, h2⟩
  · simp at h1
  · simp at h1
  · unfold configure_finish at h2
    split_ifs at h2
    · simp only [Prod.mk.injEq, true_and] at h2
      subst h2
      unfold usb_midi_descriptor_lib_get_all_str_inidices at hq
      simp only [if_true] at hq
      split_ifs at hq
      · simp only [Prod.mk.injEq, Option.some.injEq] at hq
        obtain ⟨rfl, rfl⟩ := hq
        simpa using remove_duplicates_nodup s2
      · simp at hq
    · simp at h2

/-- C8 at a concrete input: `repeated_indices_desc` collects 5, 5, 7, 7, 5 and
the catalog exposed after the parse has the two entries 5 and 7. -/
theorem configure_catalog_nodup_witness :
    ∃ s1 a, usb_midi_descriptor_lib_configure 8 usb_midi_descriptor_lib_init
        repeated_indices_desc 0 57 = some (true, s1) ∧
      usb_midi_descriptor_lib_get_all_str_inidices s1 = (2, some a) ∧
      a.take 2 = [5, 7] ∧ (a.take (2 : Int).toNat).Nodup :=
  ⟨_, _, rfl, rfl, by decide,
    configure_catalog_nodup 8 repeated_indices_desc 0 57 _ 2 _ rfl rfl⟩

/-! ## The search for the MIDI-streaming interface (C3) -/

/-- C3 fails on the code.  In `audio_terminal_config_desc` the first
audio-class interface is an audio-control interface, followed by its
class-specific descriptors and, at offset 39, by a MIDI-streaming interface
whose parse with the remaining length 36 returns true.  The search loop stops
at offset 27, on the input-terminal descriptor whose bytes 5 and 6 are 1 and 3,
and `usb_midi_descriptor_lib_configure_from_full` returns false. -/
theorem configure_from_full_misses_midi_interface :
    rd audio_terminal_config_desc (39 + 1) = 4 ∧
    rd audio_terminal_config_desc (39 + 5) = TUSB_CLASS_AUDIO ∧
    rd audio_terminal_config_desc (39 + 6) = AUDIO_SUBCLASS_MIDI_STREAMING ∧
    (usb_midi_descriptor_lib_configure 10 usb_midi_descriptor_lib_init
      audio_terminal_config_desc 39 36).map Prod.fst = some true ∧
    full_find_midi audio_terminal_config_desc 66 10 9 0 = some (27, 18) ∧
    (usb_midi_descriptor_lib_configure_from_full 10 usb_midi_descriptor_lib_init
      audio_terminal_config_desc 0).map Prod.fst = some false := by
  decide

/-- The scenario of the specification: on `scenario_config_desc` the parse
from the full configuration descriptor succeeds, OUT cable 0 has the string
index 5 and the catalog is exactly 5. -/
theorem configure_from_full_scenario :
    ∃ s1 a, usb_midi_descriptor_lib_configure_from_full 10 usb_midi_descriptor_lib_init
        scenario_config_desc 0 = some (true, s1) ∧
      usb_midi_descriptor_lib_get_str_idx_for_out_cable s1 0 = 5 ∧
      usb_midi_descriptor_lib_get_all_str_inidices s1 = (1, some a) ∧ a.take 1 = [5] :=
  ⟨_, _, rfl, by decide, rfl, by decide⟩

/-! ## A sub-descriptor that overhangs max_len (C11) -/

/-- Past the end the loop is over, whatever the fuel. -/
theorem walk_of_not_lt {d : List Nat} {max_len : Nat} (fuel : Nat)
    (s : usb_midi_descriptor_info_t) (p len_parsed prev : Nat) (h : ¬ len_parsed < max_len) :
    walk d max_len fuel s p len_parsed prev = some (true, s) := by
  cases fuel <;> simp [walk, h]

/-- When a sub-descriptor that the walk reaches begins before `m` and ends at
or after `m1 >= m`, the walk is the same for the two lengths `m` and `m1`. -/
theorem walk_overhang {d : List Nat} {m m1 p len : Nat} (hm : m ≤ m1)
    (hlen : len < m) (hend : m1 ≤ len + rd d p) (hno : len + rd d p < 2 ^ 32) :
    ∀ (k fuel : Nat) (s : usb_midi_descriptor_info_t) (p0 len0 prev : Nat),
      walk_cursor d m k p0 len0 = some (p, len) →
      walk d m fuel s p0 len0 prev = walk d m1 fuel s p0 len0 prev := by
  intro k
  induction k with
  | zero =>
    intro fuel s p0 len0 prev hc
    simp only [walk_cursor, Option.some.injEq, Prod.mk.injEq] at hc
    obtain ⟨rfl, rfl⟩ := hc
    cases fuel with
    | zero => simp [walk, hlen, show len0 < m1 by omega]
    | succ fuel =>
      cases hb : walk_body d s p0 prev with
      | none =>
        rw [walk_succ_of_body_none fuel hlen hb,
          walk_succ_of_body_none fuel (show len0 < m1 by omega) hb]
      | some r =>
        obtain ⟨s1, prev1⟩ := r
        rw [walk_succ_of_body fuel hlen hb, walk_succ_of_body fuel (show len0 < m1 by omega) hb,
          Nat.mod_eq_of_lt hno, walk_of_not_lt fuel _ _ _ _ (by omega),
          walk_of_not_lt fuel _ _ _ _ (by omega)]
  | succ k ih =>
    intro fuel s p0 len0 prev hc
    by_cases h0 : len0 < m
    · simp only [walk_cursor, h0, if_true] at hc
      cases fuel with
      | zero => simp [walk, h0, show len0 < m1 by omega]
      | succ fuel =>
        cases hb : walk_body d s p0 prev with
        | none =>
          rw [walk_succ_of_body_none fuel h0 hb,
            walk_succ_of_body_none fuel (show len0 < m1 by omega) hb]
        | some r =>
          obtain ⟨s1, prev1⟩ := r
          rw [walk_succ_of_body fuel h0 hb, walk_succ_of_body fuel (show len0 < m1 by omega) hb]
          exact ih fuel s1 _ _ prev1 hc
    · simp [walk_cursor, h0] at hc

/-- C11 as stated fails: in `truncated_tail_desc` with max_len 39 the walk
reaches, in its iteration 4, the sub-descriptor at offset 36 (< 39) whose
bLength byte 7 makes it end at 43 (> 39), and
`usb_midi_descriptor_lib_configure` returns true. -/
theorem configure_truncated_counterexample :
    truncated_tail_desc.length = 39 ∧
    walk_cursor truncated_tail_desc 39 4 (tu_desc_next truncated_tail_desc 0)
      (rd truncated_tail_desc 0) = some (36, 36) ∧
    rd truncated_tail_desc 36 = 7 ∧
    (usb_midi_descriptor_lib_configure 6 usb_midi_descriptor_lib_init
      truncated_tail_desc 0 39).map Prod.fst = some true := by
  decide

/-- C11 as amended: a sub-descriptor that overhangs max_len goes unnoticed.
When a sub-descriptor that the walk reaches begins before max_len (`len_parsed
< max_len`) and its bLength byte makes it end after max_len, then
`usb_midi_descriptor_lib_configure` returns, and leaves in the record, exactly
what it does for the length at which that sub-descriptor ends. -/
theorem configure_overhang (fuel : Nat) (s : usb_midi_descriptor_info_t) (d : List Nat)
    (midi_descriptor max_len k p len : Nat)
    (hreach : walk_cursor d max_len k (tu_desc_next d midi_descriptor) (rd d midi_descriptor)
      = some (p, len))
    (hstart : len < max_len) (hend : max_len < len + rd d p) (hno : len + rd d p < 2 ^ 32) :
    usb_midi_descriptor_lib_configure fuel s d midi_descriptor max_len
      = usb_midi_descriptor_lib_configure fuel s d midi_descriptor (len + rd d p) := by
  unfold usb_midi_descriptor_lib_configure
  simp only
  rw [walk_overhang (Nat.le_of_lt hend) hstart (Nat.le_refl _) hno k fuel _ _ _ 0 hreach]

/-- C11 as amended at a concrete input: `truncated_tail_desc` with max_len 39
parses like the same memory with max_len 43. -/
theorem configure_overhang_witness :
    usb_midi_descriptor_lib_configure 6 usb_midi_descriptor_lib_init truncated_tail_desc 0 39
      = usb_midi_descriptor_lib_configure 6 usb_midi_descriptor_lib_init truncated_tail_desc 0
        (36 + rd truncated_tail_desc 36) :=
  configure_overhang 6 usb_midi_descriptor_lib_init truncated_tail_desc 0 39 4 36 36
    (by decide) (by decide) (by decide) (by decide)

/-! ## Unknown sub-descriptors (C12) -/

/-- The iteration on a sub-descriptor that the walk does not handle fails. -/
theorem walk_body_unknown {d : List Nat} (s : usb_midi_descriptor_info_t) (p prev : Nat)
    (h : is_known_desc d p = false) : walk_body d s p prev = none := by
  simp only [is_known_desc, Bool.or_eq_false_iff, Bool.and_eq_false_imp, beq_iff_eq,
    Bool.or_eq_true, not_or, beq_eq_false_iff_ne, ne_eq] at h
  obtain ⟨⟨h1, h2⟩, h3⟩ := h
  by_cases c1 : rd d (p + 1) = TUSB_DESC_CS_INTERFACE
  · obtain ⟨⟨⟨b1, b2⟩, b3⟩, b4⟩ := h1 c1
    simp [walk_body, walk_cs_interface, c1, b1, b2, b3, b4]
  · by_cases c3 : rd d (p + 1) = TUSB_DESC_CS_ENDPOINT
    · have c4 := h3 c3
      simp [walk_body, c3, c4, TUSB_DESC_CS_ENDPOINT, TUSB_DESC_CS_INTERFACE, TUSB_DESC_ENDPOINT]
    · simp [walk_body, c1, c3, h2]

/-- C12: when the sub-descriptors that the walk meets include one that is none
of: class-specific interface descriptor with subtype HEADER, IN_JACK, OUT_JACK
or ELEMENT; standard endpoint descriptor; class-specific endpoint descriptor
with subtype GENERAL -- then `usb_midi_descriptor_lib_configure` returns false,
from every record (`n` iterations reach it, every amount of fuel from `n` on
gives the result). -/
theorem configure_unknown_desc_false (s : usb_midi_descriptor_info_t) (d : List Nat)
    (midi_descriptor max_len n fuel p : Nat) (hfuel : n ≤ fuel)
    (hp : p ∈ configure_sub_descriptors d midi_descriptor max_len n)
    (hunknown : is_known_desc d p = false) :
    ∃ s1, usb_midi_descriptor_lib_configure fuel s d midi_descriptor max_len
      = some (false, s1) := by
  have hw : ∀ s1 : usb_midi_descriptor_info_t, ∃ s2,
      walk d max_len n s1 (tu_desc_next d midi_descriptor) (rd d midi_descriptor) 0
        = some (false, s2) := by
    intro s1
    exact walk_false_of_failing_desc (fun _ => True) (fun a => is_known_desc d a = false)
      (fun _ _ _ _ _ _ _ => trivial) (fun t a prev _ ha => walk_body_unknown t a prev ha)
      n s1 _ _ 0 trivial ⟨p, hp, hunknown⟩
  obtain ⟨s1, h1⟩ := configure_false_of_walk_false hw s
  obtain ⟨k, rfl⟩ : ∃ k, fuel = n + k := ⟨fuel - n, by omega⟩
  exact ⟨s1, configure_fuel_mono n k s _ h1⟩

/-- C12 at a concrete input: the class-specific interface descriptor with
subtype 9 at offset 16 of `unknown_subtype_desc`. -/
theorem configure_unknown_desc_false_witness :
    ∃ s1, usb_midi_descriptor_lib_configure 5 usb_midi_descriptor_lib_init
      unknown_subtype_desc 0 34 = some (false, s1) :=
  configure_unknown_desc_false usb_midi_descriptor_lib_init unknown_subtype_desc 0 34 2 5 16
    (by decide) (by decide) (by decide)

/-! ## A class-specific endpoint descriptor without a pending endpoint (C13) -/

/-- The iteration on a class-specific endpoint descriptor fails when no
endpoint address is pending. -/
theorem walk_body_cs_endpoint_orphan {d : List Nat} (s : usb_midi_descriptor_info_t) (p : Nat)
    (h : is_cs_endpoint_desc d p = true) : walk_body d s p 0 = none := by
  have h5 : rd d (p + 1) = TUSB_DESC_CS_ENDPOINT := by simpa [is_cs_endpoint_desc] using h
  unfold walk_body
  simp [h5, walk_cs_endpoint, TUSB_DESC_CS_ENDPOINT, TUSB_DESC_CS_INTERFACE, TUSB_DESC_ENDPOINT]

/-- With nothing pending at the start, a class-specific endpoint descriptor
met before any standard endpoint descriptor makes the walk return false. -/
theorem walk_orphan {d : List Nat} {max_len : Nat} :
    ∀ (n : Nat) (s : usb_midi_descriptor_info_t) (p len_parsed k q : Nat),
      (∀ i a, i < k → (sub_descriptors d max_len n p len_parsed)[i]? = some a →
        is_endpoint_desc d a = false) →
      (sub_descriptors d max_len n p len_parsed)[k]? = some q →
      is_cs_endpoint_desc d q = true →
      ∃ s1, walk d max_len n s p len_parsed 0 = some (false, s1) := by
  intro n
  induction n with
  | zero => intro s p len_parsed k q _ hk; simp [sub_descriptors] at hk
  | succ n ih =>
    intro s p len_parsed k q hfree hk hq
    by_cases hlen : len_parsed < max_len
    · simp only [sub_descriptors, hlen, if_true] at hfree hk
      cases hbody : walk_body d s p 0 with
      | none => exact ⟨s, walk_succ_of_body_none n hlen hbody⟩
      | some r =>
        obtain ⟨s1, prev1⟩ := r
        rw [walk_succ_of_body n hlen hbody]
        cases k with
        | zero =>
          simp only [List.getElem?_cons_zero, Option.some.injEq] at hk
          subst hk
          rw [walk_body_cs_endpoint_orphan s p hq] at hbody
          cases hbody
        | succ k =>
          rw [List.getElem?_cons_succ] at hk
          have hp0 : is_endpoint_desc d p = false := hfree 0 p (by omega) (by simp)
          have hprev : prev1 = 0 := by
            rcases walk_body_cases hbody with ⟨_, _, h3⟩ | ⟨_, _, h3⟩ | ⟨h5, _⟩
            · exact h3
            · exact h3
            · simp [is_endpoint_desc, h5] at hp0
          subst hprev
          exact ih s1 _ _ k q (fun i a hi ha => hfree (i + 1) a (by omega)
            (by rw [List.getElem?_cons_succ]; exact ha)) hk hq
    · simp [sub_descriptors, hlen] at hk

/-- A class-specific endpoint descriptor met after another one, with no
standard endpoint descriptor between them, makes the walk return false. -/
theorem walk_orphan_after {d : List Nat} {max_len : Nat} :
    ∀ (n : Nat) (s : usb_midi_descriptor_info_t) (p len_parsed prev j k a q : Nat), j < k →
      (sub_descriptors d max_len n p len_parsed)[j]? = some a →
      is_cs_endpoint_desc d a = true →
      (∀ i b, j < i → i < k → (sub_descriptors d max_len n p len_parsed)[i]? = some b →
        is_endpoint_desc d b = false) →
      (sub_descriptors d max_len n p len_parsed)[k]? = some q →
      is_cs_endpoint_desc d q = true →
      ∃ s1, walk d max_len n s p len_parsed prev = some (false, s1) := by
  intro n
  induction n with
  | zero => intro s p len_parsed prev j k a q _ hj; simp [sub_descriptors] at hj
  | succ n ih =>
    intro s p len_parsed prev j k a q hjk hj ha hfree hk hq
    by_cases hlen : len_parsed < max_len
    · simp only [sub_descriptors, hlen, if_true] at hfree hk hj
      cases hbody : walk_body d s p prev with
      | none => exact ⟨s, walk_succ_of_body_none n hlen hbody⟩
      | some r =>
        obtain ⟨s1, prev1⟩ := r
        rw [walk_succ_of_body n hlen hbody]
        obtain ⟨k, rfl⟩ : ∃ k1, k = k1 + 1 := ⟨k - 1, by omega⟩
        rw [List.getElem?_cons_succ] at hk
        cases j with
        | zero =>
          simp only [List.getElem?_cons_zero, Option.some.injEq] at hj
          subst hj
          have h5 : rd d (p + 1) = TUSB_DESC_CS_ENDPOINT := by
            simpa [is_cs_endpoint_desc] using ha
          have hprev : prev1 = 0 := by
            rcases walk_body_cases hbody with ⟨h6, _, _⟩ | ⟨_, _, h3⟩ | ⟨h6, _⟩
            · rw [h5] at h6; cases h6
            · exact h3
            · rw [h5] at h6; cases h6
          subst hprev
          exact walk_orphan n s1 _ _ k q (fun i b hi hb => hfree (i + 1) b (by omega) (by omega)
            (by rw [List.getElem?_cons_succ]; exact hb)) hk hq
        | succ j =>
          rw [List.getElem?_cons_succ] at hj
          exact ih s1 _ _ prev1 j k a q (by omega) hj ha
            (fun i b h1 h2 hb => hfree (i + 1) b (by omega) (by omega)
              (by rw [List.getElem?_cons_succ]; exact hb)) hk hq
    · simp [sub_descriptors, hlen] at hk

/-- C13: when the walk meets a class-specific endpoint descriptor (at index
`k` of the sub-descriptors) while no standard endpoint descriptor is pending --
none among the sub-descriptors `j .. k-1`, where `j` is 0 or follows another
class-specific endpoint descriptor -- then `usb_midi_descriptor_lib_configure`
returns false, from every record.  With `j = k` these are two class-specific
endpoint descriptors in a row. -/
theorem configure_orphan_cs_endpoint_false (s : usb_midi_descriptor_info_t) (d : List Nat)
    (midi_descriptor max_len n fuel j k q : Nat) (hfuel : n ≤ fuel) (hjk : j ≤ k)
    (hstart : j = 0 ∨ ∃ a, (configure_sub_descriptors d midi_descriptor max_len n)[j - 1]?
      = some a ∧ is_cs_endpoint_desc d a = true)
    (hfree : ∀ i b, j ≤ i → i < k →
      (configure_sub_descriptors d midi_descriptor max_len n)[i]? = some b →
      is_endpoint_desc d b = false)
    (hk : (configure_sub_descriptors d midi_descriptor max_len n)[k]? = some q)
    (hq : is_cs_endpoint_desc d q = true) :
    ∃ s1, usb_midi_descriptor_lib_configure fuel s d midi_descriptor max_len
      = some (false, s1) := by
  have hw : ∀ s1 : usb_midi_descriptor_info_t, ∃ s2,
      walk d max_len n s1 (tu_desc_next d midi_descriptor) (rd d midi_descriptor) 0
        = some (false, s2) := by
    intro s1
    rcases hstart with rfl | ⟨a, ha, hacs⟩
    · exact walk_orphan n s1 _ _ k q (fun i b hi hb => hfree i b (by omega) hi hb) hk hq
    · by_cases hj0 : j = 0
      · subst hj0
        exact walk_orphan n s1 _ _ k q (fun i b hi hb => hfree i b (by omega) hi hb) hk hq
      · exact walk_orphan_after n s1 _ _ 0 (j - 1) k a q (by omega) ha hacs
          (fun i b h1 h2 hb => hfree i b (by omega) h2 hb) hk hq
  obtain ⟨s1, h1⟩ := configure_false_of_walk_false hw s
  obtain ⟨m, rfl⟩ : ∃ m, fuel = n + m := ⟨fuel - n, by omega⟩
  exact ⟨s1, configure_fuel_mono n m s _ h1⟩

/-- C13 at a concrete input: the two class-specific endpoint descriptors at
the offsets 25 and 30 of `two_cs_endpoints_desc`. -/
theorem configure_orphan_cs_endpoint_false_witness :
    ∃ s1, usb_midi_descriptor_lib_configure 4 usb_midi_descriptor_lib_init
      two_cs_endpoints_desc 0 35 = some (false, s1) :=
  configure_orphan_cs_endpoint_false usb_midi_descriptor_lib_init two_cs_endpoints_desc
    0 35 4 4 3 3 30 (by decide) (by decide) (Or.inr ⟨25, by decide, by decide⟩)
    (fun i b h1 h2 => absurd h1 (by omega)) (by decide) (by decide)

/-! ## The first sub-descriptor (C14) -/

/-- C14 as stated fails: in `no_header_desc` the first sub-descriptor after
the interface descriptor is a standard endpoint descriptor (type 5), not the
MS header, and `usb_midi_descriptor_lib_configure` returns true. -/
theorem configure_no_header_counterexample :
    rd no_header_desc (tu_desc_next no_header_desc 0 + 1) = TUSB_DESC_ENDPOINT ∧
    (usb_midi_descriptor_lib_configure 3 usb_midi_descriptor_lib_init
      no_header_desc 0 23).map Prod.fst = some true := by
  decide

/-- C14 as amended: `usb_midi_descriptor_lib_configure` returns false, before
any walk, for every input whose first sub-descriptor after the interface
descriptor is none of: the class-specific MS interface header, a
class-specific endpoint descriptor of subtype GENERAL, a standard endpoint
descriptor. -/
theorem configure_first_desc_false (fuel : Nat) (s : usb_midi_descriptor_info_t)
    (d : List Nat) (midi_descriptor max_len : Nat)
    (h : first_desc_ok d (tu_desc_next d midi_descriptor) = false) :
    usb_midi_descriptor_lib_configure fuel s d midi_descriptor max_len
      = some (false, record_interface_string s d midi_descriptor) := by
  unfold usb_midi_descriptor_lib_configure
  simp [h]

/-- C14 as amended at a concrete input: in `jack_first_desc` an IN-jack
descriptor follows the interface descriptor. -/
theorem configure_first_desc_false_witness :
    usb_midi_descriptor_lib_configure 4 usb_midi_descriptor_lib_init jack_first_desc 0 29
      = some (false, record_interface_string usb_midi_descriptor_lib_init jack_first_desc 0) :=
  configure_first_desc_false 4 usb_midi_descriptor_lib_init jack_first_desc 0 29 (by decide)

/-! ## A bLength byte 0 (C15) -/

/-- The walk of `zero_length_desc` stays on the sub-descriptor at offset 9:
its bLength byte is 0, so neither `p_desc` nor `len_parsed` moves. -/
theorem walk_zero_length_none :
    ∀ (fuel : Nat) (s : usb_midi_descriptor_info_t),
      walk zero_length_desc 12 fuel s 9 9 0 = none := by
  intro fuel
  induction fuel with
  | zero => intro s; simp [walk]
  | succ fuel ih =>
    intro s
    have hb : walk_body zero_length_desc s 9 0 = some (s, 0) := by
      have h1 : rd zero_length_desc (9 + 1) = TUSB_DESC_CS_INTERFACE := by decide
      have h2 : rd zero_length_desc (9 + 2) = MIDI_CS_INTERFACE_HEADER := by decide
      simp [walk_body, walk_cs_interface, h1, h2]
    rw [walk_succ_of_body fuel (by decide) hb]
    have h3 : tu_desc_next zero_length_desc 9 = 9 := by decide
    have h4 : (9 + rd zero_length_desc 9) % 2 ^ 32 = 9 := by decide
    rw [h3, h4]
    exact ih s

/-- C15 fails on the code: on `zero_length_desc` with max_len 12 the first
sub-descriptor passes the test of lines 124-126, its bLength byte is 0, and
`usb_midi_descriptor_lib_configure` does not return, whatever the number of
iterations allowed. -/
theorem configure_zero_length_never_returns :
    zero_length_desc.length = 12 ∧ rd zero_length_desc 9 = 0 ∧
    ∀ fuel : Nat, usb_midi_descriptor_lib_configure fuel usb_midi_descriptor_lib_init
      zero_length_desc 0 12 = none := by
  refine ⟨by decide, by decide, fun fuel => ?_⟩
  have h1 : first_desc_ok zero_length_desc 9 = true := by decide
  have h2 : tu_desc_next zero_length_desc 0 = 9 := by decide
  have h3 : rd zero_length_desc 0 = 9 := by decide
  unfold usb_midi_descriptor_lib_configure
  simp only [h2, h1, if_true, h3, walk_zero_length_none]

/-! ## The bytes that `utf16ToUtf8` writes are the standard encodings -/

theorem or_0x80 (y : Nat) (h : y < 64) : 0x80 ||| y = 0x80 + y := by
  have : ∀ z, z < 64 → 0x80 ||| z = 0x80 + z := by decide
  exact this y h

theorem or_0xC0 (y : Nat) (h : y < 32) : 0xC0 ||| y = 0xC0 + y := by
  have : ∀ z, z < 32 → 0xC0 ||| z = 0xC0 + z := by decide
  exact this y h

theorem or_0xE0 (y : Nat) (h : y < 16) : 0xE0 ||| y = 0xE0 + y := by
  have : ∀ z, z < 16 → 0xE0 ||| z = 0xE0 + z := by decide
  exact this y h

theorem or_0xF0 (y : Nat) (h : y < 8) : 0xF0 ||| y = 0xF0 + y := by
  have : ∀ z, z < 8 → 0xF0 ||| z = 0xF0 + z := by decide
  exact this y h

theorem and_0x3f (x : Nat) : x &&& 0x3f = x % 64 := Nat.and_pow_two_sub_one_eq_mod x 6

theorem and_0x7f (x : Nat) : x &&& 0x7f = x % 128 := Nat.and_pow_two_sub_one_eq_mod x 7

theorem and_0x1f (x : Nat) : x &&& 0x1f = x % 32 := Nat.and_pow_two_sub_one_eq_mod x 5

theorem and_0xf (x : Nat) : x &&& 0xf = x % 16 := Nat.and_pow_two_sub_one_eq_mod x 4

theorem and_0x07 (x : Nat) : x &&& 0x07 = x % 8 := Nat.and_pow_two_sub_one_eq_mod x 3

theorem and_0x3FF (x : Nat) : x &&& 0x3FF = x % 1024 := Nat.and_pow_two_sub_one_eq_mod x 10

/-- The byte written for a code unit below 0x80. -/
theorem utf8_bytes_one (u : Nat) (h : u < 0x80) : [u &&& 0x7f] = utf8_encode u := by
  rw [and_0x7f, Nat.mod_eq_of_lt h]
  simp [utf8_encode, h]

/-- The two bytes written for a code unit in 0x80..0x7FF. -/
theorem utf8_bytes_two (u : Nat) (h1 : ¬ u < 0x80) (h2 : u < 0x800) :
    [0xC0 ||| ((u >>> 6) &&& 0x1f), 0x80 ||| (u &&& 0x3f)] = utf8_encode u := by
  rw [and_0x1f, and_0x3f, Nat.shiftRight_eq_div_pow, or_0xC0 _ (Nat.mod_lt _ (by decide)),
    or_0x80 _ (Nat.mod_lt _ (by decide))]
  have h3 : u / 2 ^ 6 % 32 = u / 64 := by omega
  rw [h3]
  unfold utf8_encode
  rw [if_neg h1, if_pos h2]

/-- The three bytes written for a code unit from 0x800 on. -/
theorem utf8_bytes_three (u : Nat) (h1 : ¬ u < 0x800) (h2 : u < 0x10000) :
    [0xE0 ||| ((u >>> 12) &&& 0xf), 0x80 ||| ((u >>> 6) &&& 0x3f), 0x80 ||| (u &&& 0x3f)]
      = utf8_encode u := by
  rw [and_0xf, and_0x3f, and_0x3f, Nat.shiftRight_eq_div_pow, Nat.shiftRight_eq_div_pow,
    or_0xE0 _ (Nat.mod_lt _ (by decide)), or_0x80 _ (Nat.mod_lt _ (by decide)),
    or_0x80 _ (Nat.mod_lt _ (by decide))]
  have h3 : u / 2 ^ 12 % 16 = u / 4096 := by omega
  have h4 : ¬ u < 0x80 := by omega
  rw [h3]
  unfold utf8_encode
  rw [if_neg h4, if_neg h1, if_pos h2]

/-- The four bytes written for a code point from 0x10000 to 0x10FFFF. -/
theorem utf8_bytes_four (code : Nat) (h1 : 0x10000 ≤ code) (h2 : code ≤ 0x10FFFF) :
    utf8_pair_bytes code = utf8_encode code := by
  unfold utf8_pair_bytes
  rw [and_0x07, and_0x3f, and_0x3f, and_0x3f, Nat.shiftRight_eq_div_pow,
    Nat.shiftRight_eq_div_pow, Nat.shiftRight_eq_div_pow,
    or_0xF0 _ (Nat.mod_lt _ (by decide)), or_0x80 _ (Nat.mod_lt _ (by decide)),
    or_0x80 _ (Nat.mod_lt _ (by decide)), or_0x80 _ (Nat.mod_lt _ (by decide))]
  have h3 : code / 2 ^ 18 % 8 = code / 262144 := by omega
  have h4 : ¬ code < 0x80 := by omega
  have h5 : ¬ code < 0x800 := by omega
  have h6 : ¬ code < 0x10000 := by omega
  rw [h3]
  unfold utf8_encode
  rw [if_neg h4, if_neg h5, if_neg h6]

/-- The code point that lines 100-102 compute from a surrogate pair. -/
theorem surrogate_pair_code (h l : Nat) (h1 : 0xD800 ≤ h) (h2 : h < 0xDC00)
    (l1 : 0xDC00 ≤ l) (l2 : l < 0xE000) :
    (((h &&& 0x3FF) <<< 10) ||| (l &&& 0x3FF)) + 0x10000
      = 0x10000 + (h - 0xD800) * 1024 + (l - 0xDC00) := by
  rw [and_0x3FF, and_0x3FF, Nat.shiftLeft_eq, Nat.mul_comm,
    ← Nat.mul_add_lt_is_or (Nat.mod_lt _ (by decide))]
  omega

theorem utf8_replacement : [0xEF, 0xBF, 0xBD] = utf8_encode 0xFFFD := by decide

/-! ## The iterations of the loop of `utf16ToUtf8` -/

/-- The iteration that ends the loop at the end of the input, at a NUL code
unit or with room for the NUL only. -/
theorem utf16_loop_stop (src : List Nat) (maxsrc maxdest fuel srcidx : Nat) (dest : List Nat)
    (h : srcidx ≥ maxsrc ∨ rd16 src srcidx = 0 ∨ dest.length + 1 ≥ maxdest) :
    utf16_loop src maxsrc maxdest (fuel + 1) srcidx dest = some (dest ++ [0]) := by
  simp only [utf16_loop, h, if_true]

/-- The iteration on a code unit below 0x80. -/
theorem utf16_loop_one (src : List Nat) (maxsrc maxdest fuel srcidx : Nat) (dest : List Nat)
    (h : ¬ (srcidx ≥ maxsrc ∨ rd16 src srcidx = 0 ∨ dest.length + 1 ≥ maxdest))
    (hu : rd16 src srcidx < 0x80) :
    utf16_loop src maxsrc maxdest (fuel + 1) srcidx dest
      = utf16_loop src maxsrc maxdest fuel (srcidx + 1)
          (dest ++ utf8_encode (rd16 src srcidx)) := by
  rw [← utf8_bytes_one _ hu]
  simp only [utf16_loop, h, if_false, hu, if_true]

/-- The iteration on a code unit in 0x80..0x7FF. -/
theorem utf16_loop_two (src : List Nat) (maxsrc maxdest fuel srcidx : Nat) (dest : List Nat)
    (h : ¬ (srcidx ≥ maxsrc ∨ rd16 src srcidx = 0 ∨ dest.length + 1 ≥ maxdest))
    (h1 : ¬ rd16 src srcidx < 0x80) (h2 : rd16 src srcidx < 0x800) :
    utf16_loop src maxsrc maxdest (fuel + 1) srcidx dest
      = if dest.length + 2 ≥ maxdest then some (dest ++ [0])
        else utf16_loop src maxsrc maxdest fuel (srcidx + 1)
          (dest ++ utf8_encode (rd16 src srcidx)) := by
  rw [← utf8_bytes_two _ h1 h2]
  simp only [utf16_loop, h, if_false, h1, h2, if_true]

/-- The iteration on a code unit from 0x800 on outside the surrogate range. -/
theorem utf16_loop_three (src : List Nat) (maxsrc maxdest fuel srcidx : Nat) (dest : List Nat)
    (h : ¬ (srcidx ≥ maxsrc ∨ rd16 src srcidx = 0 ∨ dest.length + 1 ≥ maxdest))
    (h2 : ¬ rd16 src srcidx < 0x800)
    (h3 : rd16 src srcidx < 0xD800 ∨ rd16 src srcidx ≥ 0xE000) :
    utf16_loop src maxsrc maxdest (fuel + 1) srcidx dest
      = if dest.length + 3 ≥ maxdest then some (dest ++ [0])
        else utf16_loop src maxsrc maxdest fuel (srcidx + 1)
          (dest ++ utf8_encode (rd16 src srcidx)) := by
  have h1 : ¬ rd16 src srcidx < 0x80 := by omega
  have h4 : rd16 src srcidx < 0x10000 := Nat.mod_lt _ (by decide)
  rw [← utf8_bytes_three _ h2 h4]
  simp only [utf16_loop, h, if_false, h1, h2, h3, if_true]

/-- The iteration on a high surrogate followed by a low surrogate. -/
theorem utf16_loop_pair (src : List Nat) (maxsrc maxdest fuel srcidx : Nat) (dest : List Nat)
    (h : ¬ (srcidx ≥ maxsrc ∨ rd16 src srcidx = 0 ∨ dest.length + 1 ≥ maxdest))
    (hnext : srcidx + 1 < maxsrc)
    (h1 : 0xD800 ≤ rd16 src srcidx) (h2 : rd16 src srcidx < 0xDC00)
    (l1 : 0xDC00 ≤ rd16 src (srcidx + 1)) (l2 : rd16 src (srcidx + 1) < 0xE000) :
    utf16_loop src maxsrc maxdest (fuel + 1) srcidx dest
      = if dest.length + 4 < maxdest then
          utf16_loop src maxsrc maxdest fuel (srcidx + 2)
            (dest ++ utf8_encode (0x10000 + (rd16 src srcidx - 0xD800) * 1024
              + (rd16 src (srcidx + 1) - 0xDC00)))
        else some (dest ++ [0]) := by
  have a1 : ¬ rd16 src srcidx < 0x80 := by omega
  have a2 : ¬ rd16 src srcidx < 0x800 := by omega
  have a3 : ¬ (rd16 src srcidx < 0xD800 ∨ rd16 src srcidx ≥ 0xE000) := by omega
  have a4 : rd16 src srcidx ≥ 0xD800 ∧ rd16 src srcidx < 0xDC00 ∧
      rd16 src (srcidx + 1) ≥ 0xDC00 ∧ rd16 src (srcidx + 1) < 0xE000 := ⟨h1, h2, l1, l2⟩
  rw [← utf8_bytes_four _ (by omega) (by omega), ← surrogate_pair_code _ _ h1 h2 l1 l2]
  simp only [utf16_loop, h, if_false, a1, a2, a3, hnext, a4, if_true, and_self]

/-- The iteration on a surrogate that is not the last code unit and does not
begin a pair. -/
theorem utf16_loop_unpaired (src : List Nat) (maxsrc maxdest fuel srcidx : Nat) (dest : List Nat)
    (h : ¬ (srcidx ≥ maxsrc ∨ rd16 src srcidx = 0 ∨ dest.length + 1 ≥ maxdest))
    (hnext : srcidx + 1 < maxsrc)
    (h1 : 0xD800 ≤ rd16 src srcidx) (h2 : rd16 src srcidx < 0xE000)
    (hnp : ¬ (rd16 src srcidx < 0xDC00 ∧
      0xDC00 ≤ rd16 src (srcidx + 1) ∧ rd16 src (srcidx + 1) < 0xE000)) :
    utf16_loop src maxsrc maxdest (fuel + 1) srcidx dest
      = if dest.length + 4 < maxdest then
          utf16_loop src maxsrc maxdest fuel (srcidx + 1) (dest ++ utf8_encode 0xFFFD)
        else some (dest ++ [0]) := by
  have a1 : ¬ rd16 src srcidx < 0x80 := by omega
  have a2 : ¬ rd16 src srcidx < 0x800 := by omega
  have a3 : ¬ (rd16 src srcidx < 0xD800 ∨ rd16 src srcidx ≥ 0xE000) := by omega
  have a4 : ¬ (rd16 src srcidx ≥ 0xD800 ∧ rd16 src srcidx < 0xDC00 ∧
      rd16 src (srcidx + 1) ≥ 0xDC00 ∧ rd16 src (srcidx + 1) < 0xE000) := by
    intro hc
    exact hnp ⟨hc.2.1, hc.2.2.1, hc.2.2.2⟩
  rw [← utf8_replacement]
  simp only [utf16_loop, h, if_false, a1, a2, a3, hnext, a4, if_true]

/-- The iteration on a surrogate that is the last code unit. -/
theorem utf16_loop_last_surrogate (src : List Nat) (maxsrc maxdest fuel srcidx : Nat)
    (dest : List Nat)
    (h : ¬ (srcidx ≥ maxsrc ∨ rd16 src srcidx = 0 ∨ dest.length + 1 ≥ maxdest))
    (hnext : ¬ srcidx + 1 < maxsrc)
    (h1 : 0xD800 ≤ rd16 src srcidx) (h2 : rd16 src srcidx < 0xE000) :
    utf16_loop src maxsrc maxdest (fuel + 1) srcidx dest
      = some ((if dest.length + 3 < maxdest then dest ++ utf8_encode 0xFFFD else dest) ++ [0]) := by
  have a1 : ¬ rd16 src srcidx < 0x80 := by omega
  have a2 : ¬ rd16 src srcidx < 0x800 := by omega
  have a3 : ¬ (rd16 src srcidx < 0xD800 ∨ rd16 src srcidx ≥ 0xE000) := by omega
  rw [← utf8_replacement]
  simp only [utf16_loop, h, if_false, a1, a2, a3, hnext]

/-! ## What `utf16ToUtf8` writes, for every input and every budget -/

theorem utf8_encode_length (cp : Nat) :
    (utf8_encode cp).length
      = if cp < 0x80 then 1 else if cp < 0x800 then 2 else if cp < 0x10000 then 3 else 4 := by
  unfold utf8_encode
  split_ifs <;> rfl

/-- The output of the loop: the bytes already written, then the standard
encodings of some non-zero Unicode scalar values, then one NUL; within the
budget when the bytes already written leave room for the NUL. -/
theorem utf16_loop_spec (src : List Nat) (maxsrc maxdest : Nat) :
    ∀ (fuel srcidx : Nat) (dest : List Nat), srcidx ≤ maxsrc → maxsrc + 1 ≤ fuel + srcidx →
      ∃ cps : List Nat, (∀ cp ∈ cps, is_scalar cp ∧ cp ≠ 0) ∧
        utf16_loop src maxsrc maxdest fuel srcidx dest
          = some (dest ++ cps.flatMap utf8_encode ++ [0]) ∧
        (dest.length + 1 ≤ maxdest →
          (dest ++ cps.flatMap utf8_encode ++ [0]).length ≤ maxdest) := by
  intro fuel
  induction fuel with
  | zero => intro srcidx dest h1 h2; omega
  | succ fuel ih =>
    intro srcidx dest hidx hfuel
    have hnil : ∀ r, r = some (dest ++ [0]) →
        ∃ cps : List Nat, (∀ cp ∈ cps, is_scalar cp ∧ cp ≠ 0) ∧
          r = some (dest ++ cps.flatMap utf8_encode ++ [0]) ∧
          (dest.length + 1 ≤ maxdest →
            (dest ++ cps.flatMap utf8_encode ++ [0]).length ≤ maxdest) := by
      intro r hr
      refine ⟨[], fun cp hcp => absurd hcp (List.not_mem_nil cp), by simpa using hr, ?_⟩
      intro hd
      simpa using hd
    have hcons : ∀ (cp i1 : Nat), is_scalar cp → cp ≠ 0 → i1 ≤ maxsrc →
        maxsrc + 1 ≤ fuel + i1 → dest.length + (utf8_encode cp).length + 1 ≤ maxdest →
        ∃ cps : List Nat, (∀ c ∈ cps, is_scalar c ∧ c ≠ 0) ∧
          utf16_loop src maxsrc maxdest fuel i1 (dest ++ utf8_encode cp)
            = some (dest ++ cps.flatMap utf8_encode ++ [0]) ∧
          (dest.length + 1 ≤ maxdest →
            (dest ++ cps.flatMap utf8_encode ++ [0]).length ≤ maxdest) := by
      intro cp i1 hs h0 hi hf hroom
      obtain ⟨cps, hv, hout, hlen⟩ := ih i1 (dest ++ utf8_encode cp) hi hf
      refine ⟨cp :: cps, ?_, ?_, ?_⟩
      · intro c hc
        rcases List.mem_cons.mp hc with rfl | hc
        · exact ⟨hs, h0⟩
        · exact hv c hc
      · rw [hout]
        simp [List.flatMap_cons]
      · intro _
        have := hlen (by rw [List.length_append]; omega)
        simpa [List.flatMap_cons] using this
    by_cases hstop : srcidx ≥ maxsrc ∨ rd16 src srcidx = 0 ∨ dest.length + 1 ≥ maxdest
    · exact hnil _ (utf16_loop_stop src maxsrc maxdest fuel srcidx dest hstop)
    · have hs1 : srcidx < maxsrc := by omega
      have hs2 : rd16 src srcidx ≠ 0 := fun hc => hstop (Or.inr (Or.inl hc))
      have hs3 : dest.length + 1 < maxdest := by omega
      have hu16 : rd16 src srcidx < 0x10000 := Nat.mod_lt _ (by decide)
      by_cases c1 : rd16 src srcidx < 0x80
      · rw [utf16_loop_one src maxsrc maxdest fuel srcidx dest hstop c1]
        exact hcons _ _ (Or.inl (by omega)) hs2 (by omega) (by omega)
          (by rw [utf8_encode_length, if_pos c1]; omega)
      · by_cases c2 : rd16 src srcidx < 0x800
        · rw [utf16_loop_two src maxsrc maxdest fuel srcidx dest hstop c1 c2]
          by_cases r2 : dest.length + 2 ≥ maxdest
          · rw [if_pos r2]; exact hnil _ rfl
          · rw [if_neg r2]
            exact hcons _ _ (Or.inl (by omega)) hs2 (by omega) (by omega)
              (by rw [utf8_encode_length, if_neg c1, if_pos c2]; omega)
        · by_cases c3 : rd16 src srcidx < 0xD800 ∨ rd16 src srcidx ≥ 0xE000
          · rw [utf16_loop_three src maxsrc maxdest fuel srcidx dest hstop c2 c3]
            by_cases r3 : dest.length + 3 ≥ maxdest
            · rw [if_pos r3]; exact hnil _ rfl
            · rw [if_neg r3]
              have hsc : is_scalar (rd16 src srcidx) := by
                rcases c3 with c3 | c3
                · exact Or.inl c3
                · exact Or.inr ⟨c3, by omega⟩
              exact hcons _ _ hsc hs2 (by omega) (by omega)
                (by rw [utf8_encode_length, if_neg c1, if_neg c2, if_pos hu16]; omega)
          · have g1 : 0xD800 ≤ rd16 src srcidx := by omega
            have g2 : rd16 src srcidx < 0xE000 := by omega
            have hfffd : is_scalar 0xFFFD ∧ (0xFFFD : Nat) ≠ 0 := by
              refine ⟨Or.inr ⟨by decide, by decide⟩, by decide⟩
            by_cases cn : srcidx + 1 < maxsrc
            · by_cases cp : rd16 src srcidx < 0xDC00 ∧
                  0xDC00 ≤ rd16 src (srcidx + 1) ∧ rd16 src (srcidx + 1) < 0xE000
              · rw [utf16_loop_pair src maxsrc maxdest fuel srcidx dest hstop cn g1 cp.1
                  cp.2.1 cp.2.2]
                by_cases r4 : dest.length + 4 < maxdest
                · rw [if_pos r4]
                  have hc1 : ¬ (0x10000 + (rd16 src srcidx - 0xD800) * 1024
                      + (rd16 src (srcidx + 1) - 0xDC00) < 0x10000) := by omega
                  exact hcons _ _ (Or.inr ⟨by omega, by omega⟩) (by omega) (by omega) (by omega)
                    (by
                      rw [utf8_encode_length, if_neg (by omega), if_neg (by omega), if_neg hc1]
                      omega)
                · rw [if_neg r4]; exact hnil _ rfl
              · rw [utf16_loop_unpaired src maxsrc maxdest fuel srcidx dest hstop cn g1 g2 cp]
                by_cases r4 : dest.length + 4 < maxdest
                · rw [if_pos r4]
                  exact hcons _ _ hfffd.1 hfffd.2 (by omega) (by omega)
                    (by rw [utf8_encode_length]; simp; omega)
                · rw [if_neg r4]; exact hnil _ rfl
            · rw [utf16_loop_last_surrogate src maxsrc maxdest fuel srcidx dest hstop cn g1 g2]
              by_cases r3 : dest.length + 3 < maxdest
              · rw [if_pos r3]
                refine ⟨[0xFFFD], ?_, by simp, ?_⟩
                · intro c hc
                  rw [List.mem_singleton] at hc
                  subst hc
                  exact hfffd
                · intro _
                  have : (utf8_encode 0xFFFD).length = 3 := by decide
                  simp only [List.flatMap_cons, List.flatMap_nil, List.append_nil,
                    List.length_append, this, List.length_singleton]
                  omega
              · rw [if_neg r3]; exact hnil _ rfl

theorem utf16_start_le (src : List Nat) (maxsrc : Nat) : utf16_start src maxsrc ≤ maxsrc := by
  unfold utf16_start
  split_ifs with h
  · exact h.1
  · exact Nat.zero_le _

/-- C16: for every source array, every maxsrc and every maxdest >= 1,
`utf16ToUtf8` returns, writes at most maxdest bytes counting the terminating
NUL, and the last byte it writes is NUL; with maxdest = 1 it writes the NUL
and nothing else. -/
theorem utf16ToUtf8_within_budget (src : List Nat) (maxsrc maxdest : Nat) (h : 1 ≤ maxdest) :
    ∃ out, utf16ToUtf8 src maxsrc maxdest = some out ∧ out.length ≤ maxdest ∧
      out.getLast? = some 0 ∧ (maxdest = 1 → out = [0]) := by
  obtain ⟨cps, _, hout, hlen⟩ := utf16_loop_spec src maxsrc maxdest (maxsrc + 1)
    (utf16_start src maxsrc) [] (utf16_start_le src maxsrc) (by omega)
  have hl := hlen (by simpa using h)
  refine ⟨_, hout, hl, by simp, fun h1 => ?_⟩
  subst h1
  simp only [List.nil_append, List.length_append, List.length_singleton] at hl
  have h0 : cps.flatMap utf8_encode = [] := List.eq_nil_of_length_eq_zero (by omega)
  simp [h0]

/-- C16 at a concrete input: two letters and a budget of one byte. -/
theorem utf16ToUtf8_within_budget_witness :
    ∃ out, utf16ToUtf8 [0x41, 0x42] 2 1 = some out ∧ out.length ≤ 1 ∧
      out.getLast? = some 0 ∧ ((1 : Nat) = 1 → out = [0]) :=
  utf16ToUtf8_within_budget [0x41, 0x42] 2 1 (by decide)

/-- C19: for every sequence of code units and every budget, the bytes that
`utf16ToUtf8` writes before the terminating NUL are the concatenation of the
standard UTF-8 encodings of non-zero Unicode scalar values: every encoding is
complete, none is overlong, none encodes a surrogate or a code point above
U+10FFFF. -/
theorem utf16ToUtf8_well_formed (src : List Nat) (maxsrc maxdest : Nat) :
    ∃ cps : List Nat, (∀ cp ∈ cps, is_scalar cp ∧ cp ≠ 0) ∧
      utf16ToUtf8 src maxsrc maxdest = some (cps.flatMap utf8_encode ++ [0]) := by
  obtain ⟨cps, hv, hout, _⟩ := utf16_loop_spec src maxsrc maxdest (maxsrc + 1)
    (utf16_start src maxsrc) [] (utf16_start_le src maxsrc) (by omega)
  exact ⟨cps, hv, by simpa using hout⟩

/-! ## Unpaired surrogates (C18, C20) -/

/-- C18 fails on the code: on the two code units D800 0041 with maxdest = 4 the
next encoding is the 3-byte replacement of the unpaired surrogate and
maxdest - destidx = 4 >= 3 + 1, yet `utf16ToUtf8` writes the NUL only; when
the same surrogate is the last code unit the 3 bytes are written with the same
budget. -/
theorem utf16ToUtf8_unpaired_needs_five :
    utf16ToUtf8 [0xD800, 0x41] 2 4 = some [0] ∧
    utf16ToUtf8 [0xD800] 1 4 = some [0xEF, 0xBF, 0xBD, 0] := by
  decide

/-- C20: wherever the loop of `utf16ToUtf8` stands, when the code unit at
`srcidx` is a surrogate that does not begin a pair (a low surrogate, or a high
surrogate that is the last code unit or is not followed by a low surrogate)
and more than 4 bytes of the budget are left, the loop appends exactly
EF BF BD, and then either goes on with the code unit `srcidx + 1`, or, when the
surrogate is the last code unit, writes the NUL and ends. -/
theorem utf16_loop_unpaired_surrogate (src : List Nat) (maxsrc maxdest fuel srcidx : Nat)
    (dest : List Nat) (hin : srcidx < maxsrc) (hroom : dest.length + 4 < maxdest)
    (h1 : 0xD800 ≤ rd16 src srcidx) (h2 : rd16 src srcidx < 0xE000)
    (hunpaired : ¬ (rd16 src srcidx < 0xDC00 ∧ srcidx + 1 < maxsrc ∧
      0xDC00 ≤ rd16 src (srcidx + 1) ∧ rd16 src (srcidx + 1) < 0xE000)) :
    utf16_loop src maxsrc maxdest (fuel + 1) srcidx dest
      = if srcidx + 1 < maxsrc then
          utf16_loop src maxsrc maxdest fuel (srcidx + 1) (dest ++ [0xEF, 0xBF, 0xBD])
        else some (dest ++ [0xEF, 0xBF, 0xBD, 0]) := by
  have hstop : ¬ (srcidx ≥ maxsrc ∨ rd16 src srcidx = 0 ∨ dest.length + 1 ≥ maxdest) := by
    omega
  by_cases cn : srcidx + 1 < maxsrc
  · rw [if_pos cn, utf16_loop_unpaired src maxsrc maxdest fuel srcidx dest hstop cn h1 h2
      (fun hc => hunpaired ⟨hc.1, cn, hc.2⟩), if_pos hroom, ← utf8_replacement]
  · rw [if_neg cn, utf16_loop_last_surrogate src maxsrc maxdest fuel srcidx dest hstop cn h1 h2,
      if_pos (by omega), ← utf8_replacement]
    simp

/-- C20 at a concrete input: the high surrogate D800 between two letters, and
the whole output for an input with three unpaired surrogates, the last one at
the end. -/
theorem utf16_loop_unpaired_surrogate_witness :
    utf16_loop [0x41, 0xD800, 0x42] 3 20 (2 + 1) 1 [0x41]
      = (if 1 + 1 < 3 then utf16_loop [0x41, 0xD800, 0x42] 3 20 2 (1 + 1)
          ([0x41] ++ [0xEF, 0xBF, 0xBD])
        else some ([0x41] ++ [0xEF, 0xBF, 0xBD, 0])) ∧
    utf16ToUtf8 [0x41, 0xDC00, 0xD800, 0x42, 0xD800] 5 20
      = some [0x41, 0xEF, 0xBF, 0xBD, 0xEF, 0xBF, 0xBD, 0x42, 0xEF, 0xBF, 0xBD, 0] :=
  ⟨utf16_loop_unpaired_surrogate [0x41, 0xD800, 0x42] 3 20 2 1 [0x41] (by decide) (by decide)
    (by decide) (by decide) (by decide), by decide⟩

/-! ## Round trip (C17) -/

theorem rd16_append_right (pre l : List Nat) (i : Nat) :
    rd16 (pre ++ l) (pre.length + i) = rd16 l i := by
  simp [rd16, List.getD_eq_getElem?_getD, List.getElem?_append_right]

theorem rd16_head (u : Nat) (rest : List Nat) (h : u < 65536) : rd16 (u :: rest) 0 = u := by
  simp only [rd16, List.getD_cons_zero]
  omega

theorem rd16_second (u v : Nat) (rest : List Nat) (h : v < 65536) :
    rd16 (u :: v :: rest) 1 = v := by
  simp only [rd16, List.getD_cons_succ, List.getD_cons_zero]
  omega

theorem rd16_after (pre l rest : List Nat) (i : Nat) :
    rd16 ((pre ++ l) ++ rest) (pre.length + i) = rd16 (l ++ rest) i := by
  rw [List.append_assoc]
  exact rd16_append_right pre (l ++ rest) i

theorem utf16_encode_bmp (cp : Nat) (hb : cp < 0x10000) : utf16_encode cp = [cp] := by
  unfold utf16_encode
  rw [if_pos hb]

theorem utf16_encode_supplementary (cp : Nat) (hb : ¬ cp < 0x10000) :
    utf16_encode cp = [0xD800 + (cp - 0x10000) / 1024, 0xDC00 + (cp - 0x10000) % 1024] := by
  unfold utf16_encode
  rw [if_neg hb]

theorem utf16_encode_length_pos (cp : Nat) : 1 ≤ (utf16_encode cp).length := by
  unfold utf16_encode
  split_ifs <;> simp

theorem flatMap_utf16_encode_length (cps : List Nat) :
    cps.length ≤ (cps.flatMap utf16_encode).length := by
  induction cps with
  | nil => simp
  | cons cp rest ih =>
    have := utf16_encode_length_pos cp
    simp only [List.flatMap_cons, List.length_append, List.length_cons]
    omega

/-- The loop on the UTF-16 encoding of scalar values, with room for four bytes
per value: it writes their UTF-8 encodings and the NUL. -/
theorem utf16_loop_roundtrip (maxdest : Nat) :
    ∀ (cps pre dest : List Nat) (fuel : Nat), (∀ cp ∈ cps, is_scalar cp ∧ cp ≠ 0) →
      dest.length + 4 * cps.length + 1 < maxdest → cps.length + 1 ≤ fuel →
      utf16_loop (pre ++ cps.flatMap utf16_encode) (pre ++ cps.flatMap utf16_encode).length
          maxdest fuel pre.length dest
        = some (dest ++ cps.flatMap utf8_encode ++ [0]) := by
  intro cps
  induction cps with
  | nil =>
    intro pre dest fuel _ _ hfuel
    obtain ⟨f, rfl⟩ : ∃ f, fuel = f + 1 := ⟨fuel - 1, by simp at hfuel; omega⟩
    rw [utf16_loop_stop _ _ _ _ _ _ (Or.inl (by simp))]
    simp
  | cons cp rest ih =>
    intro pre dest fuel hv hroom hfuel
    simp only [List.length_cons] at hroom hfuel
    obtain ⟨f, rfl⟩ : ∃ f, fuel = f + 1 := ⟨fuel - 1, by omega⟩
    obtain ⟨hs, h0⟩ := hv cp (List.mem_cons_self _ _)
    have hrest : ∀ c ∈ rest, is_scalar c ∧ c ≠ 0 := fun c hc => hv c (List.mem_cons_of_mem _ hc)
    have hlen4 : (utf8_encode cp).length ≤ 4 := by
      rw [utf8_encode_length]; split_ifs <;> omega
    have hout : dest ++ (cp :: rest).flatMap utf8_encode ++ [0]
        = (dest ++ utf8_encode cp) ++ rest.flatMap utf8_encode ++ [0] := by
      simp [List.flatMap_cons]
    have hnext : (dest ++ utf8_encode cp).length + 4 * rest.length + 1 < maxdest := by
      rw [List.length_append]; omega
    rw [hout]
    by_cases hb : cp < 0x10000
    · have henc : utf16_encode cp = [cp] := utf16_encode_bmp cp hb
      have hsrc : pre ++ (cp :: rest).flatMap utf16_encode
          = (pre ++ [cp]) ++ rest.flatMap utf16_encode := by
        simp [List.flatMap_cons, henc]
      have hu : rd16 ((pre ++ [cp]) ++ rest.flatMap utf16_encode) pre.length = cp := by
        have := rd16_after pre [cp] (rest.flatMap utf16_encode) 0
        rw [Nat.add_zero] at this
        rw [this]
        exact rd16_head cp _ hb
      have hpl : (pre ++ [cp]).length = pre.length + 1 := by simp
      have hIH := ih (pre ++ [cp]) (dest ++ utf8_encode cp) f hrest hnext (by omega)
      rw [hpl] at hIH
      rw [hsrc]
      have hstop : ¬ (pre.length ≥ ((pre ++ [cp]) ++ rest.flatMap utf16_encode).length ∨
          rd16 ((pre ++ [cp]) ++ rest.flatMap utf16_encode) pre.length = 0 ∨
          dest.length + 1 ≥ maxdest) := by
        rw [hu]
        simp only [List.length_append, List.length_singleton]
        omega
      by_cases c1 : cp < 0x80
      · rw [utf16_loop_one _ _ _ _ _ _ hstop (by rw [hu]; exact c1), hu]
        exact hIH
      · by_cases c2 : cp < 0x800
        · rw [utf16_loop_two _ _ _ _ _ _ hstop (by rw [hu]; exact c1) (by rw [hu]; exact c2),
            if_neg (by omega), hu]
          exact hIH
        · have c3 : cp < 0xD800 ∨ cp ≥ 0xE000 := by
            rcases hs with hs | hs
            · exact Or.inl hs
            · exact Or.inr hs.1
          rw [utf16_loop_three _ _ _ _ _ _ hstop (by rw [hu]; exact c2) (by rw [hu]; exact c3),
            if_neg (by omega), hu]
          exact hIH
    · have hmax : cp ≤ 0x10FFFF := by
        rcases hs with hs | hs
        · omega
        · exact hs.2
      have henc := utf16_encode_supplementary cp hb
      generalize hh : 0xD800 + (cp - 0x10000) / 1024 = hi at henc
      generalize hl : 0xDC00 + (cp - 0x10000) % 1024 = lo at henc
      have hsrc : pre ++ (cp :: rest).flatMap utf16_encode
          = (pre ++ [hi, lo]) ++ rest.flatMap utf16_encode := by
        simp [List.flatMap_cons, henc]
      have hu : rd16 ((pre ++ [hi, lo]) ++ rest.flatMap utf16_encode) pre.length = hi := by
        have := rd16_after pre [hi, lo] (rest.flatMap utf16_encode) 0
        rw [Nat.add_zero] at this
        rw [this]
        exact rd16_head hi _ (by omega)
      have hu1 : rd16 ((pre ++ [hi, lo]) ++ rest.flatMap utf16_encode) (pre.length + 1) = lo := by
        rw [rd16_after pre [hi, lo] (rest.flatMap utf16_encode) 1]
        exact rd16_second hi lo _ (by omega)
      have hpl : (pre ++ [hi, lo]).length = pre.length + 2 := by simp
      have hIH := ih (pre ++ [hi, lo]) (dest ++ utf8_encode cp) f hrest hnext (by omega)
      rw [hpl] at hIH
      rw [hsrc]
      have hstop : ¬ (pre.length ≥ ((pre ++ [hi, lo]) ++ rest.flatMap utf16_encode).length ∨
          rd16 ((pre ++ [hi, lo]) ++ rest.flatMap utf16_encode) pre.length = 0 ∨
          dest.length + 1 ≥ maxdest) := by
        rw [hu]
        simp only [List.length_append, List.length_cons, List.length_nil]
        omega
      have hcode : 0x10000 + (hi - 0xD800) * 1024 + (lo - 0xDC00) = cp := by omega
      rw [utf16_loop_pair _ _ _ _ _ _ hstop
          (by simp only [List.length_append, List.length_cons, List.length_nil]; omega)
          (by rw [hu]; omega) (by rw [hu]; omega) (by rw [hu1]; omega) (by rw [hu1]; omega),
        if_pos (by omega), hu, hu1, hcode]
      exact hIH

/-- C17 as stated fails: for the code points U+FEFF, U+0041 (no NUL, no
surrogate) and maxdest 10 > 4 * 2 + 1, `utf16ToUtf8` on their UTF-16 encoding
writes 41 00, not their UTF-8 encoding EF BB BF 41 followed by a NUL. -/
theorem utf16ToUtf8_bom_counterexample :
    [0xFEFF, 0x41].flatMap utf16_encode = [0xFEFF, 0x41] ∧
    [0xFEFF, 0x41].flatMap utf8_encode = [0xEF, 0xBB, 0xBF, 0x41] ∧
    utf16ToUtf8 ([0xFEFF, 0x41].flatMap utf16_encode) 2 10 = some [0x41, 0] := by
  decide

/-- C17 as amended: for every finite sequence of non-NUL Unicode scalar values
that does not begin with U+FEFF, `utf16ToUtf8` on its UTF-16 encoding, with
maxdest larger than 4 bytes per code point plus 1, writes exactly the standard
UTF-8 encoding of the sequence followed by one NUL byte. -/
theorem utf16ToUtf8_roundtrip (cps : List Nat) (maxdest : Nat)
    (hv : ∀ cp ∈ cps, is_scalar cp ∧ cp ≠ 0) (hbom : cps.head? ≠ some 0xFEFF)
    (hcap : 4 * cps.length + 1 < maxdest) :
    utf16ToUtf8 (cps.flatMap utf16_encode) (cps.flatMap utf16_encode).length maxdest
      = some (cps.flatMap utf8_encode ++ [0]) := by
  have hstart : utf16_start (cps.flatMap utf16_encode) (cps.flatMap utf16_encode).length = 0 := by
    unfold utf16_start
    rw [if_neg]
    rintro ⟨_, h2⟩
    cases cps with
    | nil => simp [rd16] at h2
    | cons cp rest =>
      obtain ⟨hs, _⟩ := hv cp (List.mem_cons_self _ _)
      have hne : cp ≠ 0xFEFF := by
        intro hc
        apply hbom
        simp [hc]
      by_cases hb : cp < 0x10000
      · rw [List.flatMap_cons, utf16_encode_bmp cp hb] at h2
        exact hne ((rd16_head cp _ hb).symm.trans h2)
      · have hmax : cp ≤ 0x10FFFF := by
          rcases hs with hs | hs
          · omega
          · exact hs.2
        rw [List.flatMap_cons, utf16_encode_supplementary cp hb] at h2
        have h3 := rd16_head (0xD800 + (cp - 0x10000) / 1024)
          ((0xDC00 + (cp - 0x10000) % 1024) :: rest.flatMap utf16_encode) (by omega)
        have h4 := h3.symm.trans h2
        omega
  unfold utf16ToUtf8
  rw [hstart]
  have := utf16_loop_roundtrip maxdest cps [] [] ((cps.flatMap utf16_encode).length + 1) hv
    (by simpa using hcap) (by have := flatMap_utf16_encode_length cps; omega)
  simpa using this

/-- C17 as amended at a concrete input: U+0041, U+00E9, U+20AC, U+1F600. -/
theorem utf16ToUtf8_roundtrip_witness :
    utf16ToUtf8 ([0x41, 0xE9, 0x20AC, 0x1F600].flatMap utf16_encode)
        ([0x41, 0xE9, 0x20AC, 0x1F600].flatMap utf16_encode).length 18
      = some ([0x41, 0xE9, 0x20AC, 0x1F600].flatMap utf8_encode ++ [0]) :=
  utf16ToUtf8_roundtrip [0x41, 0xE9, 0x20AC, 0x1F600] 18
    (by unfold is_scalar; decide) (by decide) (by decide)

/-! ## Surrogate pairs and BMP code units (C21, C22) -/

/-- C21: wherever the loop of `utf16ToUtf8` stands, when the code unit at
`srcidx` is a high surrogate h in 0xD800..0xDBFF, the next code unit (inside
maxsrc) is a low surrogate l in 0xDC00..0xDFFF and at least 5 bytes of the
destination are left, the iteration consumes both code units and appends
exactly the standard UTF-8 encoding of the code point
((h & 0x3FF) << 10 | (l & 0x3FF)) + 0x10000; this code point lies in
U+10000..U+10FFFF and its encoding has 4 bytes. -/
theorem utf16_loop_surrogate_pair (src : List Nat) (maxsrc maxdest fuel srcidx : Nat)
    (dest : List Nat) (hin : srcidx + 1 < maxsrc)
    (h1 : 0xD800 ≤ rd16 src srcidx) (h2 : rd16 src srcidx ≤ 0xDBFF)
    (l1 : 0xDC00 ≤ rd16 src (srcidx + 1)) (l2 : rd16 src (srcidx + 1) ≤ 0xDFFF)
    (hroom : dest.length + 5 ≤ maxdest) :
    utf16_loop src maxsrc maxdest (fuel + 1) srcidx dest
      = utf16_loop src maxsrc maxdest fuel (srcidx + 2)
          (dest ++ utf8_encode
            ((((rd16 src srcidx &&& 0x3FF) <<< 10) ||| (rd16 src (srcidx + 1) &&& 0x3FF))
              + 0x10000)) ∧
    0x10000 ≤ (((rd16 src srcidx &&& 0x3FF) <<< 10) ||| (rd16 src (srcidx + 1) &&& 0x3FF))
      + 0x10000 ∧
    (((rd16 src srcidx &&& 0x3FF) <<< 10) ||| (rd16 src (srcidx + 1) &&& 0x3FF))
      + 0x10000 ≤ 0x10FFFF ∧
    (utf8_encode ((((rd16 src srcidx &&& 0x3FF) <<< 10) ||| (rd16 src (srcidx + 1) &&& 0x3FF))
      + 0x10000)).length = 4 := by
  have hstop : ¬ (srcidx ≥ maxsrc ∨ rd16 src srcidx = 0 ∨ dest.length + 1 ≥ maxdest) := by
    omega
  have hcode := surrogate_pair_code (rd16 src srcidx) (rd16 src (srcidx + 1)) h1 (by omega) l1
    (by omega)
  rw [hcode]
  refine ⟨?_, by omega, by omega, ?_⟩
  · rw [utf16_loop_pair src maxsrc maxdest fuel srcidx dest hstop hin h1 (by omega) l1
      (by omega), if_pos (by omega)]
  · rw [utf8_encode_length, if_neg (by omega), if_neg (by omega), if_neg (by omega)]

/-- C21 at a concrete input: the pair D83D DE00 (U+1F600) after one letter,
and the whole output for the pair alone with a budget of 5 bytes. -/
theorem utf16_loop_surrogate_pair_witness :
    (utf16_loop [0x41, 0xD83D, 0xDE00] 3 6 (2 + 1) 1 [0x41]
      = utf16_loop [0x41, 0xD83D, 0xDE00] 3 6 2 (1 + 2)
          ([0x41] ++ utf8_encode
            ((((rd16 [0x41, 0xD83D, 0xDE00] 1 &&& 0x3FF) <<< 10) |||
              (rd16 [0x41, 0xD83D, 0xDE00] (1 + 1) &&& 0x3FF)) + 0x10000)) ∧
      0x10000 ≤ (((rd16 [0x41, 0xD83D, 0xDE00] 1 &&& 0x3FF) <<< 10) |||
        (rd16 [0x41, 0xD83D, 0xDE00] (1 + 1) &&& 0x3FF)) + 0x10000 ∧
      (((rd16 [0x41, 0xD83D, 0xDE00] 1 &&& 0x3FF) <<< 10) |||
        (rd16 [0x41, 0xD83D, 0xDE00] (1 + 1) &&& 0x3FF)) + 0x10000 ≤ 0x10FFFF ∧
      (utf8_encode ((((rd16 [0x41, 0xD83D, 0xDE00] 1 &&& 0x3FF) <<< 10) |||
        (rd16 [0x41, 0xD83D, 0xDE00] (1 + 1) &&& 0x3FF)) + 0x10000)).length = 4) ∧
    utf16ToUtf8 [0xD83D, 0xDE00] 2 5 = some [0xF0, 0x9F, 0x98, 0x80, 0] :=
  ⟨utf16_loop_surrogate_pair [0x41, 0xD83D, 0xDE00] 3 6 2 1 [0x41] (by decide) (by decide)
    (by decide) (by decide) (by decide) (by decide), by decide⟩

/-- C22: wherever the loop of `utf16ToUtf8` stands, when the code unit u at
`srcidx` is not 0 and lies outside 0xD800..0xDFFF, and the destination has
room for its encoding and the NUL, the iteration consumes this one code unit
and appends exactly the standard UTF-8 encoding of U+u; this encoding is the
byte u for u < 0x80, the two bytes C0|(u>>6), 80|(u&3F) for u <= 0x7FF and the
three bytes E0|(u>>12), 80|((u>>6)&3F), 80|(u&3F) from 0x800 on. -/
theorem utf16_loop_bmp_unit (src : List Nat) (maxsrc maxdest fuel srcidx : Nat)
    (dest : List Nat) (hin : srcidx < maxsrc) (h0 : rd16 src srcidx ≠ 0)
    (hns : rd16 src srcidx < 0xD800 ∨ 0xDFFF < rd16 src srcidx)
    (hroom : dest.length + (utf8_encode (rd16 src srcidx)).length + 1 ≤ maxdest) :
    utf16_loop src maxsrc maxdest (fuel + 1) srcidx dest
      = utf16_loop src maxsrc maxdest fuel (srcidx + 1)
          (dest ++ utf8_encode (rd16 src srcidx)) ∧
    utf8_encode (rd16 src srcidx)
      = if rd16 src srcidx < 0x80 then [rd16 src srcidx]
        else if rd16 src srcidx ≤ 0x7FF then
          [0xC0 ||| (rd16 src srcidx >>> 6), 0x80 ||| (rd16 src srcidx &&& 0x3F)]
        else [0xE0 ||| (rd16 src srcidx >>> 12), 0x80 ||| ((rd16 src srcidx >>> 6) &&& 0x3F),
          0x80 ||| (rd16 src srcidx &&& 0x3F)] := by
  have hu16 : rd16 src srcidx < 0x10000 := Nat.mod_lt _ (by decide)
  rw [utf8_encode_length] at hroom
  by_cases c1 : rd16 src srcidx < 0x80
  · rw [if_pos c1] at hroom
    have hstop : ¬ (srcidx ≥ maxsrc ∨ rd16 src srcidx = 0 ∨ dest.length + 1 ≥ maxdest) := by
      omega
    refine ⟨utf16_loop_one src maxsrc maxdest fuel srcidx dest hstop c1, ?_⟩
    rw [if_pos c1]
    unfold utf8_encode
    rw [if_pos c1]
  · by_cases c2 : rd16 src srcidx < 0x800
    · rw [if_neg c1, if_pos c2] at hroom
      have hstop : ¬ (srcidx ≥ maxsrc ∨ rd16 src srcidx = 0 ∨ dest.length + 1 ≥ maxdest) := by
        omega
      have hm : (rd16 src srcidx >>> 6) &&& 0x1f = rd16 src srcidx >>> 6 := by
        rw [and_0x1f, Nat.shiftRight_eq_div_pow]
        omega
      refine ⟨?_, ?_⟩
      · rw [utf16_loop_two src maxsrc maxdest fuel srcidx dest hstop c1 c2, if_neg (by omega)]
      · rw [if_neg c1, if_pos (by omega), ← utf8_bytes_two _ c1 c2, hm]
    · rw [if_neg c1, if_neg c2, if_pos hu16] at hroom
      have hstop : ¬ (srcidx ≥ maxsrc ∨ rd16 src srcidx = 0 ∨ dest.length + 1 ≥ maxdest) := by
        omega
      have hm : (rd16 src srcidx >>> 12) &&& 0xf = rd16 src srcidx >>> 12 := by
        rw [and_0xf, Nat.shiftRight_eq_div_pow]
        omega
      have c3 : rd16 src srcidx < 0xD800 ∨ rd16 src srcidx ≥ 0xE000 := by omega
      refine ⟨?_, ?_⟩
      · rw [utf16_loop_three src maxsrc maxdest fuel srcidx dest hstop c2 c3, if_neg (by omega)]
      · rw [if_neg c1, if_neg (by omega), ← utf8_bytes_three _ c2 hu16, hm]

/-- C22 at a concrete input: the code unit U+20AC after one letter, and the
whole output for one code unit of each length. -/
theorem utf16_loop_bmp_unit_witness :
    (utf16_loop [0x41, 0x20AC] 2 5 (1 + 1) 1 [0x41]
      = utf16_loop [0x41, 0x20AC] 2 5 1 (1 + 1)
          ([0x41] ++ utf8_encode (rd16 [0x41, 0x20AC] 1)) ∧
      utf8_encode (rd16 [0x41, 0x20AC] 1)
        = if rd16 [0x41, 0x20AC] 1 < 0x80 then [rd16 [0x41, 0x20AC] 1]
          else if rd16 [0x41, 0x20AC] 1 ≤ 0x7FF then
            [0xC0 ||| (rd16 [0x41, 0x20AC] 1 >>> 6), 0x80 ||| (rd16 [0x41, 0x20AC] 1 &&& 0x3F)]
          else [0xE0 ||| (rd16 [0x41, 0x20AC] 1 >>> 12),
            0x80 ||| ((rd16 [0x41, 0x20AC] 1 >>> 6) &&& 0x3F),
            0x80 ||| (rd16 [0x41, 0x20AC] 1 &&& 0x3F)]) ∧
    utf16ToUtf8 [0x41, 0xE9, 0x20AC] 3 7 = some [0x41, 0xC3, 0xA9, 0xE2, 0x82, 0xAC, 0] :=
  ⟨utf16_loop_bmp_unit [0x41, 0x20AC] 2 5 1 1 [0x41] (by decide) (by decide) (by decide)
    (by decide), by decide⟩

/-! ## The byte-order mark (C23) -/

/-- One more unit of fuel does not change a result. -/
theorem utf16_loop_fuel_succ (src : List Nat) (maxsrc maxdest : Nat) :
    ∀ (fuel srcidx : Nat) (dest r : List Nat),
      utf16_loop src maxsrc maxdest fuel srcidx dest = some r →
      utf16_loop src maxsrc maxdest (fuel + 1) srcidx dest = some r := by
  intro fuel
  induction fuel with
  | zero => intro srcidx dest r h; simp [utf16_loop] at h
  | succ fuel ih =>
    intro srcidx dest r h
    rw [utf16_loop] at h ⊢
    simp only at h ⊢
    split_ifs at h ⊢ <;> first | exact h | exact ih _ _ _ h

/-- The loop on a source array with one more code unit in front, one index
further. -/
theorem utf16_loop_shift (a : Nat) (s : List Nat) (maxsrc maxdest : Nat) :
    ∀ (fuel srcidx : Nat) (dest : List Nat),
      utf16_loop (a :: s) (maxsrc + 1) maxdest fuel (srcidx + 1) dest
        = utf16_loop s maxsrc maxdest fuel srcidx dest := by
  have hrd : ∀ i, rd16 (a :: s) (i + 1) = rd16 s i := fun i => rfl
  intro fuel
  induction fuel with
  | zero => intro srcidx dest; simp [utf16_loop]
  | succ fuel ih =>
    intro srcidx dest
    have h2 : srcidx + 1 + 2 = srcidx + 2 + 1 := rfl
    rw [utf16_loop, utf16_loop]
    simp only [hrd, h2, ih, ge_iff_le, Nat.add_le_add_iff_right, Nat.add_lt_add_iff_right]

/-- C23: a byte-order mark at `src[0]` is skipped and never emitted.  For every
sequence s of code units that does not begin with 0xFEFF, every maxsrc and
every maxdest, `utf16ToUtf8` on 0xFEFF followed by s (one more code unit)
writes exactly the bytes it writes on s alone; and at every index after 0 the
loop encodes the code unit 0xFEFF like every other one, as EF BB BF, when the
destination has room for it. -/
theorem utf16ToUtf8_bom_skipped (s : List Nat) (maxsrc maxdest : Nat)
    (h : rd16 s 0 ≠ 0xFEFF) :
    utf16ToUtf8 (0xFEFF :: s) (maxsrc + 1) maxdest = utf16ToUtf8 s maxsrc maxdest ∧
    ∀ (src : List Nat) (msrc fuel srcidx : Nat) (dest : List Nat), 0 < srcidx →
      srcidx < msrc → rd16 src srcidx = 0xFEFF → dest.length + 3 < maxdest →
      utf16_loop src msrc maxdest (fuel + 1) srcidx dest
        = utf16_loop src msrc maxdest fuel (srcidx + 1) (dest ++ [0xEF, 0xBB, 0xBF]) := by
  constructor
  · have h1 : utf16_start (0xFEFF :: s) (maxsrc + 1) = 1 := by
      unfold utf16_start
      rw [if_pos ⟨Nat.succ_pos _, rfl⟩]
    have h0 : utf16_start s maxsrc = 0 := by
      unfold utf16_start
      rw [if_neg (fun hc => h hc.2)]
    obtain ⟨cps, _, hout, _⟩ := utf16_loop_spec s maxsrc maxdest (maxsrc + 1) 0 []
      (Nat.zero_le _) (by omega)
    unfold utf16ToUtf8
    rw [h1, h0, utf16_loop_shift 0xFEFF s maxsrc maxdest (maxsrc + 1 + 1) 0 [], hout]
    exact utf16_loop_fuel_succ s maxsrc maxdest (maxsrc + 1) 0 [] _ hout
  · intro src msrc fuel srcidx dest _ hin hu hroom
    have hstop : ¬ (srcidx ≥ msrc ∨ rd16 src srcidx = 0 ∨ dest.length + 1 ≥ maxdest) := by
      omega
    rw [utf16_loop_three src msrc maxdest fuel srcidx dest hstop (by omega) (by omega),
      if_neg (by omega), hu]
    rfl

/-- C23 at a concrete input: the letter A and a second 0xFEFF after the
byte-order mark. -/
theorem utf16ToUtf8_bom_skipped_witness :
    (utf16ToUtf8 (0xFEFF :: [0x41, 0xFEFF]) (2 + 1) 10 = utf16ToUtf8 [0x41, 0xFEFF] 2 10 ∧
      ∀ (src : List Nat) (msrc fuel srcidx : Nat) (dest : List Nat), 0 < srcidx →
        srcidx < msrc → rd16 src srcidx = 0xFEFF → dest.length + 3 < 10 →
        utf16_loop src msrc 10 (fuel + 1) srcidx dest
          = utf16_loop src msrc 10 fuel (srcidx + 1) (dest ++ [0xEF, 0xBB, 0xBF])) ∧
    utf16ToUtf8 [0xFEFF, 0x41, 0xFEFF] 3 10 = some [0x41, 0xEF, 0xBB, 0xBF, 0] :=
  ⟨utf16ToUtf8_bom_skipped [0x41, 0xFEFF] 2 10 (by decide), by decide⟩

/-! ## The source ids of an OUT jack (C24) -/

/-- C24 fails on the code: `two_pin_out_jack_desc` is accepted and its OUT jack
(two input pins, source ids 1 and 2) is recorded with num_source_ids 2, but
the recorded `source_ids[1]` is 1, the source id of the first pin, not the byte
2 at offset 6 + 2 * 1 of the descriptor. -/
theorem configure_source_ids_repeat_first :
    ∃ s, usb_midi_descriptor_lib_configure 5 usb_midi_descriptor_lib_init
        two_pin_out_jack_desc 0 41 = some (true, s) ∧
      s.next_out_jack = 1 ∧
      (s.out_jack_info.getD 0 out_jack_zero).num_source_ids = 2 ∧
      (s.out_jack_info.getD 0 out_jack_zero).source_ids.getD 0 0 = 1 ∧
      (s.out_jack_info.getD 0 out_jack_zero).source_ids.getD 1 0 = 1 ∧
      rd two_pin_out_jack_desc (16 + 6 + 2 * 0) = 1 ∧
      rd two_pin_out_jack_desc (16 + 6 + 2 * 1) = 2 :=
  ⟨_, rfl, by decide, by decide, by decide, by decide, by decide, by decide⟩

/-! ## The catalog entry of an OUT jack (C26) -/

/-- C26 fails on the code: `two_pin_out_jack_desc` is accepted from the
initialised record (one OUT jack, N = 2 input pins, trailing string index 7 at
offset 6 + 2N = 10 of the descriptor, no other string index), but the catalog
exposed afterwards is the one entry 2, the byte at offset 8 of the OUT-jack
descriptor (the source id of its second pin); the index 7, which the query for
IN cable 0 returns, is not in the catalog. -/
theorem configure_catalog_out_jack_offset :
    ∃ s a, usb_midi_descriptor_lib_configure 5 usb_midi_descriptor_lib_init
        two_pin_out_jack_desc 0 41 = some (true, s) ∧
      rd two_pin_out_jack_desc (0 + 8) = 0 ∧
      rd two_pin_out_jack_desc (16 + 5) = 2 ∧
      rd two_pin_out_jack_desc (16 + 6 + 2 * 2) = 7 ∧
      rd two_pin_out_jack_desc (16 + 8) = 2 ∧
      usb_midi_descriptor_lib_get_all_str_inidices s = (1, some a) ∧
      a.take 1 = [2] ∧
      usb_midi_descriptor_lib_get_str_idx_for_in_cable s 0 = 7 :=
  ⟨_, _, rfl, by decide, by decide, by decide, by decide, rfl, by decide, by decide⟩

/-! ## The capacity of the catalog (C28) -/

set_option maxRecDepth 100000 in
/-- C28 fails on the code: on `many_elements_desc` (41 ELEMENT descriptors with
the last bytes 1..41) the walk over the header and the first 40 ELEMENT
descriptors (the first 176 bytes) leaves `num_string_indices` = 40 =
MAX_STRING_INDICES; the next iteration, on the ELEMENT descriptor at offset
176, is the write `all_string_indices[40] = 41` with the increment of the
counter; and the whole call returns true with `num_string_indices` = 41. -/
theorem configure_catalog_overflow :
    many_elements_desc.length = 194 ∧
    ∃ s, walk many_elements_desc 176 41
        (record_interface_string usb_midi_descriptor_lib_init many_elements_desc 0)
        (tu_desc_next many_elements_desc 0) (rd many_elements_desc 0) 0 = some (true, s) ∧
      s.num_string_indices = MAX_STRING_INDICES ∧
      s.all_string_indices.length = MAX_STRING_INDICES ∧
      walk_body many_elements_desc s 176 0 = some (push_string_index s 41, 0) ∧
      (usb_midi_descriptor_lib_configure 44 usb_midi_descriptor_lib_init
        many_elements_desc 0 194).map (fun r => (r.1, r.2.num_string_indices))
        = some (true, 41) :=
  ⟨by decide, _, rfl, by decide, by decide, by decide, by decide⟩

/-! ## The cable counts (C29) -/

/-- C29 fails on the code: `seventeen_cables_desc` is accepted from the
initialised record and leaves `num_cables_tx` = 17 > MAX_OUT_CABLES; the cable
number 16 passes the range check of
`usb_midi_descriptor_lib_get_str_idx_for_out_cable`, and the entry
`ep_out_associated_jacks[16]` that the query then reads lies past the 16
entries of the table. -/
theorem configure_cable_count_unclamped :
    ∃ s, usb_midi_descriptor_lib_configure 4 usb_midi_descriptor_lib_init
        seventeen_cables_desc 0 46 = some (true, s) ∧
      rd seventeen_cables_desc (25 + 3) = 17 ∧
      s.num_cables_tx = 17 ∧ ¬ (16 ≥ s.num_cables_tx) ∧
      s.ep_out_associated_jacks.length = MAX_OUT_CABLES ∧
      s.ep_out_associated_jacks = [1, 2, 3, 4, 5, 6, 7, 8, 9, 10, 11, 12, 13, 14, 15, 16] :=
  ⟨_, rfl, by decide, by decide, by decide, by decide, by decide⟩

/-! ## The duplicate removal keeps the set of values (C27) -/

/-- One deletion `a[jdx] = a[n]; --count` of a duplicate of the entry `idx`
keeps the set of values. -/
theorem holds_value_delete (a : List Nat) (idx jdx n v : Nat) (hij : idx < jdx)
    (hjn : jdx < n + 1) (heq : a.getD idx 0 = a.getD jdx 0) :
    holds_value (a.set jdx (a.getD n 0)) n v ↔ holds_value a (n + 1) v := by
  constructor
  · rintro ⟨i, hi, hv⟩
    by_cases hj : i = jdx
    · subst hj
      rw [getD_set_self a i n (by omega)] at hv
      exact ⟨n, by omega, hv⟩
    · rw [getD_set_ne a i jdx _ hj] at hv
      exact ⟨i, by omega, hv⟩
  · rintro ⟨i, hi, hv⟩
    by_cases hj : i = jdx
    · subst hj
      refine ⟨idx, by omega, ?_⟩
      rw [getD_set_ne a idx i _ (by omega), heq, hv]
    · by_cases hin : i = n
      · subst hin
        refine ⟨jdx, by omega, ?_⟩
        rw [getD_set_self a jdx i (by omega), hv]
      · refine ⟨i, by omega, ?_⟩
        rw [getD_set_ne a i jdx _ hj, hv]

theorem dedup_while_values (idx jdx : Nat) (hij : idx < jdx) (v : Nat) :
    ∀ (n : Nat) (a : List Nat),
      (holds_value (dedup_while idx jdx a n).1 (dedup_while idx jdx a n).2 v ↔
        holds_value a n v) ∧
      (dedup_while idx jdx a n).2 ≤ n ∧ (dedup_while idx jdx a n).1.length = a.length := by
  intro n
  induction n with
  | zero => intro a; simp [dedup_while]
  | succ n ih =>
    intro a
    by_cases hc : jdx < n + 1 ∧ a.getD idx 0 = a.getD jdx 0
    · have hr : dedup_while idx jdx a (n + 1) = dedup_while idx jdx (a.set jdx (a.getD n 0)) n := by
        rw [dedup_while, if_pos hc]
      rw [hr]
      obtain ⟨k1, k2, k3⟩ := ih (a.set jdx (a.getD n 0))
      refine ⟨k1.trans (holds_value_delete a idx jdx n v hij hc.1 hc.2), by omega, ?_⟩
      rw [k3, List.length_set]
    · have hr : dedup_while idx jdx a (n + 1) = (a, n + 1) := by
        rw [dedup_while, if_neg hc]
      rw [hr]
      exact ⟨Iff.rfl, Nat.le_refl _, rfl⟩

theorem dedup_inner_values (idx v : Nat) :
    ∀ (fuel jdx : Nat) (a : List Nat) (n : Nat), idx < jdx →
      (holds_value (dedup_inner idx fuel jdx a n).1 (dedup_inner idx fuel jdx a n).2 v ↔
        holds_value a n v) ∧
      (dedup_inner idx fuel jdx a n).2 ≤ n ∧
      (dedup_inner idx fuel jdx a n).1.length = a.length := by
  intro fuel
  induction fuel with
  | zero => intro jdx a n _; simp [dedup_inner]
  | succ fuel ih =>
    intro jdx a n hij
    by_cases hc : jdx < n
    · have hr : dedup_inner idx (fuel + 1) jdx a n
          = dedup_inner idx fuel (jdx + 1) (dedup_while idx jdx a n).1
            (dedup_while idx jdx a n).2 := by
        simp [dedup_inner, hc]
      rw [hr]
      obtain ⟨w1, w2, w3⟩ := dedup_while_values idx jdx hij v n a
      obtain ⟨k1, k2, k3⟩ := ih (jdx + 1) (dedup_while idx jdx a n).1
        (dedup_while idx jdx a n).2 (by omega)
      exact ⟨k1.trans w1, by omega, by rw [k3, w3]⟩
    · have hr : dedup_inner idx (fuel + 1) jdx a n = (a, n) := by
        simp [dedup_inner, hc]
      rw [hr]
      exact ⟨Iff.rfl, Nat.le_refl _, rfl⟩

theorem dedup_outer_values (v : Nat) :
    ∀ (fuel idx : Nat) (a : List Nat) (n : Nat),
      (holds_value (dedup_outer fuel idx a n).1 (dedup_outer fuel idx a n).2 v ↔
        holds_value a n v) ∧
      (dedup_outer fuel idx a n).2 ≤ n ∧
      (dedup_outer fuel idx a n).1.length = a.length := by
  intro fuel
  induction fuel with
  | zero => intro idx a n; simp [dedup_outer]
  | succ fuel ih =>
    intro idx a n
    by_cases hc : idx < n
    · have hr : dedup_outer (fuel + 1) idx a n
          = dedup_outer fuel (idx + 1) (dedup_inner idx n (idx + 1) a n).1
            (dedup_inner idx n (idx + 1) a n).2 := by
        simp [dedup_outer, hc]
      rw [hr]
      obtain ⟨w1, w2, w3⟩ := dedup_inner_values idx v n (idx + 1) a n (by omega)
      obtain ⟨k1, k2, k3⟩ := ih (idx + 1) (dedup_inner idx n (idx + 1) a n).1
        (dedup_inner idx n (idx + 1) a n).2
      exact ⟨k1.trans w1, by omega, by rw [k3, w3]⟩
    · have hr : dedup_outer (fuel + 1) idx a n = (a, n) := by
        simp [dedup_outer, hc]
      rw [hr]
      exact ⟨Iff.rfl, Nat.le_refl _, rfl⟩

/-- Inside the array, the values among the first `n` entries are the members
of the prefix of length `n`. -/
theorem mem_take_iff_holds_value (a : List Nat) (n v : Nat) (hn : n ≤ a.length) :
    v ∈ a.take n ↔ holds_value a n v := by
  rw [List.mem_iff_getElem]
  constructor
  · rintro ⟨i, hi, hv⟩
    rw [List.length_take] at hi
    have hi2 : i < a.length := by omega
    refine ⟨i, by omega, ?_⟩
    rw [List.getElem_take] at hv
    rw [List.getD_eq_getElem?_getD, List.getElem?_eq_getElem hi2]
    exact hv
  · rintro ⟨i, hi, hv⟩
    have hi2 : i < a.length := by omega
    refine ⟨i, by rw [List.length_take]; omega, ?_⟩
    rw [List.getD_eq_getElem?_getD, List.getElem?_eq_getElem hi2] at hv
    rw [List.getElem_take]
    exact hv

/-- C27: the duplicate removal neither loses nor invents an index.  For every
record whose count `num_string_indices` lies within the array, the values
among the first `num_string_indices` entries after the removal are exactly the
values among the first `num_string_indices` entries before it, none of them
occurs twice, and the new count is the number of distinct values. -/
theorem remove_duplicates_same_values (s : usb_midi_descriptor_info_t)
    (hn : s.num_string_indices ≤ s.all_string_indices.length) :
    (∀ v, v ∈ (remove_duplicates s).all_string_indices.take
        (remove_duplicates s).num_string_indices ↔
      v ∈ s.all_string_indices.take s.num_string_indices) ∧
    ((remove_duplicates s).all_string_indices.take
      (remove_duplicates s).num_string_indices).Nodup ∧
    (remove_duplicates s).num_string_indices
      = (s.all_string_indices.take s.num_string_indices).toFinset.card := by
  have hnd := remove_duplicates_nodup s
  have hmem : ∀ v, v ∈ (remove_duplicates s).all_string_indices.take
      (remove_duplicates s).num_string_indices ↔
      v ∈ s.all_string_indices.take s.num_string_indices := by
    intro v
    obtain ⟨k1, k2, k3⟩ := dedup_outer_values v s.num_string_indices 0 s.all_string_indices
      s.num_string_indices
    rw [mem_take_iff_holds_value _ _ _ hn]
    rw [mem_take_iff_holds_value _ _ _ (by
      show (dedup_outer s.num_string_indices 0 s.all_string_indices s.num_string_indices).2
        ≤ (dedup_outer s.num_string_indices 0 s.all_string_indices s.num_string_indices).1.length
      omega)]
    exact k1
  refine ⟨hmem, hnd, ?_⟩
  have hset : ((remove_duplicates s).all_string_indices.take
      (remove_duplicates s).num_string_indices).toFinset
      = (s.all_string_indices.take s.num_string_indices).toFinset := by
    ext v
    rw [List.mem_toFinset, List.mem_toFinset]
    exact hmem v
  have hle : (remove_duplicates s).num_string_indices
      ≤ (remove_duplicates s).all_string_indices.length := by
    obtain ⟨_, k2, k3⟩ := dedup_outer_values 0 s.num_string_indices 0 s.all_string_indices
      s.num_string_indices
    show (dedup_outer s.num_string_indices 0 s.all_string_indices s.num_string_indices).2
      ≤ (dedup_outer s.num_string_indices 0 s.all_string_indices s.num_string_indices).1.length
    omega
  rw [← hset, List.toFinset_card_of_nodup hnd, List.length_take, Nat.min_eq_left hle]

/-- C27 at a concrete input: the array 5, 5, 7, 7, 5 with the count 5 in a
40-entry array; the removal leaves 5, 7 and the count 2. -/
theorem remove_duplicates_same_values_witness :
    ((∀ v, v ∈ (remove_duplicates five_indices_record).all_string_indices.take
          (remove_duplicates five_indices_record).num_string_indices ↔
        v ∈ five_indices_record.all_string_indices.take
          five_indices_record.num_string_indices) ∧
      ((remove_duplicates five_indices_record).all_string_indices.take
        (remove_duplicates five_indices_record).num_string_indices).Nodup ∧
      (remove_duplicates five_indices_record).num_string_indices
        = (five_indices_record.all_string_indices.take
            five_indices_record.num_string_indices).toFinset.card) ∧
    (remove_duplicates five_indices_record).all_string_indices.take
      (remove_duplicates five_indices_record).num_string_indices = [5, 7] :=
  ⟨remove_duplicates_same_values five_indices_record (by decide), by decide⟩

/-! ## Jacks that share an id (C25) -/

/-- The OUT-cable query after the parse of a descriptor with IN jacks whose ids
may repeat: the string index of the first declared jack with the listed id. -/
theorem configure_out_cables_first (itf hdr ep : List Nat) (jacks : List in_jack_info_t)
    (assoc : List Nat) (hitf : is_interface_desc itf) (hhdr : is_ms_header hdr)
    (hn : jacks.length ≤ MAX_IN_JACKS)
    (hbytes : ∀ j ∈ jacks, j.jack_id < 256 ∧ j.string_index < 256)
    (hep : is_standard_endpoint ep) (hdir : tu_edpt_dir (rd ep 2) = false)
    (hne : rd ep 2 ≠ 0) (hC1 : 1 ≤ assoc.length) (hC : assoc.length ≤ MAX_OUT_CABLES)
    (hassoc : ∀ a ∈ assoc, a < 256) :
    ∃ s1, usb_midi_descriptor_lib_configure (jacks.length + 3) usb_midi_descriptor_lib_init
        (itf ++ hdr ++ jacks.flatMap in_jack_desc ++ ep ++ cs_endpoint_desc assoc) 0
        (9 + hdr.length + 6 * jacks.length + ep.length + (4 + assoc.length)) = some (true, s1) ∧
      ∀ c : Nat, c < assoc.length →
        usb_midi_descriptor_lib_get_str_idx_for_out_cable s1 c
          = first_string_index (assoc.getD c 0)
              (jacks.map (fun j => (j.jack_id, j.string_index))) := by
  obtain ⟨hitf9, hitf0⟩ := hitf
  have hhdr' := hhdr
  obtain ⟨hh0, hh3, _, _⟩ := hhdr'
  have hep' := hep
  obtain ⟨he0, _, _⟩ := hep'
  have hhl : hdr.length < 256 := by rw [← hh0]; exact rd_lt _ _
  have hel : ep.length < 256 := by rw [← he0]; exact rd_lt _ _
  simp only [MAX_IN_JACKS] at hn
  simp only [MAX_OUT_CABLES] at hC
  have hmax : 9 + hdr.length + 6 * jacks.length + ep.length + (4 + assoc.length) < 2 ^ 32 := by
    omega
  generalize hL : 9 + hdr.length + 6 * jacks.length + ep.length + (4 + assoc.length) = max_len
    at hmax ⊢
  -- the memory, bracketed to the right
  have hd : itf ++ hdr ++ jacks.flatMap in_jack_desc ++ ep ++ cs_endpoint_desc assoc
      = itf ++ (hdr ++ (jacks.flatMap in_jack_desc ++ (ep ++ cs_endpoint_desc assoc))) := by
    simp
  rw [hd]
  generalize hdd : itf ++ (hdr ++ (jacks.flatMap in_jack_desc ++ (ep ++ cs_endpoint_desc assoc)))
    = d
  -- the record after the interface descriptor
  have hf := record_interface_string_fields usb_midi_descriptor_lib_init d 0
  generalize hs0 : record_interface_string usb_midi_descriptor_lib_init d 0 = s0 at hf
  have hnext : tu_desc_next d 0 = 9 := by
    rw [tu_desc_next, ← hdd, rd_append_left (by omega), hitf0]
  have hlen0 : rd d 0 = 9 := by rw [← hdd, rd_append_left (by omega), hitf0]
  -- the header
  obtain ⟨hbh, hlh⟩ := walk_body_header itf
    (jacks.flatMap in_jack_desc ++ (ep ++ cs_endpoint_desc assoc)) hdr s0 0 hhdr
  rw [hdd, hitf9] at hbh hlh
  have hfirst : first_desc_ok d 9 = true := by
    obtain ⟨_, _, hh1, hh2⟩ := hhdr
    have r1 := rd_block itf hdr (jacks.flatMap in_jack_desc ++ (ep ++ cs_endpoint_desc assoc))
      (i := 1) (by omega)
    have r2 := rd_block itf hdr (jacks.flatMap in_jack_desc ++ (ep ++ cs_endpoint_desc assoc))
      (i := 2) (by omega)
    rw [hdd, hitf9, hh1] at r1
    rw [hdd, hitf9, hh2] at r2
    simp [first_desc_ok, r1, r2]
  -- the IN jacks
  have ht0 : in_table_holds s0 [] := by
    refine ⟨by rw [hf.2.2.2.2.2.2.2.1]; rfl, by rw [hf.2.2.2.2.2.1]; rfl, by simp⟩
  obtain ⟨s1, hw1, ht1, hse1, _⟩ := walk_in_jacks hmax jacks [] (itf ++ hdr)
    (ep ++ cs_endpoint_desc assoc) s0 2 (9 + hdr.length) 0 hbytes ht0
    (by simp only [MAX_IN_JACKS, List.length_nil]; omega) (by omega)
  have hd1 : itf ++ hdr ++ (jacks.flatMap in_jack_desc ++ (ep ++ cs_endpoint_desc assoc)) = d := by
    rw [← hdd]; simp
  have hpl1 : (itf ++ hdr).length = 9 + hdr.length := by simp [hitf9]
  rw [hd1, hpl1] at hw1
  simp only [List.nil_append] at ht1
  -- the endpoint and its CS-endpoint descriptor
  obtain ⟨a1, a2, a3, a4, a5, a6⟩ := hse1
  have hw2 := walk_out_endpoint_pair hmax (itf ++ hdr ++ jacks.flatMap in_jack_desc) ep assoc s1
    (9 + hdr.length + 6 * jacks.length) 0 hep hdir hne hC
    (by rw [a2, hf.2.2.1]; rfl) (by rw [a4, hf.2.2.2.2.1]; rfl) (by omega)
  have hd2 : itf ++ hdr ++ jacks.flatMap in_jack_desc ++ (ep ++ cs_endpoint_desc assoc) = d := by
    rw [← hdd]; simp
  have hpl2 : (itf ++ hdr ++ jacks.flatMap in_jack_desc).length
      = 9 + hdr.length + 6 * jacks.length := by
    rw [List.length_append, List.length_append, flatMap_in_jack_desc_length, hitf9]
  rw [hd2, hpl2] at hw2
  -- the whole walk
  have hwalk : walk d max_len (jacks.length + 3) s0 9 9 0 = some (true, { s1 with
      ep_out := rd ep 2
      num_cables_tx := assoc.length
      ep_out_associated_jacks := copy_assoc_jacks d
        (9 + hdr.length + 6 * jacks.length + ep.length + 4) assoc.length 0
        s1.ep_out_associated_jacks }) := by
    rw [show jacks.length + 3 = (2 + jacks.length) + 1 by omega,
      walk_succ_of_body _ (by omega) hbh]
    simp only [tu_desc_next, hlh]
    rw [Nat.mod_eq_of_lt (by omega), hw1, hw2]
  have hres : usb_midi_descriptor_lib_configure (jacks.length + 3) usb_midi_descriptor_lib_init
      d 0 max_len = some (true, { remove_duplicates { s1 with
        ep_out := rd ep 2
        num_cables_tx := assoc.length
        ep_out_associated_jacks := copy_assoc_jacks d
          (9 + hdr.length + 6 * jacks.length + ep.length + 4) assoc.length 0
          s1.ep_out_associated_jacks } with configured := true }) := by
    unfold usb_midi_descriptor_lib_configure
    simp only [hs0, hnext, hfirst, hlen0, if_true, hwalk]
    have hu : has_usable_endpoint { s1 with
        ep_out := rd ep 2
        num_cables_tx := assoc.length
        ep_out_associated_jacks := copy_assoc_jacks d
          (9 + hdr.length + 6 * jacks.length + ep.length + 4) assoc.length 0
          s1.ep_out_associated_jacks } = true := by
      have : assoc.length ≠ 0 := by omega
      simp [has_usable_endpoint, hne, this]
    simp only [configure_finish, hu, if_true]
  refine ⟨_, hres, ?_⟩
  intro c hc
  obtain ⟨hl, hnx, htk⟩ := ht1
  have hl16 : s1.ep_out_associated_jacks.length = 16 := by rw [a6, hf.2.2.2.2.2.2.2.2.2.2]; rfl
  have hget := assoc_after_copy (itf ++ hdr ++ jacks.flatMap in_jack_desc) ep assoc
    s1.ep_out_associated_jacks c hC hl16 hc
  rw [hd2, hpl2] at hget
  have hidlt : assoc.getD c 0 < 256 := hassoc _ (by
    rw [List.getD_eq_getElem?_getD, List.getElem?_eq_getElem hc]
    exact List.getElem_mem hc)
  rw [Nat.mod_eq_of_lt hidlt] at hget
  have hnot : ¬ (c ≥ assoc.length) := by omega
  simp only [usb_midi_descriptor_lib_get_str_idx_for_out_cable, remove_duplicates, hnot,
    if_false, hget]
  rw [hnx, find_in_jack_eq _ _ _ _ (by
    show 0 + jacks.length ≤ s1.in_jack_info.length
    rw [hl]; simp only [MAX_IN_JACKS]; omega)]
  simp only [List.drop_zero]
  rw [htk]

/-- The IN-cable query after the parse of a descriptor with OUT jacks whose ids
may repeat: the string index of the first declared jack with the listed id. -/
theorem configure_in_cables_first (itf hdr ep : List Nat) (jacks : List out_jack_decl_t)
    (assoc : List Nat) (hitf : is_interface_desc itf) (hhdr : is_ms_header hdr)
    (hn : jacks.length ≤ MAX_OUT_JACKS)
    (hbytes : ∀ j ∈ jacks, j.sources.length ≤ 16 ∧ j.bJackID < 256 ∧ j.iJack < 256)
    (hep : is_standard_endpoint ep) (hdir : tu_edpt_dir (rd ep 2) = true)
    (hC1 : 1 ≤ assoc.length) (hC : assoc.length ≤ MAX_IN_CABLES)
    (hassoc : ∀ a ∈ assoc, a < 256) :
    ∃ s1, usb_midi_descriptor_lib_configure (jacks.length + 3) usb_midi_descriptor_lib_init
        (itf ++ hdr ++ jacks.flatMap out_jack_desc ++ ep ++ cs_endpoint_desc assoc) 0
        (itf ++ hdr ++ jacks.flatMap out_jack_desc ++ ep ++ cs_endpoint_desc assoc).length
          = some (true, s1) ∧
      ∀ c : Nat, c < assoc.length →
        usb_midi_descriptor_lib_get_str_idx_for_in_cable s1 c
          = first_string_index (assoc.getD c 0)
              (jacks.map (fun j => (j.bJackID, j.iJack))) := by
  obtain ⟨hitf9, hitf0⟩ := hitf
  have hhdr' := hhdr
  obtain ⟨hh0, hh3, _, _⟩ := hhdr'
  have hep' := hep
  obtain ⟨he0, _, _⟩ := hep'
  have hhl : hdr.length < 256 := by rw [← hh0]; exact rd_lt _ _
  have hel : ep.length < 256 := by rw [← he0]; exact rd_lt _ _
  simp only [MAX_OUT_JACKS] at hn
  simp only [MAX_IN_CABLES] at hC
  have hJ : (jacks.flatMap out_jack_desc).length ≤ 39 * jacks.length := by
    clear hn hassoc
    induction jacks with
    | nil => simp
    | cons j js ih =>
      have := out_jack_desc_length j
      have hj := (hbytes j (List.mem_cons_self _ _)).1
      have := ih (fun x hx => hbytes x (List.mem_cons_of_mem _ hx))
      simp only [List.flatMap_cons, List.length_append, List.length_cons]
      omega
  have hlenall : (itf ++ hdr ++ jacks.flatMap out_jack_desc ++ ep ++ cs_endpoint_desc assoc).length
      = 9 + hdr.length + (jacks.flatMap out_jack_desc).length + ep.length
        + (4 + assoc.length) := by
    simp only [List.length_append, hitf9, cs_endpoint_desc, List.length_cons, List.length_nil]
  rw [hlenall]
  have hmax : 9 + hdr.length + (jacks.flatMap out_jack_desc).length + ep.length
      + (4 + assoc.length) < 2 ^ 32 := by
    omega
  generalize hL : 9 + hdr.length + (jacks.flatMap out_jack_desc).length + ep.length
    + (4 + assoc.length) = max_len at hmax ⊢
  have hd : itf ++ hdr ++ jacks.flatMap out_jack_desc ++ ep ++ cs_endpoint_desc assoc
      = itf ++ (hdr ++ (jacks.flatMap out_jack_desc ++ (ep ++ cs_endpoint_desc assoc))) := by
    simp
  rw [hd]
  generalize hdd : itf ++ (hdr ++ (jacks.flatMap out_jack_desc ++ (ep ++ cs_endpoint_desc assoc)))
    = d
  have hf := record_interface_string_fields usb_midi_descriptor_lib_init d 0
  generalize hs0 : record_interface_string usb_midi_descriptor_lib_init d 0 = s0 at hf
  have hnext : tu_desc_next d 0 = 9 := by
    rw [tu_desc_next, ← hdd, rd_append_left (by omega), hitf0]
  have hlen0 : rd d 0 = 9 := by rw [← hdd, rd_append_left (by omega), hitf0]
  obtain ⟨hbh, hlh⟩ := walk_body_header itf
    (jacks.flatMap out_jack_desc ++ (ep ++ cs_endpoint_desc assoc)) hdr s0 0 hhdr
  rw [hdd, hitf9] at hbh hlh
  have hfirst : first_desc_ok d 9 = true := by
    obtain ⟨_, _, hh1, hh2⟩ := hhdr
    have r1 := rd_block itf hdr (jacks.flatMap out_jack_desc ++ (ep ++ cs_endpoint_desc assoc))
      (i := 1) (by omega)
    have r2 := rd_block itf hdr (jacks.flatMap out_jack_desc ++ (ep ++ cs_endpoint_desc assoc))
      (i := 2) (by omega)
    rw [hdd, hitf9, hh1] at r1
    rw [hdd, hitf9, hh2] at r2
    simp [first_desc_ok, r1, r2]
  have ht0 : out_table_holds s0 [] := by
    refine ⟨by rw [hf.2.2.2.2.2.2.2.2.1]; rfl, by rw [hf.2.2.2.2.2.2.1]; rfl, by simp⟩
  obtain ⟨s1, hw1, ht1, hse1⟩ := walk_out_jacks hmax jacks [] (itf ++ hdr)
    (ep ++ cs_endpoint_desc assoc) s0 2 (9 + hdr.length) 0 hbytes ht0
    (by simp only [MAX_OUT_JACKS, List.length_nil]; omega) (by omega)
  have hd1 : itf ++ hdr ++ (jacks.flatMap out_jack_desc ++ (ep ++ cs_endpoint_desc assoc)) = d := by
    rw [← hdd]; simp
  have hpl1 : (itf ++ hdr).length = 9 + hdr.length := by simp [hitf9]
  rw [hd1, hpl1] at hw1
  simp only [List.nil_append] at ht1
  obtain ⟨a1, a2, a3, a4, a5, a6⟩ := hse1
  have hw2 := walk_in_endpoint_pair hmax (itf ++ hdr ++ jacks.flatMap out_jack_desc) ep assoc s1
    (9 + hdr.length + (jacks.flatMap out_jack_desc).length) 0 hep hdir hC
    (by rw [a1, hf.2.1]; rfl) (by rw [a3, hf.2.2.2.1]; rfl) (by omega)
  have hd2 : itf ++ hdr ++ jacks.flatMap out_jack_desc ++ (ep ++ cs_endpoint_desc assoc) = d := by
    rw [← hdd]; simp
  have hpl2 : (itf ++ hdr ++ jacks.flatMap out_jack_desc).length
      = 9 + hdr.length + (jacks.flatMap out_jack_desc).length := by
    rw [List.length_append, List.length_append, hitf9]
  rw [hd2, hpl2] at hw2
  have hwalk : walk d max_len (jacks.length + 3) s0 9 9 0 = some (true, { s1 with
      ep_in := rd ep 2
      num_cables_rx := assoc.length
      ep_in_associated_jacks := copy_assoc_jacks d
        (9 + hdr.length + (jacks.flatMap out_jack_desc).length + ep.length + 4) assoc.length 0
        s1.ep_in_associated_jacks }) := by
    rw [show jacks.length + 3 = (2 + jacks.length) + 1 by omega,
      walk_succ_of_body _ (by omega) hbh]
    simp only [tu_desc_next, hlh]
    rw [Nat.mod_eq_of_lt (by omega), hw1, hw2]
  have hne : rd ep 2 ≠ 0 := tu_edpt_dir_ne_zero hdir
  have hres : usb_midi_descriptor_lib_configure (jacks.length + 3) usb_midi_descriptor_lib_init
      d 0 max_len = some (true, { remove_duplicates { s1 with
        ep_in := rd ep 2
        num_cables_rx := assoc.length
        ep_in_associated_jacks := copy_assoc_jacks d
          (9 + hdr.length + (jacks.flatMap out_jack_desc).length + ep.length + 4) assoc.length 0
          s1.ep_in_associated_jacks } with configured := true }) := by
    unfold usb_midi_descriptor_lib_configure
    simp only [hs0, hnext, hfirst, hlen0, if_true, hwalk]
    have hu : has_usable_endpoint { s1 with
        ep_in := rd ep 2
        num_cables_rx := assoc.length
        ep_in_associated_jacks := copy_assoc_jacks d
          (9 + hdr.length + (jacks.flatMap out_jack_desc).length + ep.length + 4) assoc.length 0
          s1.ep_in_associated_jacks } = true := by
      have : assoc.length ≠ 0 := by omega
      simp [has_usable_endpoint, hne, this]
    simp only [configure_finish, hu, if_true]
  refine ⟨_, hres, ?_⟩
  intro c hc
  obtain ⟨hl, hnx, htk⟩ := ht1
  have hl16 : s1.ep_in_associated_jacks.length = 16 := by rw [a5, hf.2.2.2.2.2.2.2.2.2.1]; rfl
  have hget := assoc_after_copy (itf ++ hdr ++ jacks.flatMap out_jack_desc) ep assoc
    s1.ep_in_associated_jacks c hC hl16 hc
  rw [hd2, hpl2] at hget
  have hidlt : assoc.getD c 0 < 256 := hassoc _ (by
    rw [List.getD_eq_getElem?_getD, List.getElem?_eq_getElem hc]
    exact List.getElem_mem hc)
  rw [Nat.mod_eq_of_lt hidlt] at hget
  have hnot : ¬ (c ≥ assoc.length) := by omega
  simp only [usb_midi_descriptor_lib_get_str_idx_for_in_cable, remove_duplicates, hnot,
    if_false, hget]
  rw [hnx, find_out_jack_eq _ _ _ _ (by
    show 0 + jacks.length ≤ s1.out_jack_info.length
    rw [hl]; simp only [MAX_OUT_JACKS]; omega)]
  simp only [List.drop_zero]
  rw [htk]

/-- The search stops at the first pair with the id. -/
theorem first_string_index_append (id x : Nat) (rest : List (Nat × Nat)) :
    ∀ (pre : List (Nat × Nat)), (∀ e ∈ pre, e.1 ≠ id) →
      first_string_index id (pre ++ (id, x) :: rest) = x := by
  intro pre
  induction pre with
  | nil => intro _; simp [first_string_index]
  | cons e pre ih =>
    intro h
    have he : e.1 ≠ id := h e (List.mem_cons_self _ _)
    simp only [List.cons_append, first_string_index, he, if_false]
    exact ih (fun x hx => h x (List.mem_cons_of_mem _ hx))
/-- C25 as stated fails: `same_id_in_jacks_desc` declares two IN jacks with the
id 1, the first with iJack 5 and the later one with iJack 7, and is accepted;
the query for OUT cable 0, which names jack 1, returns 5, not 7.  Likewise for
the two OUT jacks of `same_id_out_jacks_desc` and IN cable 0. -/
theorem configure_same_id_jacks_counterexample :
    ∃ s1 s2, usb_midi_descriptor_lib_configure 5 usb_midi_descriptor_lib_init
        same_id_in_jacks_desc 0 42 = some (true, s1) ∧
      rd same_id_in_jacks_desc (16 + 4) = 1 ∧ rd same_id_in_jacks_desc (16 + 5) = 5 ∧
      rd same_id_in_jacks_desc (22 + 4) = 1 ∧ rd same_id_in_jacks_desc (22 + 5) = 7 ∧
      usb_midi_descriptor_lib_get_str_idx_for_out_cable s1 0 = 5 ∧
      usb_midi_descriptor_lib_configure 5 usb_midi_descriptor_lib_init
        same_id_out_jacks_desc 0 48 = some (true, s2) ∧
      rd same_id_out_jacks_desc (16 + 4) = 1 ∧ rd same_id_out_jacks_desc (16 + 8) = 5 ∧
      rd same_id_out_jacks_desc (25 + 4) = 1 ∧ rd same_id_out_jacks_desc (25 + 8) = 7 ∧
      usb_midi_descriptor_lib_get_str_idx_for_in_cable s2 0 = 5 :=
  ⟨_, _, rfl, by decide, by decide, by decide, by decide, by decide,
    rfl, by decide, by decide, by decide, by decide, by decide⟩

/-- C25 as amended: when two jacks of the same kind share a jack id, the jack
declared first wins.  For a descriptor made of the interface descriptor, the
MS header, at most 16 IN-jack descriptors among which `i1` is the first with
its id and `i2`, declared later, has the same id, an OUT endpoint descriptor
and its CS-endpoint descriptor: the parse returns true and
`usb_midi_descriptor_lib_get_str_idx_for_out_cable` for a cable associated
with that id returns the iJack of `i1`.  Likewise for OUT jacks `o1`, `o2`, an
IN endpoint and `usb_midi_descriptor_lib_get_str_idx_for_in_cable`. -/
theorem configure_first_declared_jack_wins (itf hdr ep_out ep_in : List Nat)
    (in_pre in_mid in_post : List in_jack_info_t) (i1 i2 : in_jack_info_t)
    (out_pre out_mid out_post : List out_jack_decl_t) (o1 o2 : out_jack_decl_t)
    (assoc : List Nat) (c : Nat)
    (hitf : is_interface_desc itf) (hhdr : is_ms_header hdr)
    (hin_n : (in_pre ++ i1 :: (in_mid ++ i2 :: in_post)).length ≤ MAX_IN_JACKS)
    (hin_bytes : ∀ j ∈ in_pre ++ i1 :: (in_mid ++ i2 :: in_post),
      j.jack_id < 256 ∧ j.string_index < 256)
    (hin_same : i2.jack_id = i1.jack_id) (hin_first : ∀ j ∈ in_pre, j.jack_id ≠ i1.jack_id)
    (hout_n : (out_pre ++ o1 :: (out_mid ++ o2 :: out_post)).length ≤ MAX_OUT_JACKS)
    (hout_bytes : ∀ j ∈ out_pre ++ o1 :: (out_mid ++ o2 :: out_post),
      j.sources.length ≤ 16 ∧ j.bJackID < 256 ∧ j.iJack < 256)
    (hout_same : o2.bJackID = o1.bJackID) (hout_first : ∀ j ∈ out_pre, j.bJackID ≠ o1.bJackID)
    (hepo : is_standard_endpoint ep_out) (hdiro : tu_edpt_dir (rd ep_out 2) = false)
    (hneo : rd ep_out 2 ≠ 0)
    (hepi : is_standard_endpoint ep_in) (hdiri : tu_edpt_dir (rd ep_in 2) = true)
    (hC : assoc.length ≤ 16) (hassoc : ∀ a ∈ assoc, a < 256) (hc : c < assoc.length) :
    (assoc.getD c 0 = i1.jack_id → i2.jack_id = i1.jack_id ∧
      ∃ s1, usb_midi_descriptor_lib_configure
          ((in_pre ++ i1 :: (in_mid ++ i2 :: in_post)).length + 3) usb_midi_descriptor_lib_init
          (itf ++ hdr ++ (in_pre ++ i1 :: (in_mid ++ i2 :: in_post)).flatMap in_jack_desc
            ++ ep_out ++ cs_endpoint_desc assoc) 0
          (9 + hdr.length + 6 * (in_pre ++ i1 :: (in_mid ++ i2 :: in_post)).length
            + ep_out.length + (4 + assoc.length)) = some (true, s1) ∧
        usb_midi_descriptor_lib_get_str_idx_for_out_cable s1 c = i1.string_index) ∧
    (assoc.getD c 0 = o1.bJackID → o2.bJackID = o1.bJackID ∧
      ∃ s2, usb_midi_descriptor_lib_configure
          ((out_pre ++ o1 :: (out_mid ++ o2 :: out_post)).length + 3)
          usb_midi_descriptor_lib_init
          (itf ++ hdr ++ (out_pre ++ o1 :: (out_mid ++ o2 :: out_post)).flatMap out_jack_desc
            ++ ep_in ++ cs_endpoint_desc assoc) 0
          (itf ++ hdr ++ (out_pre ++ o1 :: (out_mid ++ o2 :: out_post)).flatMap out_jack_desc
            ++ ep_in ++ cs_endpoint_desc assoc).length = some (true, s2) ∧
        usb_midi_descriptor_lib_get_str_idx_for_in_cable s2 c = o1.iJack) := by
  constructor
  · intro hid
    obtain ⟨s1, h1, h2⟩ := configure_out_cables_first itf hdr ep_out
      (in_pre ++ i1 :: (in_mid ++ i2 :: in_post)) assoc hitf hhdr hin_n hin_bytes hepo hdiro
      hneo (by omega) hC hassoc
    refine ⟨hin_same, s1, h1, ?_⟩
    rw [h2 c hc, hid, List.map_append, List.map_cons]
    refine first_string_index_append _ _ _ _ ?_
    intro e he
    obtain ⟨j, hj, rfl⟩ := List.mem_map.mp he
    exact hin_first j hj
  · intro hid
    obtain ⟨s2, h1, h2⟩ := configure_in_cables_first itf hdr ep_in
      (out_pre ++ o1 :: (out_mid ++ o2 :: out_post)) assoc hitf hhdr hout_n hout_bytes hepi
      hdiri (by omega) hC hassoc
    refine ⟨hout_same, s2, h1, ?_⟩
    rw [h2 c hc, hid, List.map_append, List.map_cons]
    refine first_string_index_append _ _ _ _ ?_
    intro e he
    obtain ⟨j, hj, rfl⟩ := List.mem_map.mp he
    exact hout_first j hj

/-- C25 as amended at a concrete input: three IN jacks with the ids 2, 1, 1
and the iJack bytes 4, 5, 7, and three OUT jacks with the ids 2, 1, 1 and the
string indices 4, 5, 7; cable 0 names jack 1 and gets the string index 5. -/
theorem configure_first_declared_jack_wins_witness :
    (∃ s1, usb_midi_descriptor_lib_configure 6 usb_midi_descriptor_lib_init
        [9, 4, 1, 0, 1, 1, 3, 0, 0,  7, 0x24, 1, 0, 1, 39, 0,
          6, 0x24, 2, 1, 2, 4,  6, 0x24, 2, 1, 1, 5,  6, 0x24, 2, 1, 1, 7,
          9, 5, 0x02, 2, 64, 0, 0, 0, 0,  5, 0x25, 1, 1, 1] 0 48 = some (true, s1) ∧
      usb_midi_descriptor_lib_get_str_idx_for_out_cable s1 0 = 5) ∧
    (∃ s2, usb_midi_descriptor_lib_configure 6 usb_midi_descriptor_lib_init
        [9, 4, 1, 0, 1, 1, 3, 0, 0,  7, 0x24, 1, 0, 1, 39, 0,
          9, 0x24, 3, 1, 2, 1, 1, 1, 4,  9, 0x24, 3, 1, 1, 1, 1, 1, 5,  7, 0x24, 3, 1, 1, 0, 7,
          9, 5, 0x81, 2, 64, 0, 0, 0, 0,  5, 0x25, 1, 1, 1] 0 55 = some (true, s2) ∧
      usb_midi_descriptor_lib_get_str_idx_for_in_cable s2 0 = 5) := by
  obtain ⟨ha, hb⟩ := configure_first_declared_jack_wins [9, 4, 1, 0, 1, 1, 3, 0, 0]
    [7, 0x24, 1, 0, 1, 39, 0] [9, 5, 0x02, 2, 64, 0, 0, 0, 0] [9, 5, 0x81, 2, 64, 0, 0, 0, 0]
    [⟨2, 1, 4⟩] [] [] ⟨1, 1, 5⟩ ⟨1, 1, 7⟩
    [⟨1, 2, [(1, 1)], 4⟩] [] [] ⟨1, 1, [(1, 1)], 5⟩ ⟨1, 1, [], 7⟩ [1] 0
    (by unfold is_interface_desc; decide) (by unfold is_ms_header; decide)
    (by decide) (by decide) (by decide) (by decide)
    (by decide) (by decide) (by decide) (by decide)
    (by unfold is_standard_endpoint; decide) (by decide) (by decide)
    (by unfold is_standard_endpoint; decide) (by decide)
    (by decide) (by decide) (by decide)
  obtain ⟨_, s1, h1, h2⟩ := ha (by decide)
  obtain ⟨_, s2, h3, h4⟩ := hb (by decide)
  exact ⟨⟨s1, h1, h2⟩, ⟨s2, h3, h4⟩⟩

/-! ## Full jack tables, for inputs that stay within the arrays (C10) -/

/-- The CS_INTERFACE branch collects at most one string index. -/
theorem walk_cs_interface_count {d : List Nat} {s s1 : usb_midi_descriptor_info_t} {p : Nat}
    (h : walk_cs_interface d s p = some s1) :
    s1.num_string_indices ≤ s.num_string_indices + 1 := by
  unfold walk_cs_interface at h
  simp only at h
  split_ifs at h <;> simp only [Option.some.injEq] at h <;> subst h <;>
    (try simp only [push_string_index]) <;> omega

/-- A successful iteration collects at most one string index. -/
theorem walk_body_count {d : List Nat} {s s1 : usb_midi_descriptor_info_t}
    {p prev prev1 : Nat} (h : walk_body d s p prev = some (s1, prev1)) :
    s1.num_string_indices ≤ s.num_string_indices + 1 := by
  rcases walk_body_cases h with ⟨_, h1, _⟩ | ⟨_, h1, _⟩ | ⟨_, h1⟩
  · exact walk_cs_interface_count h1
  · rw [(walk_cs_endpoint_fields h1).2.2.2.2.2.2.2.2]; omega
  · rw [(walk_endpoint_tables h1).2.2.2.2.2.1]; omega

/-- A walk of `n` iterations collects at most `n` string indices. -/
theorem walk_count {d : List Nat} {max_len : Nat} :
    ∀ (n : Nat) (s : usb_midi_descriptor_info_t) (p len_parsed prev : Nat)
      (r : Bool × usb_midi_descriptor_info_t),
      walk d max_len n s p len_parsed prev = some r →
      r.2.num_string_indices ≤ s.num_string_indices + n := by
  intro n
  induction n with
  | zero =>
    intro s p len_parsed prev r h
    by_cases hlen : len_parsed < max_len
    · simp [walk, hlen] at h
    · simp only [walk, hlen, if_false, Option.some.injEq] at h
      rw [← h]; dsimp only; omega
  | succ n ih =>
    intro s p len_parsed prev r h
    by_cases hlen : len_parsed < max_len
    · cases hb : walk_body d s p prev with
      | none =>
        rw [walk_succ_of_body_none n hlen hb] at h
        simp only [Option.some.injEq] at h
        rw [← h]; dsimp only; omega
      | some r1 =>
        obtain ⟨s1, prev1⟩ := r1
        rw [walk_succ_of_body n hlen hb] at h
        have h1 := ih _ _ _ _ r h
        have h2 := walk_body_count hb
        omega
    · simp only [walk, hlen, if_false, Option.some.injEq] at h
      rw [← h]; dsimp only; omega

/-- The CS_INTERFACE branch on an OUT-jack descriptor with at most 16 input
pins keeps every recorded pin count within the `source_ids` array. -/
theorem walk_cs_interface_sources {d : List Nat} {s s1 : usb_midi_descriptor_info_t} {p : Nat}
    (h : walk_cs_interface d s p = some s1)
    (hB : rd d (p + 2) = MIDI_CS_INTERFACE_OUT_JACK → rd d (p + 5) ≤ MAX_IN_JACKS)
    (hI : ∀ e ∈ s.out_jack_info, e.num_source_ids ≤ MAX_IN_JACKS) :
    ∀ e ∈ s1.out_jack_info, e.num_source_ids ≤ MAX_IN_JACKS := by
  unfold walk_cs_interface at h
  simp only at h
  by_cases c3 : rd d (p + 2) = MIDI_CS_INTERFACE_OUT_JACK
  · have c1 : ¬ rd d (p + 2) = MIDI_CS_INTERFACE_HEADER := by
      rw [c3]; decide
    have c2 : ¬ rd d (p + 2) = MIDI_CS_INTERFACE_IN_JACK := by
      rw [c3]; decide
    rw [if_neg c1, if_neg c2, if_pos c3] at h
    split_ifs at h <;> simp only [Option.some.injEq] at h <;> subst h <;>
      (try simp only [push_string_index]) <;> intro e he
    · rcases List.mem_or_eq_of_mem_set he with h1 | h1
      · exact hI e h1
      · rw [h1]; exact hB c3
    · rcases List.mem_or_eq_of_mem_set he with h1 | h1
      · exact hI e h1
      · rw [h1]; exact hB c3
    · exact hI e he
  · rw [if_neg c3] at h
    split_ifs at h <;> simp only [Option.some.injEq] at h <;> subst h <;>
      (try simp only [push_string_index]) <;> exact hI

/-- The end of the function leaves the jack tables alone and does not increase
the count of the catalog. -/
theorem configure_finish_tables (s : usb_midi_descriptor_info_t) :
    (configure_finish s).2.next_in_jack = s.next_in_jack ∧
    (configure_finish s).2.next_out_jack = s.next_out_jack ∧
    (configure_finish s).2.out_jack_info = s.out_jack_info ∧
    (configure_finish s).2.num_string_indices ≤ s.num_string_indices := by
  unfold configure_finish
  split_ifs
  · refine ⟨rfl, rfl, rfl, ?_⟩
    exact (dedup_outer_values 0 s.num_string_indices 0 s.all_string_indices
      s.num_string_indices).2.1
  · exact ⟨rfl, rfl, rfl, Nat.le_refl _⟩

/-- C10 as amended: a full jack table is not reported.  From the initialised
record, for every input that stays within the arrays of the record -- the
call returns within `n` iterations with `n + 1 <= MAX_STRING_INDICES`, so that
at most 40 string indices are collected, and every OUT-jack descriptor among
the sub-descriptors has at most 16 input pins -- at most 16 IN jacks and at
most 16 OUT jacks are recorded, at most 40 string indices are counted and
every recorded pin count is at most 16; and an IN-jack (OUT-jack) descriptor
met when 16 jacks of its kind are recorded is skipped: the iteration does not
fail and leaves the record as it is. -/
theorem configure_full_jack_tables (d : List Nat) (midi_descriptor max_len : Nat) :
    (∀ (n : Nat) (r : Bool × usb_midi_descriptor_info_t), n + 1 ≤ MAX_STRING_INDICES →
      (∀ q ∈ configure_sub_descriptors d midi_descriptor max_len n,
        rd d (q + 1) = TUSB_DESC_CS_INTERFACE → rd d (q + 2) = MIDI_CS_INTERFACE_OUT_JACK →
        rd d (q + 5) ≤ MAX_IN_JACKS) →
      usb_midi_descriptor_lib_configure n usb_midi_descriptor_lib_init d midi_descriptor
        max_len = some r →
      r.2.next_in_jack ≤ MAX_IN_JACKS ∧ r.2.next_out_jack ≤ MAX_OUT_JACKS ∧
      r.2.num_string_indices ≤ MAX_STRING_INDICES ∧
      ∀ e ∈ r.2.out_jack_info, e.num_source_ids ≤ MAX_IN_JACKS) ∧
    (∀ (s : usb_midi_descriptor_info_t) (p prev : Nat),
      rd d (p + 1) = TUSB_DESC_CS_INTERFACE → rd d (p + 2) = MIDI_CS_INTERFACE_IN_JACK →
      MAX_IN_JACKS ≤ s.next_in_jack → walk_body d s p prev = some (s, prev)) ∧
    (∀ (s : usb_midi_descriptor_info_t) (p prev : Nat),
      rd d (p + 1) = TUSB_DESC_CS_INTERFACE → rd d (p + 2) = MIDI_CS_INTERFACE_OUT_JACK →
      MAX_OUT_JACKS ≤ s.next_out_jack → walk_body d s p prev = some (s, prev)) := by
  refine ⟨?_, ?_, ?_⟩
  · intro n r hn hB h
    simp only [MAX_STRING_INDICES] at hn ⊢
    have hf := record_interface_string_fields usb_midi_descriptor_lib_init d midi_descriptor
    have h0 : (record_interface_string usb_midi_descriptor_lib_init d midi_descriptor).next_in_jack
          ≤ MAX_IN_JACKS ∧
        (record_interface_string usb_midi_descriptor_lib_init d midi_descriptor).next_out_jack
          ≤ MAX_OUT_JACKS := by
      rw [hf.2.2.2.2.2.1, hf.2.2.2.2.2.2.1]
      decide
    have hnum0 : (record_interface_string usb_midi_descriptor_lib_init d
        midi_descriptor).num_string_indices ≤ 1 := by
      unfold record_interface_string
      simp only
      split_ifs <;> simp [push_string_index, usb_midi_descriptor_lib_init]
    have hsrc0 : ∀ e ∈ (record_interface_string usb_midi_descriptor_lib_init d
        midi_descriptor).out_jack_info, e.num_source_ids ≤ MAX_IN_JACKS := by
      rw [hf.2.2.2.2.2.2.2.2.1]
      intro e he
      have he1 : e = out_jack_zero := List.eq_of_mem_replicate he
      rw [he1]
      decide
    have hpres : ∀ (s s1 : usb_midi_descriptor_info_t) (p prev prev1 : Nat),
        (∀ e ∈ s.out_jack_info, e.num_source_ids ≤ MAX_IN_JACKS) →
        (rd d (p + 1) = TUSB_DESC_CS_INTERFACE → rd d (p + 2) = MIDI_CS_INTERFACE_OUT_JACK →
          rd d (p + 5) ≤ MAX_IN_JACKS) →
        walk_body d s p prev = some (s1, prev1) →
        ∀ e ∈ s1.out_jack_info, e.num_source_ids ≤ MAX_IN_JACKS := by
      intro s s1 p prev prev1 hI hq hb
      rcases walk_body_cases hb with ⟨c1, h1, _⟩ | ⟨_, h1, _⟩ | ⟨_, h1⟩
      · exact walk_cs_interface_sources h1 (hq c1) hI
      · rw [(walk_cs_endpoint_fields h1).2.2.2.2.2.2.1]; exact hI
      · rw [(walk_endpoint_tables h1).2.2.2.1]; exact hI
    rcases configure_cases h with ⟨_, h1⟩ | ⟨_, h1, _⟩ | ⟨_, s2, h1, h2⟩
    · rw [h1]
      dsimp only
      exact ⟨h0.1, h0.2, by omega, hsrc0⟩
    · have k1 := walk_invariant _ walk_body_next _ _ _ _ _ (false, r.2) h0 h1
      have k2 := walk_count n _ _ _ _ _ h1
      have k3 := walk_invariant_on _ _ hpres n _ _ _ _ (false, r.2) hsrc0 hB h1
      simp only at k2
      exact ⟨k1.1, k1.2, by omega, k3⟩
    · have k1 := walk_invariant _ walk_body_next _ _ _ _ _ (true, s2) h0 h1
      have k2 := walk_count n _ _ _ _ _ h1
      have k3 := walk_invariant_on _ _ hpres n _ _ _ _ (true, s2) hsrc0 hB h1
      simp only at k2
      obtain ⟨f1, f2, f3, f4⟩ := configure_finish_tables s2
      rw [h2, f1, f2, f3]
      exact ⟨k1.1, k1.2, by omega, k3⟩
  · intro s p prev h1 h2 h3
    have h4 : ¬ s.next_in_jack < MAX_IN_JACKS := by omega
    simp [walk_body, walk_cs_interface, h1, h2, h4, MIDI_CS_INTERFACE_IN_JACK,
      MIDI_CS_INTERFACE_HEADER]
  · intro s p prev h1 h2 h3
    have h4 : ¬ s.next_out_jack < MAX_OUT_JACKS := by omega
    simp [walk_body, walk_cs_interface, h1, h2, h4, MIDI_CS_INTERFACE_OUT_JACK,
      MIDI_CS_INTERFACE_IN_JACK, MIDI_CS_INTERFACE_HEADER]

/-- C10 as amended at a concrete input: the 17th IN-jack descriptor of
`seventeen_in_jacks_desc`, at offset 112, is skipped by a record that holds 16
IN jacks; and the parse of `seventeen_out_jacks_desc` (20 sub-descriptors, one
input pin per OUT jack) records 16 OUT jacks. -/
theorem configure_full_jack_tables_witness :
    walk_body seventeen_in_jacks_desc
      { usb_midi_descriptor_lib_init with next_in_jack := 16 } 112 0
      = some ({ usb_midi_descriptor_lib_init with next_in_jack := 16 }, 0) ∧
    ((20 + 1 ≤ MAX_STRING_INDICES ∧
      ∀ q ∈ configure_sub_descriptors seventeen_out_jacks_desc 0 183 20,
        rd seventeen_out_jacks_desc (q + 1) = TUSB_DESC_CS_INTERFACE →
        rd seventeen_out_jacks_desc (q + 2) = MIDI_CS_INTERFACE_OUT_JACK →
        rd seventeen_out_jacks_desc (q + 5) ≤ MAX_IN_JACKS) ∧
      ∀ r, usb_midi_descriptor_lib_configure 20 usb_midi_descriptor_lib_init
          seventeen_out_jacks_desc 0 183 = some r →
        r.2.next_in_jack ≤ MAX_IN_JACKS ∧ r.2.next_out_jack ≤ MAX_OUT_JACKS ∧
        r.2.num_string_indices ≤ MAX_STRING_INDICES ∧
        ∀ e ∈ r.2.out_jack_info, e.num_source_ids ≤ MAX_IN_JACKS) :=
  ⟨(configure_full_jack_tables seventeen_in_jacks_desc 0 132).2.1
      { usb_midi_descriptor_lib_init with next_in_jack := 16 } 112 0
      (by decide) (by decide) (by decide),
    ⟨by decide, by decide⟩,
    fun r h => (configure_full_jack_tables seventeen_out_jacks_desc 0 183).1 20 r
      (by decide) (by decide) h⟩

end UsbMidi
